import Mathlib

/-!
kubetrust: the CA-injecting admission webhook (`pkg/mutate/mutate.go`)

A shallow embedding of `mutateInternal` and of the two patch builders it contains
(the `Pod` branch and the `Job` branch), together with the RFC 6901 / RFC 6902
machinery needed to talk about what the emitted JSON Patch does to the object it
was computed from.

Conventions.
* A Go slice is `Option (List α)`: `none` is the nil slice (the JSON key is absent
  or `null`), `some xs` is a non-nil slice. `for i := range s` visits `Slice.elems s`.
* `map[string]interface{}` values are `Json` objects; the field order of the Go
  literal is kept.
* `fmt.Sprintf("...%d...", i)` is string concatenation with `toString i`.
* `[]byte` is `String`; logging (`verbose`) has no effect on the returned values.
* The object a patch is applied to is any JSON document `doc` that decodes to the typed
  object the builder inspected (`Pod.ofJson doc = some pod`); members the webhook does not
  read may be present in `doc` and are left alone by the patch.
-/

namespace Kubetrust

/-! ## JSON values -/

/-- JSON values, the meaning of `interface{}` in a patch and of a decoded document. -/
inductive Json where
  | null
  | bool (b : Bool)
  | num (n : Int)
  | str (s : String)
  | arr (xs : List Json)
  | obj (kvs : List (String × Json))
  deriving Repr, Inhabited

mutual
/-- Decidable equality of JSON values. -/
def Json.decEq : (a b : Json) → Decidable (a = b)
  | .null, .null => isTrue rfl
  | .bool a, .bool b =>
    if h : a = b then isTrue (by rw [h]) else isFalse (by intro e; injection e; contradiction)
  | .num a, .num b =>
    if h : a = b then isTrue (by rw [h]) else isFalse (by intro e; injection e; contradiction)
  | .str a, .str b =>
    if h : a = b then isTrue (by rw [h]) else isFalse (by intro e; injection e; contradiction)
  | .arr a, .arr b =>
    match Json.decEqList a b with
    | isTrue h => isTrue (by rw [h])
    | isFalse h => isFalse (by intro e; injection e; contradiction)
  | .obj a, .obj b =>
    match Json.decEqFields a b with
    | isTrue h => isTrue (by rw [h])
    | isFalse h => isFalse (by intro e; injection e; contradiction)
  | .null, .bool _ | .null, .num _ | .null, .str _ | .null, .arr _ | .null, .obj _
  | .bool _, .null | .bool _, .num _ | .bool _, .str _ | .bool _, .arr _ | .bool _, .obj _
  | .num _, .null | .num _, .bool _ | .num _, .str _ | .num _, .arr _ | .num _, .obj _
  | .str _, .null | .str _, .bool _ | .str _, .num _ | .str _, .arr _ | .str _, .obj _
  | .arr _, .null | .arr _, .bool _ | .arr _, .num _ | .arr _, .str _ | .arr _, .obj _
  | .obj _, .null | .obj _, .bool _ | .obj _, .num _ | .obj _, .str _ | .obj _, .arr _ =>
    isFalse (by intro e; cases e)
/-- Decidable equality of JSON arrays. -/
def Json.decEqList : (a b : List Json) → Decidable (a = b)
  | [], [] => isTrue rfl
  | [], _ :: _ => isFalse (by intro e; cases e)
  | _ :: _, [] => isFalse (by intro e; cases e)
  | x :: xs, y :: ys =>
    match Json.decEq x y, Json.decEqList xs ys with
    | isTrue h, isTrue h2 => isTrue (by rw [h, h2])
    | isFalse h, _ => isFalse (by intro e; injection e; contradiction)
    | _, isFalse h => isFalse (by intro e; injection e; contradiction)
/-- Decidable equality of JSON member lists. -/
def Json.decEqFields : (a b : List (String × Json)) → Decidable (a = b)
  | [], [] => isTrue rfl
  | [], _ :: _ => isFalse (by intro e; cases e)
  | _ :: _, [] => isFalse (by intro e; cases e)
  | (k, x) :: xs, (l, y) :: ys =>
    if hk : k = l then
      match Json.decEq x y, Json.decEqFields xs ys with
      | isTrue h, isTrue h2 => isTrue (by rw [hk, h, h2])
      | isFalse h, _ => isFalse (by intro e; injection e with e1 e2; injection e1; contradiction)
      | _, isFalse h => isFalse (by intro e; injection e; contradiction)
    else isFalse (by intro e; injection e with e1 e2; injection e1; contradiction)
end

instance : DecidableEq Json := Json.decEq

/-! ## Data model: the Kubernetes types the webhook reads -/

/-- Config holds the configuration for CA injection. -/
structure Config where
  ConfigMapName : String
  ConfigMapKey : String
  CertFileName : String
  deriving Repr, DecidableEq, Inhabited

/-- One `items` entry of a configMap volume source (`corev1.KeyToPath`). -/
structure KeyToPath where
  Key : String
  Path : String
  deriving Repr, DecidableEq, Inhabited

/-- The `configMap` source of a volume (`corev1.ConfigMapVolumeSource`). -/
structure ConfigMapVolumeSource where
  Name : String
  Items : List KeyToPath
  DefaultMode : Option Int
  deriving Repr, DecidableEq, Inhabited

/-- A Pod volume (`corev1.Volume`): its name and, when configMap-backed, its source. -/
structure Volume where
  Name : String
  ConfigMap : Option ConfigMapVolumeSource
  deriving Repr, DecidableEq, Inhabited

/-- A volume mount (`corev1.VolumeMount`); `SubPath` is empty when absent. -/
structure VolumeMount where
  Name : String
  MountPath : String
  SubPath : String
  ReadOnly : Bool
  deriving Repr, DecidableEq, Inhabited

/-- A container or init-container (`corev1.Container`). -/
structure Container where
  Name : String
  VolumeMounts : Option (List VolumeMount)
  deriving Repr, DecidableEq, Inhabited

/-- The part of `corev1.PodSpec` the webhook inspects. -/
structure PodSpec where
  Volumes : Option (List Volume)
  InitContainers : Option (List Container)
  Containers : Option (List Container)
  deriving Repr, DecidableEq, Inhabited

/-- A Pod (`corev1.Pod`). -/
structure Pod where
  Spec : PodSpec
  deriving Repr, DecidableEq, Inhabited

/-- The pod template of a Job (`corev1.PodTemplateSpec`). -/
structure PodTemplateSpec where
  Spec : PodSpec
  deriving Repr, DecidableEq, Inhabited

/-- The spec of a Job (`batchv1.JobSpec`). -/
structure JobSpec where
  Template : PodTemplateSpec
  deriving Repr, DecidableEq, Inhabited

/-- A Job (`batchv1.Job`). -/
structure Job where
  Spec : JobSpec
  deriving Repr, DecidableEq, Inhabited

/-- The elements a Go `range` loop visits: none for a nil slice. -/
def Slice.elems {α : Type} : Option (List α) → List α
  | none => []
  | some xs => xs

/-- One JSON Patch operation, the `map[string]interface{}` with keys op, path, value. -/
structure PatchOp where
  op : String
  path : String
  value : Json
  deriving Repr, DecidableEq, Inhabited

/-! ## The Pod branch of `mutateInternal` (lines 115-186) -/

/-- The value of the volume-add operation (lines 125-132 and 201-208). -/
def volumeValue (config : Config) : Json :=
  .obj [("name", .str "ca-certificates"),
        ("configMap", .obj [("name", .str config.ConfigMapName),
                            ("items", .arr [.obj [("key", .str config.ConfigMapKey),
                                                  ("path", .str config.CertFileName)]]),
                            ("defaultMode", .num 420)])]

/-- The value of the directory mount (lines 150-154, 174, 225). -/
def dirMountValue : Json :=
  .obj [("name", .str "ca-certificates"), ("mountPath", .str "/etc/ssl/certs/"),
        ("readOnly", .bool true)]

/-- The value of the bundle-file mount (lines 182 and 245). -/
def bundleMountValue : Json :=
  .obj [("name", .str "ca-certificates"),
        ("mountPath", .str "/var/lib/ca-certificates/ca-bundle.pem"),
        ("subPath", .str "ca-certificates.crt"), ("readOnly", .bool true)]

/-- The loop of lines 116-120: raises `testVol` at a volume named ca-certificates. -/
def scanVolumes : List Volume → Bool → Bool
  | [], testVol => testVol
  | v :: vs, testVol => scanVolumes vs (if v.Name = "ca-certificates" then true else testVol)

/-- The loop of lines 164-168: raises `testVol` at a mount named ca-certificates. -/
def scanMounts : List VolumeMount → Bool → Bool
  | [], testVol => testVol
  | m :: ms, testVol => scanMounts ms (if m.Name = "ca-certificates" then true else testVol)

/-- The loop of lines 136-157 over the init-containers, from index `i`, appending to `p`. -/
def initContainersLoop : List Container → Nat → List PatchOp → List PatchOp
  | [], _, p => p
  | c :: cs, i, p =>
    let p :=
      if c.VolumeMounts = none then
        p ++ [{ op := "add",
                path := "/spec/initContainers/" ++ toString i ++ "/volumeMounts",
                value := .arr [] }]
      else p
    let p := p ++ [{ op := "add",
                     path := "/spec/initContainers/" ++ toString i ++ "/volumeMounts/-",
                     value := dirMountValue }]
    initContainersLoop cs (i + 1) p

/-- The loop of lines 161-186 over the containers, from index `i`, with the flag `testVol`
carried from one iteration to the next, appending to `p`. -/
def containersLoop : List Container → Nat → Bool → List PatchOp → List PatchOp
  | [], _, _, p => p
  | c :: cs, i, testVol, p =>
    let testVol := scanMounts (Slice.elems c.VolumeMounts) testVol
    let p :=
      if !testVol then
        p ++ [{ op := "add",
                path := "/spec/containers/" ++ toString i ++ "/volumeMounts/-",
                value := dirMountValue },
              { op := "add",
                path := "/spec/containers/" ++ toString i ++ "/volumeMounts/-",
                value := bundleMountValue }]
      else p
    containersLoop cs (i + 1) testVol p

/-- The Pod branch (lines 115-186): the patch sequence `p` built for a Pod. -/
def mutatePod (config : Config) (pod : Pod) : List PatchOp :=
  let p : List PatchOp := []
  let testVol := scanVolumes (Slice.elems pod.Spec.Volumes) false
  let p :=
    if !testVol then
      let p := p ++ [{ op := "add", path := "/spec/volumes/-", value := volumeValue config }]
      initContainersLoop (Slice.elems pod.Spec.InitContainers) 0 p
    else p
  let testVol := false
  containersLoop (Slice.elems pod.Spec.Containers) 0 testVol p

/-! ## The Job branch of `mutateInternal` (lines 187-249) -/

/-- The loop of lines 211-228: array creation when nil, then the directory mount. -/
def jobDirLoop : List Container → Nat → List PatchOp → List PatchOp
  | [], _, p => p
  | c :: cs, i, p =>
    let p :=
      if c.VolumeMounts = none then
        p ++ [{ op := "add",
                path := "/spec/template/spec/containers/" ++ toString i ++ "/volumeMounts",
                value := .arr [] }]
      else p
    let p := p ++ [{ op := "add",
                     path := "/spec/template/spec/containers/" ++ toString i ++ "/volumeMounts/-",
                     value := dirMountValue }]
    jobDirLoop cs (i + 1) p

/-- The loop of lines 231-248: array creation when nil, then the bundle-file mount. -/
def jobBundleLoop : List Container → Nat → List PatchOp → List PatchOp
  | [], _, p => p
  | c :: cs, i, p =>
    let p :=
      if c.VolumeMounts = none then
        p ++ [{ op := "add",
                path := "/spec/template/spec/containers/" ++ toString i ++ "/volumeMounts",
                value := .arr [] }]
      else p
    let p := p ++ [{ op := "add",
                     path := "/spec/template/spec/containers/" ++ toString i ++ "/volumeMounts/-",
                     value := bundleMountValue }]
    jobBundleLoop cs (i + 1) p

/-- The Job branch (lines 187-249): the patch sequence `p` built for a Job. -/
def mutateJob (config : Config) (job : Job) : List PatchOp :=
  let p : List PatchOp := []
  let p :=
    if job.Spec.Template.Spec.Volumes = none then
      p ++ [{ op := "add", path := "/spec/template/spec/volumes", value := .arr [] }]
    else p
  let p := p ++ [{ op := "add", path := "/spec/template/spec/volumes/-",
                   value := volumeValue config }]
  let p := jobDirLoop (Slice.elems job.Spec.Template.Spec.Containers) 0 p
  jobBundleLoop (Slice.elems job.Spec.Template.Spec.Containers) 0 p

/-! ## JSON Pointer (RFC 6901) and JSON Patch (RFC 6902) -/

/-- Cuts a character sequence at every slash (RFC 6901, section 3). -/
def splitSlash : List Char → List (List Char)
  | [] => [[]]
  | c :: cs =>
    if c = '/' then [] :: splitSlash cs
    else
      match splitSlash cs with
      | [] => [[c]]
      | t :: ts => (c :: t) :: ts

/-- Decodes the escapes of a reference token: `~1` is a slash, `~0` a tilde
(RFC 6901, section 4). -/
def unescape : List Char → List Char
  | [] => []
  | '~' :: '1' :: cs => '/' :: unescape cs
  | '~' :: '0' :: cs => '~' :: unescape cs
  | c :: cs => c :: unescape cs

/-- The reference tokens of a JSON Pointer: the empty string is the whole document,
any other pointer starts with a slash (RFC 6901, section 3). -/
def parsePointer (s : String) : Option (List String) :=
  match s.data with
  | [] => some []
  | c :: cs => if c = '/' then some ((splitSlash cs).map (fun t => String.mk (unescape t))) else none

/-- The value of a sequence of decimal digits, most significant first. -/
def digitsValue (cs : List Char) : Nat :=
  cs.foldl (fun n c => 10 * n + (c.toNat - 48)) 0

/-- An array index: `0`, or a digit 1-9 followed by digits (RFC 6901, section 4). -/
def parseIndex (t : String) : Option Nat :=
  match t.data with
  | [] => none
  | c :: cs =>
    if c = '0' then (if cs = [] then some 0 else none)
    else if (c :: cs).all Char.isDigit then some (digitsValue (c :: cs))
    else none

/-- The member named `k` of an object's member list. -/
def getKey (k : String) : List (String × Json) → Option Json
  | [] => none
  | (k', v) :: kvs => if k' = k then some v else getKey k kvs

/-- Sets member `k` to `v`: replaces the value of an existing member, adds a new one
otherwise. -/
def setKey (k : String) (v : Json) : List (String × Json) → List (String × Json)
  | [] => [(k, v)]
  | (k', v') :: kvs => if k' = k then (k', v) :: kvs else (k', v') :: setKey k v kvs

/-- Removes member `k`. -/
def delKey (k : String) : List (String × Json) → List (String × Json)
  | [] => []
  | (k', v') :: kvs => if k' = k then kvs else (k', v') :: delKey k kvs

/-- The value a non-final reference token `t` leads to: a member of an object or an
existing element of an array. -/
def Json.child (doc : Json) (t : String) : Option Json :=
  match doc with
  | .obj kvs => getKey t kvs
  | .arr xs =>
    match parseIndex t with
    | some i => xs[i]?
    | none => none
  | _ => none

/-- Puts `c` back where `Json.child t` was read. -/
def Json.setChild (doc : Json) (t : String) (c : Json) : Json :=
  match doc with
  | .obj kvs => .obj (setKey t c kvs)
  | .arr xs =>
    match parseIndex t with
    | some i => .arr (xs.set i c)
    | none => .arr xs
  | d => d

/-- The `add` operation at the final token (RFC 6902, section 4.1): on an object it adds
the member or replaces the value of an existing one; on an array `-` appends and an index
not greater than the length inserts; anything else is an error. -/
def Json.addHere (doc : Json) (t : String) (v : Json) : Option Json :=
  match doc with
  | .obj kvs => some (.obj (setKey t v kvs))
  | .arr xs =>
    if t = "-" then some (.arr (xs ++ [v]))
    else
      match parseIndex t with
      | some i => if i ≤ xs.length then some (.arr (xs.take i ++ v :: xs.drop i)) else none
      | none => none
  | _ => none

/-- The `remove` operation at the final token (RFC 6902, section 4.2): the target must
exist. -/
def Json.removeHere (doc : Json) (t : String) : Option Json :=
  match doc with
  | .obj kvs =>
    match getKey t kvs with
    | some _ => some (.obj (delKey t kvs))
    | none => none
  | .arr xs =>
    match parseIndex t with
    | some i => if i < xs.length then some (.arr (xs.eraseIdx i)) else none
    | none => none
  | _ => none

/-- The `replace` operation at the final token (RFC 6902, section 4.3): the target must
exist. -/
def Json.replaceHere (doc : Json) (t : String) (v : Json) : Option Json :=
  match doc with
  | .obj kvs =>
    match getKey t kvs with
    | some _ => some (.obj (setKey t v kvs))
    | none => none
  | .arr xs =>
    match parseIndex t with
    | some i => if i < xs.length then some (.arr (xs.set i v)) else none
    | none => none
  | _ => none

/-- Walks the pointer down to its last token and performs `leaf` there; every token but
the last must lead to an existing value. -/
def atPointer (leaf : Json → String → Option Json) : List String → Json → Option Json
  | [], _ => none
  | [t], doc => leaf doc t
  | t :: t' :: ts, doc =>
    match Json.child doc t with
    | none => none
    | some c =>
      match atPointer leaf (t' :: ts) c with
      | none => none
      | some c' => some (Json.setChild doc t c')

/-- Applies one operation to a document; `none` is the error of RFC 6902, section 5. -/
def applyOp (o : PatchOp) (doc : Json) : Option Json :=
  match parsePointer o.path with
  | none => none
  | some [] =>
    if o.op = "add" ∨ o.op = "replace" then some o.value else none
  | some (t :: ts) =>
    if o.op = "add" then atPointer (fun d k => Json.addHere d k o.value) (t :: ts) doc
    else if o.op = "replace" then atPointer (fun d k => Json.replaceHere d k o.value) (t :: ts) doc
    else if o.op = "remove" then atPointer (fun d k => Json.removeHere d k) (t :: ts) doc
    else none

/-- Applies the operations in order; the first error aborts the whole patch. -/
def applyPatch : List PatchOp → Json → Option Json
  | [], doc => some doc
  | o :: os, doc =>
    match applyOp o doc with
    | none => none
    | some doc' => applyPatch os doc'

/-! ## The JSON documents of the workload objects -/

/-- The JSON form of an `items` entry. -/
def KeyToPath.toJson (k : KeyToPath) : Json :=
  .obj [("key", .str k.Key), ("path", .str k.Path)]

/-- The JSON form of a configMap volume source. -/
def ConfigMapVolumeSource.toJson (c : ConfigMapVolumeSource) : Json :=
  .obj ([("name", .str c.Name), ("items", .arr (c.Items.map KeyToPath.toJson))] ++
    (match c.DefaultMode with
     | some m => [("defaultMode", .num m)]
     | none => []))

/-- The JSON form of a volume. -/
def Volume.toJson (v : Volume) : Json :=
  .obj ([("name", .str v.Name)] ++
    (match v.ConfigMap with
     | some c => [("configMap", c.toJson)]
     | none => []))

/-- The JSON form of a volume mount; an empty sub-path is omitted. -/
def VolumeMount.toJson (m : VolumeMount) : Json :=
  .obj ([("name", .str m.Name), ("mountPath", .str m.MountPath)] ++
    (if m.SubPath = "" then [] else [("subPath", .str m.SubPath)]) ++
    [("readOnly", .bool m.ReadOnly)])

/-- The JSON form of a container; a nil `volumeMounts` is an absent member. -/
def Container.toJson (c : Container) : Json :=
  .obj ([("name", .str c.Name)] ++
    (match c.VolumeMounts with
     | some ms => [("volumeMounts", .arr (ms.map VolumeMount.toJson))]
     | none => []))

/-- An object member that is present exactly for a non-nil slice. -/
def sliceField {α : Type} (k : String) (f : α → Json) : Option (List α) → List (String × Json)
  | some xs => [(k, .arr (xs.map f))]
  | none => []

/-- The JSON form of a pod spec. -/
def PodSpec.toJson (s : PodSpec) : Json :=
  .obj (sliceField "volumes" Volume.toJson s.Volumes ++
        sliceField "initContainers" Container.toJson s.InitContainers ++
        sliceField "containers" Container.toJson s.Containers)

/-- The JSON document of a Pod. -/
def Pod.toJson (p : Pod) : Json :=
  .obj [("spec", p.Spec.toJson)]

/-- The JSON document of a Job. -/
def Job.toJson (j : Job) : Json :=
  .obj [("spec", .obj [("template", .obj [("spec", j.Spec.Template.Spec.toJson)])])]

/-! ## Decoding a JSON document into the typed objects

The reading of the members the webhook inspects, as `json.Unmarshal` does it: an absent
or `null` slice member is the nil slice, an absent or `null` string is the empty string,
members that are not modelled are ignored. A value of the wrong JSON type is a decoding
error (`none`); objects are required where a struct is expected, so a document without
an object member `spec` (for a Job, `spec.template.spec`) does not decode here although
`json.Unmarshal` gives it an empty object; member names are matched exactly. -/

/-- A string member: absent or null is the empty string. -/
def optString : Option Json → Option String
  | none => some ""
  | some .null => some ""
  | some (.str s) => some s
  | some _ => none

/-- A boolean member: absent or null is false. -/
def optBool : Option Json → Option Bool
  | none => some false
  | some .null => some false
  | some (.bool b) => some b
  | some _ => none

/-- An integer pointer member: absent or null is nil. -/
def optInt : Option Json → Option (Option Int)
  | none => some none
  | some .null => some none
  | some (.num n) => some (some n)
  | some _ => none

/-- Decodes every element of an array; one failure fails the whole array. -/
def decodeList {α : Type} (f : Json → Option α) : List Json → Option (List α)
  | [] => some []
  | x :: xs =>
    match f x with
    | none => none
    | some a =>
      match decodeList f xs with
      | none => none
      | some as => some (a :: as)

/-- A slice member: absent or null is the nil slice, an array is a non-nil slice. -/
def optSlice {α : Type} (f : Json → Option α) : Option Json → Option (Option (List α))
  | none => some none
  | some .null => some none
  | some (.arr xs) =>
    match decodeList f xs with
    | none => none
    | some as => some (some as)
  | some _ => none

/-- Decodes an `items` entry. -/
def KeyToPath.ofJson : Json → Option KeyToPath
  | .obj kvs =>
    match optString (getKey "key" kvs), optString (getKey "path" kvs) with
    | some k, some p => some { Key := k, Path := p }
    | _, _ => none
  | _ => none

/-- Decodes a configMap volume source. -/
def ConfigMapVolumeSource.ofJson : Json → Option ConfigMapVolumeSource
  | .obj kvs =>
    match optString (getKey "name" kvs), optSlice KeyToPath.ofJson (getKey "items" kvs),
          optInt (getKey "defaultMode" kvs) with
    | some n, some items, some m => some { Name := n, Items := Slice.elems items, DefaultMode := m }
    | _, _, _ => none
  | _ => none

/-- A configMap pointer member: absent or null is nil. -/
def optConfigMap : Option Json → Option (Option ConfigMapVolumeSource)
  | none => some none
  | some .null => some none
  | some j =>
    match ConfigMapVolumeSource.ofJson j with
    | none => none
    | some c => some (some c)

/-- Decodes a volume. -/
def Volume.ofJson : Json → Option Volume
  | .obj kvs =>
    match optString (getKey "name" kvs), optConfigMap (getKey "configMap" kvs) with
    | some n, some c => some { Name := n, ConfigMap := c }
    | _, _ => none
  | _ => none

/-- Decodes a volume mount. -/
def VolumeMount.ofJson : Json → Option VolumeMount
  | .obj kvs =>
    match optString (getKey "name" kvs), optString (getKey "mountPath" kvs),
          optString (getKey "subPath" kvs), optBool (getKey "readOnly" kvs) with
    | some n, some p, some sp, some r => some { Name := n, MountPath := p, SubPath := sp, ReadOnly := r }
    | _, _, _, _ => none
  | _ => none

/-- Decodes a container. -/
def Container.ofJson : Json → Option Container
  | .obj kvs =>
    match optString (getKey "name" kvs), optSlice VolumeMount.ofJson (getKey "volumeMounts" kvs) with
    | some n, some ms => some { Name := n, VolumeMounts := ms }
    | _, _ => none
  | _ => none

/-- Decodes a pod spec. -/
def PodSpec.ofJson : Json → Option PodSpec
  | .obj kvs =>
    match optSlice Volume.ofJson (getKey "volumes" kvs),
          optSlice Container.ofJson (getKey "initContainers" kvs),
          optSlice Container.ofJson (getKey "containers" kvs) with
    | some vs, some ics, some cs => some { Volumes := vs, InitContainers := ics, Containers := cs }
    | _, _, _ => none
  | _ => none

/-- Decodes a Pod document: an object with an object member `spec`. -/
def Pod.ofJson : Json → Option Pod
  | .obj kvs =>
    match getKey "spec" kvs with
    | none => none
    | some j =>
      match PodSpec.ofJson j with
      | none => none
      | some s => some { Spec := s }
  | _ => none

/-- Decodes a Job document: an object with object members `spec.template.spec`. -/
def Job.ofJson : Json → Option Job
  | .obj kvs =>
    match getKey "spec" kvs with
    | some (.obj kvs1) =>
      match getKey "template" kvs1 with
      | some (.obj kvs2) =>
        match getKey "spec" kvs2 with
        | none => none
        | some j =>
          match PodSpec.ofJson j with
          | none => none
          | some s => some { Spec := { Template := { Spec := s } } }
      | _ => none
    | _ => none
  | _ => none

/-! ## Serialisation of the patch (`json.Marshal(p)`, line 251) -/

/-- Joins rendered items with commas. -/
def joinComma : List String → String
  | [] => ""
  | [x] => x
  | x :: y :: xs => x ++ "," ++ joinComma (y :: xs)

/-- Inserts a member into a member list sorted by key. -/
def insertMember (kv : String × String) : List (String × String) → List (String × String)
  | [] => [kv]
  | kv' :: rest => if kv'.1 < kv.1 then kv' :: insertMember kv rest else kv :: kv' :: rest

/-- Sorts members by key, as `encoding/json` does when it writes a map. -/
def sortMembers : List (String × String) → List (String × String)
  | [] => []
  | kv :: rest => insertMember kv (sortMembers rest)

mutual
/-- Compact JSON text of a value; `quote` is the string-literal encoding of
`encoding/json`. -/
def Json.render (quote : String → String) : Json → String
  | .null => "null"
  | .bool true => "true"
  | .bool false => "false"
  | .num n => toString n
  | .str s => quote s
  | .arr xs => "[" ++ joinComma (Json.renderList quote xs) ++ "]"
  | .obj kvs =>
    "\x7b" ++ joinComma ((sortMembers (Json.renderMembers quote kvs)).map
      (fun kv => quote kv.1 ++ ":" ++ kv.2)) ++ "\x7d"
/-- Renders the elements of an array. -/
def Json.renderList (quote : String → String) : List Json → List String
  | [] => []
  | x :: xs => Json.render quote x :: Json.renderList quote xs
/-- Renders the values of the members of an object. -/
def Json.renderMembers (quote : String → String) : List (String × Json) → List (String × String)
  | [] => []
  | (k, v) :: kvs => (k, Json.render quote v) :: Json.renderMembers quote kvs
end

/-- The map with keys op, path and value that one patch operation is. -/
def PatchOp.toJson (o : PatchOp) : Json :=
  .obj [("op", .str o.op), ("path", .str o.path), ("value", o.value)]

/-- The bytes of `json.Marshal(p)` for the patch slice `p`. -/
def marshalPatch (quote : String → String) (p : List PatchOp) : String :=
  Json.render quote (.arr (p.map PatchOp.toJson))

/-! ## The admission envelope and `mutateInternal` -/

/-- The `kind` of the object under review (`metav1.GroupVersionKind`). -/
structure GroupVersionKind where
  Group : String
  Version : String
  Kind : String
  deriving Repr, DecidableEq, Inhabited

/-- The raw bytes of the embedded object (`runtime.RawExtension`). -/
structure RawExtension where
  Raw : String
  deriving Repr, DecidableEq, Inhabited

/-- The admission request (`v1beta1.AdmissionRequest`), the members the webhook reads. -/
structure AdmissionRequest where
  UID : String
  Kind : GroupVersionKind
  Object : RawExtension
  deriving Repr, DecidableEq, Inhabited

/-- The result status (`metav1.Status`). -/
structure Status where
  Status : String
  deriving Repr, DecidableEq, Inhabited

/-- The admission response (`v1beta1.AdmissionResponse`). -/
structure AdmissionResponse where
  UID : String
  Allowed : Bool
  Result : Option Status
  Patch : String
  PatchType : Option String
  AuditAnnotations : List (String × String)
  deriving Repr, DecidableEq, Inhabited

/-- The envelope (`v1beta1.AdmissionReview`). -/
structure AdmissionReview where
  Request : Option AdmissionRequest
  Response : Option AdmissionResponse
  deriving Repr, DecidableEq, Inhabited

/-- The functions of `encoding/json` that `mutateInternal` calls, each at the type it is
called at; an error carries its message. -/
structure JsonLib where
  unmarshalReview : String → Except String AdmissionReview
  unmarshalPod : String → Except String Pod
  unmarshalJob : String → Except String Job
  quote : String → String
  marshalReview : AdmissionReview → Except String String

/-- The response of lines 89-98 and 250-258 for the request `ar` and the patch `p`. -/
def buildResponse (lib : JsonLib) (ar : AdmissionRequest) (p : List PatchOp) : AdmissionResponse :=
  { Allowed := true
    UID := ar.UID
    PatchType := some "JSONPatch"
    AuditAnnotations := [("mutateme", "yup it did it")]
    Patch := marshalPatch lib.quote p
    Result := some { Status := "Success" } }

/-- Lines 258-264: stores the response in the envelope and serialises the envelope. -/
def respond (lib : JsonLib) (admReview : AdmissionReview) (ar : AdmissionRequest)
    (p : List PatchOp) : Except String String :=
  match lib.marshalReview { admReview with Response := some (buildResponse lib ar p) } with
  | .error err => .error err
  | .ok responseBody => .ok responseBody

/-- The internal mutation logic (lines 53-272). The object is decoded and the patch is
built under the same test of `ar.Kind.Kind`, so the two `if` chains of the source are one
here. -/
def mutateInternal (lib : JsonLib) (body : String) (verbose : Bool) (config : Config) :
    Except String String :=
  match lib.unmarshalReview body with
  | .error err => .error ("unmarshaling request failed with " ++ err)
  | .ok admReview =>
    match admReview.Request with
    | none => .ok ""
    | some ar =>
      if ar.Kind.Kind = "Pod" then
        match lib.unmarshalPod ar.Object.Raw with
        | .error err => .error ("unable unmarshal pod json object " ++ err)
        | .ok pod => respond lib admReview ar (mutatePod config pod)
      else if ar.Kind.Kind = "Job" then
        match lib.unmarshalJob ar.Object.Raw with
        | .error err => .error ("unable unmarshal job json object " ++ err)
        | .ok job => respond lib admReview ar (mutateJob config job)
      else respond lib admReview ar []

/-- Returns the environment variable value or the default; `env` is `os.Getenv`, which
gives the empty string for an unset variable. -/
def getEnvOrDefault (env : String → String) (key defaultValue : String) : String :=
  if env key ≠ "" then env key else defaultValue

/-- Returns the configuration from environment variables with defaults. -/
def GetConfig (env : String → String) : Config :=
  { ConfigMapName := getEnvOrDefault env "CA_CONFIGMAP_NAME" "trust-bundle"
    ConfigMapKey := getEnvOrDefault env "CA_CONFIGMAP_KEY" "trust-bundle.pem"
    CertFileName := getEnvOrDefault env "CA_CERT_FILENAME" "ca-certificates.crt" }

/-- Mutates with custom configuration. -/
def MutateWithConfig (lib : JsonLib) (body : String) (verbose : Bool) (config : Config) :
    Except String String :=
  mutateInternal lib body verbose config

/-- Mutates using configuration from environment variables. -/
def Mutate (lib : JsonLib) (env : String → String) (body : String) (verbose : Bool) :
    Except String String :=
  mutateInternal lib body verbose (GetConfig env)

/-! ## Vocabulary of the properties -/

/-- The spec already has a volume named ca-certificates. -/
def hasCaVolume (s : PodSpec) : Prop :=
  ∃ v ∈ Slice.elems s.Volumes, v.Name = "ca-certificates"

instance (s : PodSpec) : Decidable (hasCaVolume s) := by
  unfold hasCaVolume; infer_instance

/-- The container already has a volume mount named ca-certificates. -/
def hasCaMount (c : Container) : Prop :=
  ∃ m ∈ Slice.elems c.VolumeMounts, m.Name = "ca-certificates"

instance (c : Container) : Decidable (hasCaMount c) := by
  unfold hasCaMount; infer_instance

/-- The pointer to the end of the `volumeMounts` array of container `i` of a Pod. -/
def podContainerMountsEnd (i : Nat) : String :=
  "/spec/containers/" ++ toString i ++ "/volumeMounts/-"

/-- The pointer to the `volumeMounts` member of init-container `i` of a Pod. -/
def podInitMounts (i : Nat) : String :=
  "/spec/initContainers/" ++ toString i ++ "/volumeMounts"

/-- The pointer to the end of the `volumeMounts` array of init-container `i` of a Pod. -/
def podInitMountsEnd (i : Nat) : String :=
  "/spec/initContainers/" ++ toString i ++ "/volumeMounts/-"

/-- The pointer to the `volumeMounts` member of template container `i` of a Job. -/
def jobContainerMounts (i : Nat) : String :=
  "/spec/template/spec/containers/" ++ toString i ++ "/volumeMounts"

/-- The pointer to the end of the `volumeMounts` array of template container `i` of a Job. -/
def jobContainerMountsEnd (i : Nat) : String :=
  "/spec/template/spec/containers/" ++ toString i ++ "/volumeMounts/-"

/-- The operations for one init-container as the specification words them: the array
creation exactly when `volumeMounts` is null, then the directory mount. -/
def initContainerOps (ic : Nat × Container) : List PatchOp :=
  (if ic.2.VolumeMounts = none then
    [{ op := "add", path := podInitMounts ic.1, value := .arr [] }]
   else []) ++
  [{ op := "add", path := podInitMountsEnd ic.1, value := dirMountValue }]

/-- The operations for one container as the specification words them: the directory mount
followed by the bundle-file mount. -/
def containerOps (i : Nat) : List PatchOp :=
  [{ op := "add", path := podContainerMountsEnd i, value := dirMountValue },
   { op := "add", path := podContainerMountsEnd i, value := bundleMountValue }]

/-- The patch sequence of a fresh injection as the specification words it: the volume,
then every init-container in index order, then every container in index order. -/
def freshPodPatch (config : Config) (pod : Pod) : List PatchOp :=
  [{ op := "add", path := "/spec/volumes/-", value := volumeValue config }] ++
  (List.enumFrom 0 (Slice.elems pod.Spec.InitContainers)).flatMap initContainerOps ++
  (List.enumFrom 0 (Slice.elems pod.Spec.Containers)).flatMap (fun c => containerOps c.1)

/-- The container has a mount named ca-certificates at the certificate directory. -/
def hasDirMount (c : Container) : Prop :=
  ∃ m ∈ Slice.elems c.VolumeMounts, m.Name = "ca-certificates" ∧ m.MountPath = "/etc/ssl/certs/"

instance (c : Container) : Decidable (hasDirMount c) := by
  unfold hasDirMount; infer_instance

/-- The container has a mount named ca-certificates at the bundle file. -/
def hasBundleMount (c : Container) : Prop :=
  ∃ m ∈ Slice.elems c.VolumeMounts,
    m.Name = "ca-certificates" ∧ m.MountPath = "/var/lib/ca-certificates/ca-bundle.pem"

instance (c : Container) : Decidable (hasBundleMount c) := by
  unfold hasBundleMount; infer_instance

/-- The spec has a configMap-backed volume named ca-certificates that references the
configured configMap and projects the configured key to the configured file name. -/
def hasConfigVolume (config : Config) (s : PodSpec) : Prop :=
  ∃ v ∈ Slice.elems s.Volumes, v.Name = "ca-certificates" ∧
    ∃ cm, v.ConfigMap = some cm ∧ cm.Name = config.ConfigMapName ∧
      { Key := config.ConfigMapKey, Path := config.CertFileName } ∈ cm.Items

/-- An operation is an append when the last reference token of its pointer is `-`. -/
def isAppend (o : PatchOp) : Bool :=
  match parsePointer o.path with
  | some ts => decide (ts.getLast? = some "-")
  | none => false

/-- The directory mount-add for template container `i` of a Job. -/
def jobDirOp (i : Nat) : PatchOp :=
  { op := "add", path := jobContainerMountsEnd i, value := dirMountValue }

/-- The bundle-file mount-add for template container `i` of a Job. -/
def jobBundleOp (i : Nat) : PatchOp :=
  { op := "add", path := jobContainerMountsEnd i, value := bundleMountValue }

/-- The volume-add of a Job. -/
def jobVolumeOp (config : Config) : PatchOp :=
  { op := "add", path := "/spec/template/spec/volumes/-", value := volumeValue config }

/-- The creation of the `volumes` array of a Job template. -/
def jobVolumesCreateOp : PatchOp :=
  { op := "add", path := "/spec/template/spec/volumes", value := .arr [] }

/-- No container with an index up to `i` has a mount named ca-certificates. -/
def noMountUpTo (cs : List Container) (i : Nat) : Prop :=
  ∀ j, j ≤ i → ∀ d, cs[j]? = some d → ¬ hasCaMount d

/-- The value is a read-only mount named ca-certificates at the certificate directory or
at the bundle file. -/
def isCaMountValue (v : Json) : Prop :=
  ∃ m, VolumeMount.ofJson v = some m ∧ m.Name = "ca-certificates" ∧ m.ReadOnly = true ∧
    (m.MountPath = "/etc/ssl/certs/" ∨ m.MountPath = "/var/lib/ca-certificates/ca-bundle.pem")

/-- The path ends in the pointer of an append to a `volumeMounts` array. -/
def endsInMountsAppend (path : String) : Prop :=
  "/volumeMounts/-".data <:+ path.data

/-- Every index that a pointer with tokens `ts` holds right after the tokens `pre` is an
array index smaller than `n`. -/
def indexAfter (pre : List String) (n : Nat) (ts : List String) : Prop :=
  ∀ t rest, ts = pre ++ t :: rest → ∃ i, parseIndex t = some i ∧ i < n

/-! ## Concrete objects used to exercise the statements -/

/-- The default configuration. -/
def defaultConfig : Config :=
  { ConfigMapName := "trust-bundle", ConfigMapKey := "trust-bundle.pem",
    CertFileName := "ca-certificates.crt" }

/-- A configuration with a certificate file name of its own. -/
def customConfig : Config :=
  { ConfigMapName := "corp-ca", ConfigMapKey := "ca.pem", CertFileName := "corp-ca.crt" }

/-- A mount named ca-certificates at the certificate directory. -/
def caDirMount : VolumeMount :=
  { Name := "ca-certificates", MountPath := "/etc/ssl/certs/", SubPath := "", ReadOnly := true }

/-- A mount named ca-certificates at the bundle file. -/
def caBundleMount : VolumeMount :=
  { Name := "ca-certificates", MountPath := "/var/lib/ca-certificates/ca-bundle.pem",
    SubPath := "ca-certificates.crt", ReadOnly := true }

/-- The configMap-backed volume the webhook injects. -/
def caVolume (config : Config) : Volume :=
  { Name := "ca-certificates",
    ConfigMap := some { Name := config.ConfigMapName,
                        Items := [{ Key := config.ConfigMapKey, Path := config.CertFileName }],
                        DefaultMode := some 420 } }

/-- A Pod with two containers of which only the first already has the mount (P3). -/
def podFirstMounted : Pod :=
  { Spec := { Volumes := some [caVolume defaultConfig], InitContainers := none,
              Containers := some [{ Name := "app", VolumeMounts := some [caDirMount, caBundleMount] },
                                  { Name := "sidecar", VolumeMounts := some [] }] } }

/-- A Pod that has the volume already, an init-container, and a container without mounts. -/
def podWithVolume : Pod :=
  { Spec := { Volumes := some [caVolume defaultConfig],
              InitContainers := some [{ Name := "init", VolumeMounts := none }],
              Containers := some [{ Name := "app", VolumeMounts := some [] }] } }

/-- A fresh Pod: no volume, an init-container without `volumeMounts`, two containers. -/
def podFresh : Pod :=
  { Spec := { Volumes := some [],
              InitContainers := some [{ Name := "init", VolumeMounts := none }],
              Containers := some [{ Name := "app", VolumeMounts := some [] },
                                  { Name := "sidecar", VolumeMounts := some [] }] } }

/-- A Pod without the volume whose init-container already has the mount. -/
def podInitMounted : Pod :=
  { Spec := { Volumes := some [],
              InitContainers := some [{ Name := "init", VolumeMounts := some [caDirMount] }],
              Containers := some [{ Name := "app", VolumeMounts := some [caDirMount, caBundleMount] }] } }

/-- A Pod with one container and nothing injected yet. -/
def podOne : Pod :=
  { Spec := { Volumes := some [], InitContainers := none,
              Containers := some [{ Name := "app", VolumeMounts := some [] }] } }

/-- A Pod whose container already has a mount named ca-certificates at a path of its own. -/
def podCustomMount : Pod :=
  { Spec := { Volumes := some [], InitContainers := none,
              Containers := some [{ Name := "app",
                                    VolumeMounts := some [{ Name := "ca-certificates",
                                                            MountPath := "/opt/app/ca/",
                                                            SubPath := "", ReadOnly := true }] }] } }

/-- The Pod `podFresh` after its patch. -/
def podFreshPatched : Pod :=
  { Spec := { Volumes := some [caVolume defaultConfig],
              InitContainers := some [{ Name := "init", VolumeMounts := some [caDirMount] }],
              Containers := some [{ Name := "app", VolumeMounts := some [caDirMount, caBundleMount] },
                                  { Name := "sidecar",
                                    VolumeMounts := some [caDirMount, caBundleMount] }] } }

/-- The Pod `podCustomMount` after its patch. -/
def podCustomMountPatched : Pod :=
  { Spec := { Volumes := some [caVolume defaultConfig], InitContainers := none,
              Containers := some [{ Name := "app",
                                    VolumeMounts := some [{ Name := "ca-certificates",
                                                            MountPath := "/opt/app/ca/",
                                                            SubPath := "", ReadOnly := true }] }] } }

/-- A Pod with three containers of which only the second already has the mount. -/
def podSecondMounted : Pod :=
  { Spec := { Volumes := none, InitContainers := none,
              Containers := some [{ Name := "a", VolumeMounts := some [] },
                                  { Name := "b", VolumeMounts := some [caDirMount] },
                                  { Name := "c", VolumeMounts := some [] }] } }

/-- A Pod whose `volumes` is null and whose only container has a null `volumeMounts`. -/
def podNullArrays : Pod :=
  { Spec := { Volumes := none, InitContainers := none,
              Containers := some [{ Name := "app", VolumeMounts := none }] } }

/-- A Pod whose `volumes` is an empty array and whose only container has a null
`volumeMounts`. -/
def podNullMounts : Pod :=
  { Spec := { Volumes := some [], InitContainers := none,
              Containers := some [{ Name := "app", VolumeMounts := none }] } }

/-- A Pod whose `volumes` is null and whose only container has an empty `volumeMounts`. -/
def podNullVolumes : Pod :=
  { Spec := { Volumes := none, InitContainers := none,
              Containers := some [{ Name := "app", VolumeMounts := some [] }] } }

/-- A Job whose template has one container and nothing injected yet. -/
def jobOne : Job :=
  { Spec := { Template := { Spec := podOne.Spec } } }

/-- A Job as usually written: no volumes, one container without `volumeMounts`. -/
def jobNullMounts : Job :=
  { Spec := { Template := { Spec :=
      { Volumes := none, InitContainers := none,
        Containers := some [{ Name := "job", VolumeMounts := none }] } } } }

/-- The Job `jobNullMounts` after its patch. -/
def jobNullMountsPatched : Job :=
  { Spec := { Template := { Spec :=
      { Volumes := some [caVolume defaultConfig], InitContainers := none,
        Containers := some [{ Name := "job", VolumeMounts := some [caBundleMount] }] } } } }

/-- A Job that was patched before: the volume and both mounts are there. -/
def jobAlreadyPatched : Job :=
  { Spec := { Template := { Spec :=
      { Volumes := some [caVolume defaultConfig], InitContainers := none,
        Containers := some [{ Name := "job",
                              VolumeMounts := some [caDirMount, caBundleMount] }] } } } }

/-- A small `JsonLib` for exercising `mutateInternal`: the body is read as the target
kind of a request with uid `uid-1` and an object that decodes neither as a Pod nor as a
Job; an empty body is a decoding error. -/
def kindOnlyLib : JsonLib :=
  { unmarshalReview := fun body =>
      if body = "" then .error "unexpected end of JSON input"
      else .ok { Request := some { UID := "uid-1",
                                   Kind := { Group := "", Version := "v1", Kind := body },
                                   Object := { Raw := "not an object" } },
                 Response := none }
    unmarshalPod := fun _ => .error "invalid character"
    unmarshalJob := fun _ => .error "invalid character"
    quote := fun s => s
    marshalReview := fun r =>
      .ok (match r.Response with
           | some resp => resp.UID ++ " " ++ resp.Patch
           | none => "") }

/-- A small `JsonLib` for exercising `mutateInternal`: the body `review` decodes to the
given envelope and any other body is a decoding error; the object bytes `pod` decode to
`podFresh`, the object bytes `job` to `jobNullMounts`, any other bytes to nothing. -/
def tableLib (review : AdmissionReview) : JsonLib :=
  { unmarshalReview := fun body =>
      if body = "review" then .ok review else .error "invalid character"
    unmarshalPod := fun raw =>
      if raw = "pod" then .ok podFresh else .error "cannot unmarshal"
    unmarshalJob := fun raw =>
      if raw = "job" then .ok jobNullMounts else .error "cannot unmarshal"
    quote := fun s => s
    marshalReview := fun r =>
      .ok (match r.Response with
           | some resp => resp.UID ++ " " ++ resp.Patch
           | none => "") }

/-- A request for a Pod whose object bytes decode. -/
def podRequest : AdmissionRequest :=
  { UID := "uid-7", Kind := { Group := "", Version := "v1", Kind := "Pod" },
    Object := { Raw := "pod" } }

/-- A request for a Pod whose object bytes do not decode. -/
def badPodRequest : AdmissionRequest :=
  { UID := "uid-8", Kind := { Group := "", Version := "v1", Kind := "Pod" },
    Object := { Raw := "garbage" } }

/-- A request for a Job whose object bytes do not decode. -/
def badJobRequest : AdmissionRequest :=
  { UID := "uid-9", Kind := { Group := "batch", Version := "v1", Kind := "Job" },
    Object := { Raw := "garbage" } }

/-- An environment in which only `CA_CONFIGMAP_KEY` is set to a value, and
`CA_CERT_FILENAME` is set to the empty string. -/
def sampleEnv (name : String) : Option String :=
  if name = "CA_CONFIGMAP_KEY" then some "corp.pem"
  else if name = "CA_CERT_FILENAME" then some ""
  else none

/-- The function `os.Getenv` of an environment: the empty string for an unset variable. -/
def getenv (env : String → Option String) (name : String) : String :=
  match env name with
  | some v => v
  | none => ""

/-! ## The effect of the emitted operations on the typed objects

The typed counterparts of the `add` operations the builders emit. They are compared with
`applyOp` on documents through `Agrees`. -/

/-- The outcome `r` of an operation on a document agrees with the typed outcome `t`: both
fail, or `r` is a document that decodes to the typed result. -/
def Agrees {α : Type} (decode : Json → Option α) (r : Option Json) (t : Option α) : Prop :=
  match t with
  | none => r = none
  | some a => ∃ j, r = some j ∧ decode j = some a

/-- Sets `volumeMounts` of a container to the empty array. -/
def Container.createMounts (c : Container) : Option Container :=
  some { c with VolumeMounts := some [] }

/-- Appends a mount to an existing `volumeMounts` array of a container. -/
def Container.appendMount (m : VolumeMount) (c : Container) : Option Container :=
  match c.VolumeMounts with
  | none => none
  | some ms => some { c with VolumeMounts := some (ms ++ [m]) }

/-- The init-containers (`init = true`) or the containers of a spec. -/
def PodSpec.containersOf (init : Bool) (s : PodSpec) : Option (List Container) :=
  if init then s.InitContainers else s.Containers

/-- Replaces the init-containers (`init = true`) or the containers of a spec. -/
def PodSpec.withContainers (init : Bool) (s : PodSpec) (cs : List Container) : PodSpec :=
  if init then { s with InitContainers := some cs } else { s with Containers := some cs }

/-- The member name of the init-containers or the containers. -/
def containersKey (init : Bool) : String :=
  if init then "initContainers" else "containers"

/-- Performs `f` on container `i` of the chosen list; fails when there is no such
container or `f` fails. -/
def PodSpec.atContainer (init : Bool) (i : Nat) (f : Container → Option Container)
    (s : PodSpec) : Option PodSpec :=
  match s.containersOf init with
  | none => none
  | some cs =>
    match cs[i]? with
    | none => none
    | some c =>
      match f c with
      | none => none
      | some c' => some (s.withContainers init (cs.set i c'))

/-- Appends a volume to an existing `volumes` array. -/
def PodSpec.appendVolume (v : Volume) (s : PodSpec) : Option PodSpec :=
  match s.Volumes with
  | none => none
  | some vs => some { s with Volumes := some (vs ++ [v]) }

/-- Sets `volumes` to the empty array. -/
def PodSpec.createVolumes (s : PodSpec) : Option PodSpec :=
  some { s with Volumes := some [] }

/-- Performs `f` on the spec of a Pod. -/
def Pod.atSpec (f : PodSpec → Option PodSpec) (p : Pod) : Option Pod :=
  match f p.Spec with
  | none => none
  | some s => some { Spec := s }

/-- Performs `f` on the template spec of a Job. -/
def Job.atSpec (f : PodSpec → Option PodSpec) (j : Job) : Option Job :=
  match f j.Spec.Template.Spec with
  | none => none
  | some s => some { Spec := { Template := { Spec := s } } }

/-- Runs typed steps in order; the first failure aborts. -/
def runSteps {α : Type} : List (α → Option α) → α → Option α
  | [], a => some a
  | f :: fs, a =>
    match f a with
    | none => none
    | some a' => runSteps fs a'

/-- The typed step of a volume-add. -/
def stepVolume (config : Config) : PodSpec → Option PodSpec :=
  PodSpec.appendVolume (caVolume config)

/-- The typed step of an array creation at container `i`. -/
def stepCreate (init : Bool) (i : Nat) : PodSpec → Option PodSpec :=
  PodSpec.atContainer init i Container.createMounts

/-- The typed step of a mount-add at container `i`. -/
def stepAppend (init : Bool) (i : Nat) (m : VolumeMount) : PodSpec → Option PodSpec :=
  PodSpec.atContainer init i (Container.appendMount m)

/-- The operations for one init-container of a Pod, each with its typed step. -/
def podInitPairs (ic : Nat × Container) : List (PatchOp × (PodSpec → Option PodSpec)) :=
  (if ic.2.VolumeMounts = none then
    [(({ op := "add", path := podInitMounts ic.1, value := .arr [] } : PatchOp),
      stepCreate true ic.1)]
   else []) ++
  [(({ op := "add", path := podInitMountsEnd ic.1, value := dirMountValue } : PatchOp),
    stepAppend true ic.1 caDirMount)]

/-- The operations for one container of a Pod, each with its typed step. -/
def podContainerPairs (i : Nat) : List (PatchOp × (PodSpec → Option PodSpec)) :=
  [(({ op := "add", path := podContainerMountsEnd i, value := dirMountValue } : PatchOp),
    stepAppend false i caDirMount),
   (({ op := "add", path := podContainerMountsEnd i, value := bundleMountValue } : PatchOp),
    stepAppend false i caBundleMount)]

/-- The patch sequence of a Pod, each operation with its typed step. -/
def podPairs (config : Config) (pod : Pod) : List (PatchOp × (PodSpec → Option PodSpec)) :=
  (if hasCaVolume pod.Spec then []
   else (({ op := "add", path := "/spec/volumes/-", value := volumeValue config } : PatchOp),
         stepVolume config) ::
     (List.enumFrom 0 (Slice.elems pod.Spec.InitContainers)).flatMap podInitPairs) ++
  (List.enumFrom 0 ((Slice.elems pod.Spec.Containers).takeWhile
    (fun c => decide (¬ hasCaMount c)))).flatMap (fun c => podContainerPairs c.1)

/-- A container after the directory mount was appended to its (possibly created)
`volumeMounts`. -/
def addDirMount (c : Container) : Container :=
  { c with VolumeMounts := some (Slice.elems c.VolumeMounts ++ [caDirMount]) }

/-- A container after both mounts were appended to its `volumeMounts`. -/
def addBothMounts (c : Container) : Container :=
  { c with VolumeMounts := some (Slice.elems c.VolumeMounts ++ [caDirMount, caBundleMount]) }

/-- The typed outcome of the whole patch of a Pod: it fails when the volume must be added
to a nil `volumes` or a container that receives mounts has a nil `volumeMounts`. -/
def patchedPodSpec (config : Config) (s : PodSpec) : Option PodSpec :=
  if (¬ hasCaVolume s ∧ s.Volumes = none) ∨
      ∃ c ∈ (Slice.elems s.Containers).takeWhile (fun c => decide (¬ hasCaMount c)),
        c.VolumeMounts = none then none
  else some
    { Volumes :=
        if hasCaVolume s then s.Volumes
        else some (Slice.elems s.Volumes ++ [caVolume config])
      InitContainers :=
        if hasCaVolume s then s.InitContainers
        else s.InitContainers.map (List.map addDirMount)
      Containers :=
        s.Containers.map (fun cs =>
          (cs.takeWhile (fun c => decide (¬ hasCaMount c))).map addBothMounts ++
            cs.dropWhile (fun c => decide (¬ hasCaMount c))) }

/-- The operations of the first Job loop for one container: the array creation exactly
when `volumeMounts` is nil, then the directory mount. -/
def jobDirOps (ic : Nat × Container) : List PatchOp :=
  (if ic.2.VolumeMounts = none then
    [{ op := "add", path := jobContainerMounts ic.1, value := .arr [] }]
   else []) ++
  [{ op := "add", path := jobContainerMountsEnd ic.1, value := dirMountValue }]

/-- The operations of the second Job loop for one container: the array creation exactly
when `volumeMounts` is nil, then the bundle-file mount. -/
def jobBundleOps (ic : Nat × Container) : List PatchOp :=
  (if ic.2.VolumeMounts = none then
    [{ op := "add", path := jobContainerMounts ic.1, value := .arr [] }]
   else []) ++
  [{ op := "add", path := jobContainerMountsEnd ic.1, value := bundleMountValue }]

/-- The typed steps of one round of a create-when-nil-then-append loop. -/
def createAppendSteps (init : Bool) (m : VolumeMount) (ic : Nat × Container) :
    List (PodSpec → Option PodSpec) :=
  (if ic.2.VolumeMounts = none then [stepCreate init ic.1] else []) ++ [stepAppend init ic.1 m]

/-- The container that a create-when-nil-then-append round leaves, when the round was
computed from `c` and the document holds `g c`. -/
def afterCreateAppend (m : VolumeMount) (g : Container → Container) (c : Container) : Container :=
  { Name := (g c).Name
    VolumeMounts :=
      some ((if c.VolumeMounts = none then [] else Slice.elems (g c).VolumeMounts) ++ [m]) }

/-- A template container after the patch of its Job: both mounts are appended to an
existing `volumeMounts`, a nil `volumeMounts` ends with the bundle-file mount alone. -/
def jobContainerAfter (c : Container) : Container :=
  { Name := c.Name
    VolumeMounts :=
      some (match c.VolumeMounts with
            | none => [caBundleMount]
            | some ms => ms ++ [caDirMount, caBundleMount]) }

/-- The typed outcome of the whole patch of a Job. -/
def patchedJobSpec (config : Config) (s : PodSpec) : PodSpec :=
  { Volumes := some (Slice.elems s.Volumes ++ [caVolume config])
    InitContainers := s.InitContainers
    Containers := s.Containers.map (List.map jobContainerAfter) }

/-- The operations of the first Job loop for one container, each with its typed step. -/
def jobDirPairs (ic : Nat × Container) : List (PatchOp × (PodSpec → Option PodSpec)) :=
  (if ic.2.VolumeMounts = none then
    [(({ op := "add", path := jobContainerMounts ic.1, value := .arr [] } : PatchOp),
      stepCreate false ic.1)]
   else []) ++
  [(({ op := "add", path := jobContainerMountsEnd ic.1, value := dirMountValue } : PatchOp),
    stepAppend false ic.1 caDirMount)]

/-- The operations of the second Job loop for one container, each with its typed step. -/
def jobBundlePairs (ic : Nat × Container) : List (PatchOp × (PodSpec → Option PodSpec)) :=
  (if ic.2.VolumeMounts = none then
    [(({ op := "add", path := jobContainerMounts ic.1, value := .arr [] } : PatchOp),
      stepCreate false ic.1)]
   else []) ++
  [(({ op := "add", path := jobContainerMountsEnd ic.1, value := bundleMountValue } : PatchOp),
    stepAppend false ic.1 caBundleMount)]

/-- The patch sequence of a Job, each operation with its typed step. -/
def jobPairs (config : Config) (job : Job) : List (PatchOp × (PodSpec → Option PodSpec)) :=
  (if job.Spec.Template.Spec.Volumes = none then
    [(({ op := "add", path := "/spec/template/spec/volumes", value := .arr [] } : PatchOp),
      PodSpec.createVolumes)]
   else []) ++
  [(({ op := "add", path := "/spec/template/spec/volumes/-", value := volumeValue config } : PatchOp),
    stepVolume config)] ++
  (List.enumFrom 0 (Slice.elems job.Spec.Template.Spec.Containers)).flatMap jobDirPairs ++
  (List.enumFrom 0 (Slice.elems job.Spec.Template.Spec.Containers)).flatMap jobBundlePairs

/-! ## Decimal rendering of indices and pointer parsing -/

theorem toDigitsCore_append (fuel n : Nat) (ds : List Char) (h : n < fuel) :
    Nat.toDigitsCore 10 fuel n ds = Nat.toDigits 10 n ++ ds := by
  induction n using Nat.strong_induction_on generalizing fuel ds with
  | _ n ih =>
    cases fuel with
    | zero => omega
    | succ f =>
      unfold Nat.toDigits
      simp only [Nat.toDigitsCore]
      by_cases h0 : n / 10 = 0
      · simp [h0]
      · simp only [h0, if_false]
        have hlt : n / 10 < n := Nat.div_lt_self (by omega) (by decide)
        rw [ih (n / 10) hlt f _ (by omega), ih (n / 10) hlt n _ hlt]
        simp

theorem toDigits_step (n : Nat) (h : n / 10 ≠ 0) :
    Nat.toDigits 10 n = Nat.toDigits 10 (n / 10) ++ [Nat.digitChar (n % 10)] := by
  have hlt : n / 10 < n := Nat.div_lt_self (by omega) (by decide)
  conv_lhs => unfold Nat.toDigits
  simp only [Nat.toDigitsCore, h, if_false]
  rw [toDigitsCore_append n (n / 10) _ hlt]

theorem toDigits_small (n : Nat) (h : n / 10 = 0) :
    Nat.toDigits 10 n = [Nat.digitChar (n % 10)] := by
  unfold Nat.toDigits
  simp [Nat.toDigitsCore, h]

theorem digitChar_cases (d : Nat) (h : d < 10) :
    (Nat.digitChar d).isDigit = true ∧ (Nat.digitChar d).toNat - 48 = d ∧
      (Nat.digitChar d ≠ '/') ∧ (Nat.digitChar d ≠ '~') ∧ (Nat.digitChar d ≠ '-') ∧
      (d ≠ 0 → Nat.digitChar d ≠ '0') := by
  interval_cases d <;> decide

theorem toString_data (n : Nat) : (toString n).data = Nat.toDigits 10 n := by
  simp [toString, Nat.repr, List.asString]

theorem toDigits_props (n : Nat) :
    (∀ c ∈ Nat.toDigits 10 n, c.isDigit = true ∧ c ≠ '/' ∧ c ≠ '~') ∧
      digitsValue (Nat.toDigits 10 n) = n ∧
      (∃ c cs, Nat.toDigits 10 n = c :: cs ∧ (n ≠ 0 → c ≠ '0')) := by
  induction n using Nat.strong_induction_on with
  | _ n ih =>
    have hmod : n % 10 < 10 := Nat.mod_lt _ (by decide)
    obtain ⟨hd, hv, hs, ht, -, hz⟩ := digitChar_cases (n % 10) hmod
    by_cases h0 : n / 10 = 0
    · rw [toDigits_small n h0]
      have hn : n % 10 = n := by omega
      refine ⟨?_, ?_, _, _, rfl, ?_⟩
      · intro c hc
        simp only [List.mem_singleton] at hc
        subst hc
        exact ⟨hd, hs, ht⟩
      · show 10 * 0 + ((n % 10).digitChar.toNat - 48) = n
        rw [hv]; omega
      · intro hne
        exact hz (by omega)
    · have hlt : n / 10 < n := Nat.div_lt_self (by omega) (by decide)
      obtain ⟨ha, hval, c, cs, hc, hcz⟩ := ih (n / 10) hlt
      rw [toDigits_step n h0]
      refine ⟨?_, ?_, c, cs ++ [Nat.digitChar (n % 10)], ?_, ?_⟩
      · intro x hx
        rcases List.mem_append.1 hx with hx | hx
        · exact ha x hx
        · simp only [List.mem_singleton] at hx
          subst hx
          exact ⟨hd, hs, ht⟩
      · unfold digitsValue at hval ⊢
        rw [List.foldl_append, hval]
        simp only [List.foldl_cons, List.foldl_nil, hv]
        omega
      · rw [hc]; rfl
      · intro _
        exact hcz h0

theorem parseIndex_toString (n : Nat) : parseIndex (toString n) = some n := by
  obtain ⟨ha, hv, c, cs, hc, hz⟩ := toDigits_props n
  unfold parseIndex
  rw [toString_data, hc]
  by_cases hn : n = 0
  · subst hn
    have : c :: cs = ['0'] := by rw [← hc]; rfl
    simp at this
    simp [this]
  · have hall : (c :: cs).all Char.isDigit = true := by
      rw [List.all_eq_true]
      intro x hx
      exact (ha x (hc ▸ hx)).1
    simp only [hz hn, if_false, hall, if_true]
    rw [← hc, hv]

theorem toString_injective {m n : Nat} (h : toString m = toString n) : m = n := by
  have := parseIndex_toString m
  rw [h, parseIndex_toString] at this
  exact (Option.some.inj this).symm

theorem toString_ne_dash (n : Nat) : toString n ≠ "-" := by
  intro h
  have := parseIndex_toString n
  rw [h] at this
  have h2 : parseIndex "-" = none := by decide
  rw [h2] at this
  cases this

theorem splitSlash_slash (cs : List Char) : splitSlash ('/' :: cs) = [] :: splitSlash cs := by
  simp [splitSlash]

theorem splitSlash_cons_ne (c : Char) (cs : List Char) (h : c ≠ '/') :
    splitSlash (c :: cs) = (c :: (splitSlash cs).headD []) :: (splitSlash cs).tail := by
  simp only [splitSlash, h, if_false]
  cases splitSlash cs <;> rfl

theorem splitSlash_nil : splitSlash [] = [[]] := rfl

theorem splitSlash_ne_nil (cs : List Char) : splitSlash cs ≠ [] := by
  cases cs with
  | nil => simp [splitSlash]
  | cons c cs =>
    simp only [splitSlash]
    split
    · simp
    · split <;> simp

theorem splitSlash_append (ds rest : List Char) (h : ∀ c ∈ ds, c ≠ '/') :
    splitSlash (ds ++ rest) = (ds ++ (splitSlash rest).headD []) :: (splitSlash rest).tail := by
  induction ds with
  | nil =>
    cases hr : splitSlash rest with
    | nil => exact absurd hr (splitSlash_ne_nil rest)
    | cons a b => simp [hr]
  | cons d ds ih =>
    have hd : d ≠ '/' := h d (List.mem_cons_self _ _)
    rw [List.cons_append, splitSlash_cons_ne _ _ hd, ih (fun c hc => h c (List.mem_cons_of_mem _ hc))]
    simp

theorem unescape_of_no_tilde (ds : List Char) (h : ∀ c ∈ ds, c ≠ '~') : unescape ds = ds := by
  induction ds with
  | nil => rfl
  | cons d ds ih =>
    have hd : d ≠ '~' := h d (List.mem_cons_self _ _)
    have := ih (fun c hc => h c (List.mem_cons_of_mem _ hc))
    rw [unescape]
    · rw [this]
    · intro cs hcs
      exact absurd hcs hd
    · intro cs hcs
      exact absurd hcs hd

theorem digits_no_slash (i : Nat) : ∀ c ∈ (toString i).data, c ≠ '/' := by
  intro c hc
  rw [toString_data] at hc
  exact ((toDigits_props i).1 c hc).2.1

theorem digits_no_tilde (i : Nat) : ∀ c ∈ (toString i).data, c ≠ '~' := by
  intro c hc
  rw [toString_data] at hc
  exact ((toDigits_props i).1 c hc).2.2

theorem unescape_digits (i : Nat) : unescape (toString i).data = (toString i).data :=
  unescape_of_no_tilde _ (digits_no_tilde i)

theorem parsePointer_podVolumes :
    parsePointer "/spec/volumes/-" = some ["spec", "volumes", "-"] := by
  decide

theorem parsePointer_initMounts (i : Nat) :
    parsePointer ("/spec/initContainers/" ++ toString i ++ "/volumeMounts") =
      some ["spec", "initContainers", toString i, "volumeMounts"] := by
  simp [parsePointer, String.data_append, splitSlash_slash, splitSlash_cons_ne, splitSlash_nil,
    splitSlash_append _ _ (digits_no_slash i), unescape, unescape_digits]

theorem parsePointer_initMountsAppend (i : Nat) :
    parsePointer ("/spec/initContainers/" ++ toString i ++ "/volumeMounts/-") =
      some ["spec", "initContainers", toString i, "volumeMounts", "-"] := by
  simp [parsePointer, String.data_append, splitSlash_slash, splitSlash_cons_ne, splitSlash_nil,
    splitSlash_append _ _ (digits_no_slash i), unescape, unescape_digits]

theorem parsePointer_containerMountsAppend (i : Nat) :
    parsePointer ("/spec/containers/" ++ toString i ++ "/volumeMounts/-") =
      some ["spec", "containers", toString i, "volumeMounts", "-"] := by
  simp [parsePointer, String.data_append, splitSlash_slash, splitSlash_cons_ne, splitSlash_nil,
    splitSlash_append _ _ (digits_no_slash i), unescape, unescape_digits]

theorem parsePointer_jobVolumes :
    parsePointer "/spec/template/spec/volumes" = some ["spec", "template", "spec", "volumes"] := by
  decide

theorem parsePointer_jobVolumesAppend :
    parsePointer "/spec/template/spec/volumes/-" =
      some ["spec", "template", "spec", "volumes", "-"] := by
  decide

theorem parsePointer_jobMounts (i : Nat) :
    parsePointer ("/spec/template/spec/containers/" ++ toString i ++ "/volumeMounts") =
      some ["spec", "template", "spec", "containers", toString i, "volumeMounts"] := by
  simp [parsePointer, String.data_append, splitSlash_slash, splitSlash_cons_ne, splitSlash_nil,
    splitSlash_append _ _ (digits_no_slash i), unescape, unescape_digits]

theorem parsePointer_jobMountsAppend (i : Nat) :
    parsePointer ("/spec/template/spec/containers/" ++ toString i ++ "/volumeMounts/-") =
      some ["spec", "template", "spec", "containers", toString i, "volumeMounts", "-"] := by
  simp [parsePointer, String.data_append, splitSlash_slash, splitSlash_cons_ne, splitSlash_nil,
    splitSlash_append _ _ (digits_no_slash i), unescape, unescape_digits]

/-! ## The loops of the Pod branch in closed form -/

theorem scanVolumes_eq (vs : List Volume) (t : Bool) :
    scanVolumes vs t = (t || vs.any (fun v => decide (v.Name = "ca-certificates"))) := by
  induction vs generalizing t with
  | nil => simp [scanVolumes]
  | cons v vs ih =>
    simp only [scanVolumes, ih, List.any_cons]
    by_cases h : v.Name = "ca-certificates" <;> simp [h]

theorem scanMounts_eq (ms : List VolumeMount) (t : Bool) :
    scanMounts ms t = (t || ms.any (fun m => decide (m.Name = "ca-certificates"))) := by
  induction ms generalizing t with
  | nil => simp [scanMounts]
  | cons m ms ih =>
    simp only [scanMounts, ih, List.any_cons]
    by_cases h : m.Name = "ca-certificates" <;> simp [h]

theorem scanVolumes_false_iff (s : PodSpec) :
    scanVolumes (Slice.elems s.Volumes) false = true ↔ hasCaVolume s := by
  simp [scanVolumes_eq, hasCaVolume]

theorem scanMounts_false_iff (c : Container) :
    scanMounts (Slice.elems c.VolumeMounts) false = true ↔ hasCaMount c := by
  simp [scanMounts_eq, hasCaMount]

theorem scanMounts_true (ms : List VolumeMount) : scanMounts ms true = true := by
  simp [scanMounts_eq]

theorem initContainersLoop_eq (cs : List Container) (i : Nat) (p : List PatchOp) :
    initContainersLoop cs i p = p ++ (List.enumFrom i cs).flatMap initContainerOps := by
  induction cs generalizing i p with
  | nil => simp [initContainersLoop]
  | cons c cs ih =>
    simp only [initContainersLoop, ih, List.enumFrom_cons, List.flatMap_cons, initContainerOps,
      podInitMounts, podInitMountsEnd]
    by_cases h : c.VolumeMounts = none <;> simp [h]

theorem containersLoop_true (cs : List Container) (i : Nat) (p : List PatchOp) :
    containersLoop cs i true p = p := by
  induction cs generalizing i with
  | nil => simp [containersLoop]
  | cons c cs ih => simp [containersLoop, scanMounts_true, ih]

theorem containersLoop_false_cons (c : Container) (cs : List Container) (i : Nat)
    (p : List PatchOp) :
    containersLoop (c :: cs) i false p =
      if hasCaMount c then p else containersLoop cs (i + 1) false (p ++ containerOps i) := by
  by_cases h : hasCaMount c
  · have := (scanMounts_false_iff c).2 h
    simp [containersLoop, this, h, containersLoop_true]
  · have : scanMounts (Slice.elems c.VolumeMounts) false = false := by
      cases hs : scanMounts (Slice.elems c.VolumeMounts) false
      · rfl
      · exact absurd ((scanMounts_false_iff c).1 hs) h
    simp [containersLoop, this, h, containerOps, podContainerMountsEnd]

/-- The containers that receive mounts: those before the first one that already has a
mount named ca-certificates. -/
theorem containersLoop_eq (cs : List Container) (i : Nat) (p : List PatchOp) :
    containersLoop cs i false p =
      p ++ (List.enumFrom i (cs.takeWhile (fun c => decide (¬ hasCaMount c)))).flatMap
        (fun c => containerOps c.1) := by
  induction cs generalizing i p with
  | nil => simp [containersLoop]
  | cons c cs ih =>
    rw [containersLoop_false_cons]
    by_cases h : hasCaMount c
    · simp [h, List.takeWhile_cons]
    · simp [h, List.takeWhile_cons, ih, List.enumFrom_cons]

theorem mutatePod_eq (config : Config) (pod : Pod) :
    mutatePod config pod =
      (if hasCaVolume pod.Spec then []
       else { op := "add", path := "/spec/volumes/-", value := volumeValue config } ::
         (List.enumFrom 0 (Slice.elems pod.Spec.InitContainers)).flatMap initContainerOps) ++
      (List.enumFrom 0 ((Slice.elems pod.Spec.Containers).takeWhile
        (fun c => decide (¬ hasCaMount c)))).flatMap (fun c => containerOps c.1) := by
  unfold mutatePod
  by_cases h : hasCaVolume pod.Spec
  · have := (scanVolumes_false_iff pod.Spec).2 h
    simp [this, h, containersLoop_eq]
  · have : scanVolumes (Slice.elems pod.Spec.Volumes) false = false := by
      cases hs : scanVolumes (Slice.elems pod.Spec.Volumes) false
      · rfl
      · exact absurd ((scanVolumes_false_iff pod.Spec).1 hs) h
    simp [this, h, containersLoop_eq, initContainersLoop_eq]

/-! ## Facts about the pointers the builders emit -/

theorem podContainerMountsEnd_inj {i j : Nat}
    (h : podContainerMountsEnd i = podContainerMountsEnd j) : i = j := by
  simp [podContainerMountsEnd, String.ext_iff, String.data_append] at h
  exact toString_injective (String.ext h)

theorem podContainerMountsEnd_ne_volumes (i : Nat) :
    podContainerMountsEnd i ≠ "/spec/volumes/-" := by
  simp [podContainerMountsEnd, String.ext_iff, String.data_append]

theorem podContainerMountsEnd_not_init (i : Nat) :
    ¬ ("/spec/initContainers/".data <+: (podContainerMountsEnd i).data) := by
  simp [podContainerMountsEnd, String.data_append]

theorem podContainerMountsEnd_ne_initMounts (i j : Nat) :
    podContainerMountsEnd i ≠ podInitMounts j := by
  simp [podContainerMountsEnd, podInitMounts, String.ext_iff, String.data_append]

theorem podContainerMountsEnd_ne_initMountsEnd (i j : Nat) :
    podContainerMountsEnd i ≠ podInitMountsEnd j := by
  simp [podContainerMountsEnd, podInitMountsEnd, String.ext_iff, String.data_append]

theorem podInitMounts_ne_volumes (i : Nat) : podInitMounts i ≠ "/spec/volumes/-" := by
  simp [podInitMounts, String.ext_iff, String.data_append]

theorem podInitMountsEnd_ne_volumes (i : Nat) : podInitMountsEnd i ≠ "/spec/volumes/-" := by
  simp [podInitMountsEnd, String.ext_iff, String.data_append]

/-! ## Membership in the container part of a Pod patch -/

theorem mem_containerOps {o : PatchOp} {i : Nat} (h : o ∈ containerOps i) :
    o.op = "add" ∧ o.path = podContainerMountsEnd i ∧
      (o.value = dirMountValue ∨ o.value = bundleMountValue) := by
  simp only [containerOps, List.mem_cons, List.mem_singleton, List.not_mem_nil, or_false] at h
  rcases h with h | h <;> subst h <;> simp

theorem mem_initContainerOps {o : PatchOp} {ic : Nat × Container} (h : o ∈ initContainerOps ic) :
    o.op = "add" ∧ (o.path = podInitMounts ic.1 ∨ o.path = podInitMountsEnd ic.1) := by
  unfold initContainerOps at h
  rcases List.mem_append.1 h with h | h
  · split at h
    · simp only [List.mem_singleton] at h
      subst h; simp
    · simp at h
  · simp only [List.mem_singleton] at h
    subst h; simp

theorem mem_containerPart {o : PatchOp} {cs : List Container} {k : Nat}
    (h : o ∈ (List.enumFrom k (cs.takeWhile (fun c => decide (¬ hasCaMount c)))).flatMap
      (fun c => containerOps c.1)) :
    ∃ i c, k ≤ i ∧ cs[i - k]? = some c ∧ ¬ hasCaMount c ∧ o ∈ containerOps i := by
  obtain ⟨⟨i, c⟩, hic, ho⟩ := List.mem_flatMap.1 h
  obtain ⟨hk, hlt, hc⟩ := List.mem_enumFrom hic
  refine ⟨i, c, hk, ?_, ?_, ho⟩
  · have hpre : cs.takeWhile (fun c => decide (¬ hasCaMount c)) <+: cs :=
      List.takeWhile_prefix _
    have hlt2 : i - k < (cs.takeWhile (fun c => decide (¬ hasCaMount c))).length := by omega
    have := List.IsPrefix.getElem hpre hlt2
    rw [hc, this]
    exact List.getElem?_eq_getElem _
  · have hmem : c ∈ cs.takeWhile (fun c => decide (¬ hasCaMount c)) := by
      rw [hc]; exact List.getElem_mem _
    simpa using List.mem_takeWhile_imp hmem

/-! ## The Pod builder: which operations it emits -/

/-- C1 (the code at the failing input): in `podFirstMounted` only the first container has a
mount named ca-certificates and the second has none, yet the patch sequence is empty, so
no mount-add at `podContainerMountsEnd 1` is emitted for the second container:
the flag raised by the first container is never lowered. -/
theorem second_container_skipped_after_mounted_first :
    Slice.elems podFirstMounted.Spec.Containers =
        [{ Name := "app", VolumeMounts := some [caDirMount, caBundleMount] },
         { Name := "sidecar", VolumeMounts := some [] }] ∧
      hasCaMount { Name := "app", VolumeMounts := some [caDirMount, caBundleMount] } ∧
      ¬ hasCaMount { Name := "sidecar", VolumeMounts := some [] } ∧
      mutatePod defaultConfig podFirstMounted = [] ∧
      ¬ ∃ o ∈ mutatePod defaultConfig podFirstMounted, o.path = podContainerMountsEnd 1 := by
  decide

/-- C2: for a Pod that already has a volume named ca-certificates, whatever the mounts of
its containers and init-containers, no operation of the patch sequence has the path of
the volume-add and none has a path that starts with `/spec/initContainers/`. -/
theorem pod_with_volume_skips_volume_and_init (config : Config) (pod : Pod)
    (h : hasCaVolume pod.Spec) :
    ∀ o ∈ mutatePod config pod,
      o.path ≠ "/spec/volumes/-" ∧ ¬ ("/spec/initContainers/".data <+: o.path.data) := by
  intro o ho
  rw [mutatePod_eq, if_pos h, List.nil_append] at ho
  obtain ⟨i, c, -, -, -, hoc⟩ := mem_containerPart ho
  obtain ⟨-, hp, -⟩ := mem_containerOps hoc
  rw [hp]
  exact ⟨podContainerMountsEnd_ne_volumes i, podContainerMountsEnd_not_init i⟩

theorem pod_with_volume_skips_volume_and_init_witness :
    hasCaVolume podWithVolume.Spec ∧
      ∀ o ∈ mutatePod defaultConfig podWithVolume,
        o.path ≠ "/spec/volumes/-" ∧ ¬ ("/spec/initContainers/".data <+: o.path.data) :=
  ⟨by decide, pod_with_volume_skips_volume_and_init defaultConfig podWithVolume (by decide)⟩

theorem countP_containerOps (i j : Nat) :
    List.countP (fun o => decide (o.path = podContainerMountsEnd i)) (containerOps j) =
      if j = i then 2 else 0 := by
  by_cases h : j = i
  · subst h; simp [containerOps, List.countP_cons]
  · have : podContainerMountsEnd j ≠ podContainerMountsEnd i :=
      fun e => h (podContainerMountsEnd_inj e)
    simp [containerOps, List.countP_cons, this, h]

theorem countP_containers (cs : List Container) (k i : Nat) :
    List.countP (fun o => decide (o.path = podContainerMountsEnd i))
        ((List.enumFrom k cs).flatMap (fun c => containerOps c.1)) =
      if k ≤ i ∧ i < k + cs.length then 2 else 0 := by
  induction cs generalizing k with
  | nil =>
    have : ¬ (k ≤ i ∧ i < k) := by omega
    simp [this]
  | cons c cs ih =>
    rw [List.enumFrom_cons, List.flatMap_cons, List.countP_append, ih, countP_containerOps]
    simp only [List.length_cons]
    by_cases h1 : k = i
    · subst h1; simp
    · by_cases h2 : k + 1 ≤ i ∧ i < k + 1 + cs.length
      · have : k ≤ i ∧ i < k + (cs.length + 1) := by omega
        simp [h1, h2, this]
      · have : ¬ (k ≤ i ∧ i < k + (cs.length + 1)) := by omega
        simp [h1, h2, this]

theorem countP_eq_zero_of_paths {l : List PatchOp} {q : String}
    (h : ∀ o ∈ l, o.path ≠ q) : List.countP (fun o => decide (o.path = q)) l = 0 := by
  rw [List.countP_eq_zero]
  intro o ho
  simpa using h o ho

theorem initPart_paths {o : PatchOp} {cs : List Container} {k : Nat}
    (h : o ∈ (List.enumFrom k cs).flatMap initContainerOps) :
    o.op = "add" ∧ ∃ j, o.path = podInitMounts j ∨ o.path = podInitMountsEnd j := by
  obtain ⟨ic, -, ho⟩ := List.mem_flatMap.1 h
  exact ⟨(mem_initContainerOps ho).1, ic.1, (mem_initContainerOps ho).2⟩

theorem containerPart_paths {o : PatchOp} {cs : List Container} {k : Nat}
    (h : o ∈ (List.enumFrom k cs).flatMap (fun c => containerOps c.1)) :
    ∃ j, o.path = podContainerMountsEnd j := by
  obtain ⟨ic, -, ho⟩ := List.mem_flatMap.1 h
  exact ⟨ic.1, (mem_containerOps ho).2.1⟩

theorem takeWhile_no_mount {cs : List Container} (h : ∀ c ∈ cs, ¬ hasCaMount c) :
    cs.takeWhile (fun c => decide (¬ hasCaMount c)) = cs := by
  rw [List.takeWhile_eq_self_iff]
  intro c hc
  simpa using h c hc

/-- C3: for a Pod with no volume named ca-certificates in which no container has a mount
named ca-certificates, the patch sequence is exactly the volume-add, then for each
init-container in index order the array creation (exactly when its `volumeMounts` is null)
followed by its mount-add, then for each container in index order the directory mount-add
followed by the bundle-file mount-add; it holds exactly one operation at the volumes
pointer and exactly two at the `volumeMounts` pointer of every container. -/
theorem fresh_pod_patch_exact (config : Config) (pod : Pod)
    (hv : ¬ hasCaVolume pod.Spec)
    (hm : ∀ c ∈ Slice.elems pod.Spec.Containers, ¬ hasCaMount c) :
    mutatePod config pod = freshPodPatch config pod ∧
      List.countP (fun o => decide (o.path = "/spec/volumes/-")) (mutatePod config pod) = 1 ∧
      ∀ i, i < (Slice.elems pod.Spec.Containers).length →
        List.countP (fun o => decide (o.path = podContainerMountsEnd i))
          (mutatePod config pod) = 2 := by
  have heq : mutatePod config pod = freshPodPatch config pod := by
    rw [mutatePod_eq, if_neg hv, takeWhile_no_mount hm]
    simp [freshPodPatch]
  have hinit : ∀ q : String, (∀ j, podInitMounts j ≠ q ∧ podInitMountsEnd j ≠ q) →
      List.countP (fun o => decide (o.path = q))
        ((List.enumFrom 0 (Slice.elems pod.Spec.InitContainers)).flatMap initContainerOps) = 0 := by
    intro q hq
    apply countP_eq_zero_of_paths
    intro o ho
    obtain ⟨-, j, hj | hj⟩ := initPart_paths ho
    · rw [hj]; exact (hq j).1
    · rw [hj]; exact (hq j).2
  have hcont : List.countP (fun o => decide (o.path = "/spec/volumes/-"))
      ((List.enumFrom 0 (Slice.elems pod.Spec.Containers)).flatMap
        (fun c => containerOps c.1)) = 0 := by
    apply countP_eq_zero_of_paths
    intro o ho
    obtain ⟨j, hj⟩ := containerPart_paths ho
    rw [hj]; exact podContainerMountsEnd_ne_volumes j
  refine ⟨heq, ?_, ?_⟩
  · rw [heq]
    unfold freshPodPatch
    rw [List.countP_append, List.countP_append, hcont,
      hinit _ (fun j => ⟨podInitMounts_ne_volumes j, podInitMountsEnd_ne_volumes j⟩)]
    simp
  · intro i hi
    rw [heq]
    unfold freshPodPatch
    rw [List.countP_append, List.countP_append, countP_containers,
      hinit _ (fun j => ⟨(podContainerMountsEnd_ne_initMounts i j).symm,
        (podContainerMountsEnd_ne_initMountsEnd i j).symm⟩)]
    have : podContainerMountsEnd i ≠ "/spec/volumes/-" := podContainerMountsEnd_ne_volumes i
    simp [hi, this.symm]

theorem fresh_pod_patch_exact_witness :
    ¬ hasCaVolume podFresh.Spec ∧
      (∀ c ∈ Slice.elems podFresh.Spec.Containers, ¬ hasCaMount c) ∧
      mutatePod defaultConfig podFresh = freshPodPatch defaultConfig podFresh ∧
      List.countP (fun o => decide (o.path = "/spec/volumes/-"))
        (mutatePod defaultConfig podFresh) = 1 ∧
      ∀ i, i < (Slice.elems podFresh.Spec.Containers).length →
        List.countP (fun o => decide (o.path = podContainerMountsEnd i))
          (mutatePod defaultConfig podFresh) = 2 :=
  ⟨by decide, by decide, fresh_pod_patch_exact defaultConfig podFresh (by decide) (by decide)⟩

theorem mem_mutatePod_cases {config : Config} {pod : Pod} {o : PatchOp}
    (h : o ∈ mutatePod config pod) :
    (¬ hasCaVolume pod.Spec ∧
        (o = { op := "add", path := "/spec/volumes/-", value := volumeValue config } ∨
          o ∈ (List.enumFrom 0 (Slice.elems pod.Spec.InitContainers)).flatMap initContainerOps)) ∨
      o ∈ (List.enumFrom 0 ((Slice.elems pod.Spec.Containers).takeWhile
        (fun c => decide (¬ hasCaMount c)))).flatMap (fun c => containerOps c.1) := by
  rw [mutatePod_eq] at h
  rcases List.mem_append.1 h with h | h
  · left
    by_cases hv : hasCaVolume pod.Spec
    · simp [hv] at h
    · rw [if_neg hv] at h
      exact ⟨hv, List.mem_cons.1 h⟩
  · exact Or.inr h

/-- C4 (counterexample): the init-container of `podInitMounted` already has a mount
named ca-certificates, and the patch sequence still holds an add operation that appends
a mount named ca-certificates to that same init-container. -/
theorem init_container_mount_duplicated :
    Slice.elems podInitMounted.Spec.InitContainers =
        [{ Name := "init", VolumeMounts := some [caDirMount] }] ∧
      hasCaMount { Name := "init", VolumeMounts := some [caDirMount] } ∧
      { op := "add", path := podInitMountsEnd 0, value := dirMountValue } ∈
        mutatePod defaultConfig podInitMounted ∧
      VolumeMount.ofJson dirMountValue = some caDirMount := by
  decide

/-- C4 (amended): a container that already has a mount named ca-certificates receives no
operation at its `volumeMounts` pointer; a Pod that already has a volume named
ca-certificates receives no volume-add and no operation under `/spec/initContainers/`;
and a Pod without that volume receives the mount-add for every init-container, whose
own mounts are not inspected. -/
theorem no_duplicate_for_containers_and_volume (config : Config) (pod : Pod) :
    (∀ i c, (Slice.elems pod.Spec.Containers)[i]? = some c → hasCaMount c →
        ∀ o ∈ mutatePod config pod, o.path ≠ podContainerMountsEnd i) ∧
      (hasCaVolume pod.Spec → ∀ o ∈ mutatePod config pod,
        o.path ≠ "/spec/volumes/-" ∧ ¬ ("/spec/initContainers/".data <+: o.path.data)) ∧
      (¬ hasCaVolume pod.Spec → ∀ j, j < (Slice.elems pod.Spec.InitContainers).length →
        { op := "add", path := podInitMountsEnd j, value := dirMountValue } ∈
          mutatePod config pod) := by
  refine ⟨?_, ?_, ?_⟩
  · intro i c hc hm o ho hp
    rcases mem_mutatePod_cases ho with ⟨-, h | h⟩ | h
    · rw [h] at hp
      exact podContainerMountsEnd_ne_volumes i hp.symm
    · obtain ⟨-, j, hj | hj⟩ := initPart_paths h
      · exact podContainerMountsEnd_ne_initMounts i j (hp.symm.trans hj)
      · exact podContainerMountsEnd_ne_initMountsEnd i j (hp.symm.trans hj)
    · obtain ⟨j, c', -, hc', hm', hoc⟩ := mem_containerPart h
      have hji : j = i := podContainerMountsEnd_inj ((mem_containerOps hoc).2.1.symm.trans hp)
      subst hji
      rw [Nat.sub_zero, hc] at hc'
      exact hm' (Option.some.inj hc' ▸ hm)
  · intro hv o ho
    rcases mem_mutatePod_cases ho with ⟨hn, -⟩ | h
    · exact absurd hv hn
    · obtain ⟨i, c, -, -, -, hoc⟩ := mem_containerPart h
      rw [(mem_containerOps hoc).2.1]
      exact ⟨podContainerMountsEnd_ne_volumes i, podContainerMountsEnd_not_init i⟩
  · intro hv j hj
    rw [mutatePod_eq, if_neg hv]
    apply List.mem_append_left
    apply List.mem_cons_of_mem
    rw [List.mem_flatMap]
    refine ⟨(j, (Slice.elems pod.Spec.InitContainers)[j]), ?_, ?_⟩
    · rw [List.mk_mem_enumFrom_iff_le_and_getElem?_sub]
      exact ⟨Nat.zero_le _, List.getElem?_eq_getElem hj⟩
    · simp [initContainerOps]

theorem no_duplicate_for_containers_and_volume_witness :
    (∀ o ∈ mutatePod defaultConfig podInitMounted, o.path ≠ podContainerMountsEnd 0) ∧
      (∀ o ∈ mutatePod defaultConfig podWithVolume,
        o.path ≠ "/spec/volumes/-" ∧ ¬ ("/spec/initContainers/".data <+: o.path.data)) ∧
      { op := "add", path := podInitMountsEnd 0, value := dirMountValue } ∈
        mutatePod defaultConfig podFresh :=
  ⟨(no_duplicate_for_containers_and_volume defaultConfig podInitMounted).1 0
      { Name := "app", VolumeMounts := some [caDirMount, caBundleMount] } (by decide) (by decide),
   (no_duplicate_for_containers_and_volume defaultConfig podWithVolume).2.1 (by decide),
   (no_duplicate_for_containers_and_volume defaultConfig podFresh).2.2 (by decide) 0 (by decide)⟩

/-- C5 (the code at the failing input): with `customConfig` the injected volume projects
the bundle key to the file `corp-ca.crt`, while the bundle-file mount the Pod builder and
the Job builder emit has the sub-path `ca-certificates.crt`, the literal of lines 182 and
245, not `customConfig.CertFileName`. -/
theorem bundle_mount_subpath_is_literal :
    customConfig.CertFileName = "corp-ca.crt" ∧
      (mutatePod customConfig podOne).map (fun o => o.value) =
        [volumeValue customConfig, dirMountValue, bundleMountValue] ∧
      (mutateJob customConfig jobOne).map (fun o => o.value) =
        [volumeValue customConfig, dirMountValue, bundleMountValue] ∧
      Volume.ofJson (volumeValue customConfig) =
        some { Name := "ca-certificates",
               ConfigMap := some { Name := "corp-ca",
                                   Items := [{ Key := "ca.pem", Path := "corp-ca.crt" }],
                                   DefaultMode := some 420 } } ∧
      VolumeMount.ofJson bundleMountValue =
        some { Name := "ca-certificates", MountPath := "/var/lib/ca-certificates/ca-bundle.pem",
               SubPath := "ca-certificates.crt", ReadOnly := true } ∧
      "ca-certificates.crt" ≠ customConfig.CertFileName := by
  decide

/-! ## Object members and array decoding -/

theorem getKey_setKey_self (k : String) (v : Json) (kvs : List (String × Json)) :
    getKey k (setKey k v kvs) = some v := by
  induction kvs with
  | nil => simp [setKey, getKey]
  | cons kv kvs ih =>
    obtain ⟨k', v'⟩ := kv
    by_cases h : k' = k
    · simp [setKey, getKey, h]
    · simp [setKey, getKey, h, ih]

theorem getKey_setKey_ne {k k' : String} (h : k' ≠ k) (v : Json) (kvs : List (String × Json)) :
    getKey k' (setKey k v kvs) = getKey k' kvs := by
  induction kvs with
  | nil => simp [setKey, getKey, h.symm]
  | cons kv kvs ih =>
    obtain ⟨k2, v2⟩ := kv
    by_cases h2 : k2 = k
    · have : k2 ≠ k' := fun e => h (e.symm.trans h2)
      simp [setKey, getKey, h2, this, h.symm]
    · by_cases h3 : k2 = k'
      · subst h3
        simp [setKey, getKey, h2]
      · simp [setKey, getKey, h2, h3, ih]

theorem decodeList_length {α : Type} {f : Json → Option α} {xs : List Json} {as : List α}
    (h : decodeList f xs = some as) : xs.length = as.length := by
  induction xs generalizing as with
  | nil => simp [decodeList] at h; subst h; rfl
  | cons x xs ih =>
    simp only [decodeList] at h
    cases hx : f x with
    | none => simp [hx] at h
    | some a =>
      cases hxs : decodeList f xs with
      | none => simp [hx, hxs] at h
      | some as' =>
        simp [hx, hxs] at h
        subst h
        simp [ih hxs]

theorem decodeList_append_one {α : Type} {f : Json → Option α} {xs : List Json} {as : List α}
    {y : Json} {a : α} (h : decodeList f xs = some as) (hy : f y = some a) :
    decodeList f (xs ++ [y]) = some (as ++ [a]) := by
  induction xs generalizing as with
  | nil => simp [decodeList] at h; subst h; simp [decodeList, hy]
  | cons x xs ih =>
    simp only [decodeList] at h
    cases hx : f x with
    | none => simp [hx] at h
    | some a' =>
      cases hxs : decodeList f xs with
      | none => simp [hx, hxs] at h
      | some as' =>
        simp [hx, hxs] at h
        subst h
        simp [decodeList, hx, ih hxs]

theorem decodeList_getElem {α : Type} {f : Json → Option α} {xs : List Json} {as : List α}
    (h : decodeList f xs = some as) {i : Nat} {a : α} (ha : as[i]? = some a) :
    ∃ x, xs[i]? = some x ∧ f x = some a := by
  induction xs generalizing as i with
  | nil => simp [decodeList] at h; subst h; simp at ha
  | cons x xs ih =>
    simp only [decodeList] at h
    cases hx : f x with
    | none => simp [hx] at h
    | some a' =>
      cases hxs : decodeList f xs with
      | none => simp [hx, hxs] at h
      | some as' =>
        simp [hx, hxs] at h
        subst h
        cases i with
        | zero =>
          simp at ha
          subst ha
          exact ⟨x, by simp, hx⟩
        | succ i =>
          simp at ha
          obtain ⟨y, hy, hfy⟩ := ih hxs ha
          exact ⟨y, by simpa using hy, hfy⟩

theorem decodeList_set {α : Type} {f : Json → Option α} {xs : List Json} {as : List α}
    (h : decodeList f xs = some as) (i : Nat) {y : Json} {a : α} (hy : f y = some a) :
    decodeList f (xs.set i y) = some (as.set i a) := by
  induction xs generalizing as i with
  | nil => simp [decodeList] at h; subst h; simp [decodeList]
  | cons x xs ih =>
    simp only [decodeList] at h
    cases hx : f x with
    | none => simp [hx] at h
    | some a' =>
      cases hxs : decodeList f xs with
      | none => simp [hx, hxs] at h
      | some as' =>
        simp [hx, hxs] at h
        subst h
        cases i with
        | zero => simp [decodeList, hy, hxs]
        | succ i => simp [decodeList, hx, ih hxs i]

theorem optSlice_some {α : Type} {f : Json → Option α} {j : Option Json} {as : List α}
    (h : optSlice f j = some (some as)) : ∃ xs, j = some (.arr xs) ∧ decodeList f xs = some as := by
  unfold optSlice at h
  split at h
  · simp at h
  · simp at h
  · rename_i xs
    cases hd : decodeList f xs with
    | none => simp [hd] at h
    | some as' =>
      simp [hd] at h
      subst h
      exact ⟨xs, rfl, hd⟩
  · simp at h

theorem optSlice_none {α : Type} {f : Json → Option α} {j : Option Json}
    (h : optSlice f j = some none) : j = none ∨ j = some .null := by
  unfold optSlice at h
  split at h
  · exact Or.inl rfl
  · exact Or.inr rfl
  · rename_i xs
    cases hd : decodeList f xs with
    | none => simp [hd] at h
    | some as' => simp [hd] at h
  · simp at h

/-! ## Decoders, inverted -/

theorem container_ofJson_inv {cj : Json} {c : Container} (h : Container.ofJson cj = some c) :
    ∃ kvs, cj = .obj kvs ∧ optString (getKey "name" kvs) = some c.Name ∧
      optSlice VolumeMount.ofJson (getKey "volumeMounts" kvs) = some c.VolumeMounts := by
  cases cj with
  | obj kvs =>
    simp only [Container.ofJson] at h
    split at h
    · rename_i n ms hn hms
      simp at h
      subst h
      exact ⟨kvs, rfl, hn, hms⟩
    · simp at h
  | _ => simp [Container.ofJson] at h

theorem container_ofJson_mk {kvs : List (String × Json)} {n : String}
    {ms : Option (List VolumeMount)} (hn : optString (getKey "name" kvs) = some n)
    (hm : optSlice VolumeMount.ofJson (getKey "volumeMounts" kvs) = some ms) :
    Container.ofJson (.obj kvs) = some { Name := n, VolumeMounts := ms } := by
  simp [Container.ofJson, hn, hm]

theorem podSpec_ofJson_inv {sj : Json} {s : PodSpec} (h : PodSpec.ofJson sj = some s) :
    ∃ kvs, sj = .obj kvs ∧
      optSlice Volume.ofJson (getKey "volumes" kvs) = some s.Volumes ∧
      optSlice Container.ofJson (getKey "initContainers" kvs) = some s.InitContainers ∧
      optSlice Container.ofJson (getKey "containers" kvs) = some s.Containers := by
  cases sj with
  | obj kvs =>
    simp only [PodSpec.ofJson] at h
    split at h
    · rename_i vs ics cs hv hi hc
      simp at h
      subst h
      exact ⟨kvs, rfl, hv, hi, hc⟩
    · simp at h
  | _ => simp [PodSpec.ofJson] at h

theorem podSpec_ofJson_mk {kvs : List (String × Json)} {vs : Option (List Volume)}
    {ics cs : Option (List Container)}
    (hv : optSlice Volume.ofJson (getKey "volumes" kvs) = some vs)
    (hi : optSlice Container.ofJson (getKey "initContainers" kvs) = some ics)
    (hc : optSlice Container.ofJson (getKey "containers" kvs) = some cs) :
    PodSpec.ofJson (.obj kvs) = some { Volumes := vs, InitContainers := ics, Containers := cs } := by
  simp [PodSpec.ofJson, hv, hi, hc]

theorem pod_ofJson_inv {doc : Json} {pod : Pod} (h : Pod.ofJson doc = some pod) :
    ∃ kvs sj, doc = .obj kvs ∧ getKey "spec" kvs = some sj ∧
      PodSpec.ofJson sj = some pod.Spec := by
  cases doc with
  | obj kvs =>
    simp only [Pod.ofJson] at h
    cases hk : getKey "spec" kvs with
    | none => simp [hk] at h
    | some sj =>
      cases hs : PodSpec.ofJson sj with
      | none => simp [hk, hs] at h
      | some s =>
        simp [hk, hs] at h
        subst h
        exact ⟨kvs, sj, rfl, hk, hs⟩
  | _ => simp [Pod.ofJson] at h

theorem job_ofJson_inv {doc : Json} {job : Job} (h : Job.ofJson doc = some job) :
    ∃ kvs kvs1 kvs2 sj, doc = .obj kvs ∧ getKey "spec" kvs = some (.obj kvs1) ∧
      getKey "template" kvs1 = some (.obj kvs2) ∧ getKey "spec" kvs2 = some sj ∧
      PodSpec.ofJson sj = some job.Spec.Template.Spec := by
  cases doc with
  | obj kvs =>
    simp only [Job.ofJson] at h
    split at h
    · rename_i kvs1 hk1
      split at h
      · rename_i kvs2 hk2
        cases hk : getKey "spec" kvs2 with
        | none => simp [hk] at h
        | some sj =>
          cases hs : PodSpec.ofJson sj with
          | none => simp [hk, hs] at h
          | some s =>
            simp [hk, hs] at h
            subst h
            exact ⟨kvs, kvs1, kvs2, sj, rfl, hk1, hk2, hk, hs⟩
      · simp at h
    · simp at h
  | _ => simp [Job.ofJson] at h

/-! ## The `add` operations on documents agree with their typed counterparts -/

theorem container_create_agrees {cj : Json} {c : Container}
    (h : Container.ofJson cj = some c) :
    Agrees Container.ofJson
      (atPointer (fun d k => Json.addHere d k (.arr [])) ["volumeMounts"] cj)
      (Container.createMounts c) := by
  obtain ⟨kvs, rfl, hn, -⟩ := container_ofJson_inv h
  refine ⟨_, rfl, ?_⟩
  apply container_ofJson_mk
  · rw [getKey_setKey_ne (by decide)]; exact hn
  · rw [getKey_setKey_self]; rfl

theorem container_append_agrees {cj v : Json} {c : Container} {m : VolumeMount}
    (h : Container.ofJson cj = some c) (hv : VolumeMount.ofJson v = some m) :
    Agrees Container.ofJson
      (atPointer (fun d k => Json.addHere d k v) ["volumeMounts", "-"] cj)
      (Container.appendMount m c) := by
  obtain ⟨kvs, rfl, hn, hm⟩ := container_ofJson_inv h
  cases hc : c.VolumeMounts with
  | none =>
    rw [hc] at hm
    simp only [Container.appendMount, hc, Agrees]
    rcases optSlice_none hm with hk | hk
    · simp [atPointer, Json.child, hk]
    · simp [atPointer, Json.child, hk, Json.addHere]
  | some ms =>
    rw [hc] at hm
    obtain ⟨xs, hk, hd⟩ := optSlice_some hm
    simp only [Container.appendMount, hc, Agrees]
    refine ⟨.obj (setKey "volumeMounts" (.arr (xs ++ [v])) kvs), ?_, ?_⟩
    · simp [atPointer, Json.child, hk, Json.addHere, Json.setChild]
    · apply container_ofJson_mk
      · rw [getKey_setKey_ne (by decide)]; exact hn
      · rw [getKey_setKey_self]
        simp [optSlice, decodeList_append_one hd hv]

theorem spec_containers_key {init : Bool} {s : PodSpec} {kvs : List (String × Json)}
    (hi : optSlice Container.ofJson (getKey "initContainers" kvs) = some s.InitContainers)
    (hc : optSlice Container.ofJson (getKey "containers" kvs) = some s.Containers) :
    optSlice Container.ofJson (getKey (containersKey init) kvs) = some (s.containersOf init) := by
  cases init <;> simpa [containersKey, PodSpec.containersOf]

theorem spec_withContainers_decodes {init : Bool} {s : PodSpec} {kvs : List (String × Json)}
    {xs : List Json} {cs : List Container}
    (hv : optSlice Volume.ofJson (getKey "volumes" kvs) = some s.Volumes)
    (hi : optSlice Container.ofJson (getKey "initContainers" kvs) = some s.InitContainers)
    (hc : optSlice Container.ofJson (getKey "containers" kvs) = some s.Containers)
    (hd : decodeList Container.ofJson xs = some cs) :
    PodSpec.ofJson (.obj (setKey (containersKey init) (.arr xs) kvs)) =
      some (s.withContainers init cs) := by
  cases init
  · simp only [containersKey, PodSpec.withContainers, Bool.false_eq_true, if_false]
    apply podSpec_ofJson_mk
    · rw [getKey_setKey_ne (by decide)]; exact hv
    · rw [getKey_setKey_ne (by decide)]; exact hi
    · rw [getKey_setKey_self]; simp [optSlice, hd]
  · simp only [containersKey, PodSpec.withContainers, if_true]
    apply podSpec_ofJson_mk
    · rw [getKey_setKey_ne (by decide)]; exact hv
    · rw [getKey_setKey_self]; simp [optSlice, hd]
    · rw [getKey_setKey_ne (by decide)]; exact hc

theorem spec_atContainer_agrees (leaf : Json → String → Option Json) (init : Bool) (i : Nat)
    (t : String) (ts : List String) (f : Container → Option Container)
    (hf : ∀ cj c, Container.ofJson cj = some c →
      Agrees Container.ofJson (atPointer leaf (t :: ts) cj) (f c))
    {sj : Json} {s : PodSpec} (hs : PodSpec.ofJson sj = some s) :
    Agrees PodSpec.ofJson (atPointer leaf (containersKey init :: toString i :: t :: ts) sj)
      (s.atContainer init i f) := by
  obtain ⟨kvs, rfl, hv, hi, hc⟩ := podSpec_ofJson_inv hs
  have hk : optSlice Container.ofJson (getKey (containersKey init) kvs) =
      some (s.containersOf init) := spec_containers_key hi hc
  unfold PodSpec.atContainer
  cases hcs : s.containersOf init with
  | none =>
    rw [hcs] at hk
    simp only [Agrees]
    rcases optSlice_none hk with hk | hk
    · simp [atPointer, Json.child, hk]
    · simp [atPointer, Json.child, hk]
  | some cs =>
    rw [hcs] at hk
    obtain ⟨xs, hkx, hd⟩ := optSlice_some hk
    dsimp only
    cases hci : cs[i]? with
    | none =>
      have hlen := decodeList_length hd
      have hx : xs[i]? = none := by
        rw [List.getElem?_eq_none_iff] at hci ⊢
        omega
      simp [Agrees, atPointer, Json.child, hkx, parseIndex_toString, hx]
    | some c =>
      obtain ⟨cj, hx, hcj⟩ := decodeList_getElem hd hci
      have hagree := hf cj c hcj
      dsimp only
      cases hfc : f c with
      | none =>
        rw [hfc] at hagree
        simp only [Agrees] at hagree ⊢
        simp [atPointer, Json.child, hkx, parseIndex_toString, hx, hagree]
      | some c' =>
        rw [hfc] at hagree
        obtain ⟨cj', hr, hcj'⟩ := hagree
        simp only [Agrees]
        refine ⟨.obj (setKey (containersKey init) (.arr (xs.set i cj')) kvs), ?_, ?_⟩
        · simp [atPointer, Json.child, hkx, parseIndex_toString, hx, hr, Json.setChild]
        · exact spec_withContainers_decodes hv hi hc (decodeList_set hd i hcj')

theorem spec_appendVolume_agrees {sj v : Json} {s : PodSpec} {vol : Volume}
    (hs : PodSpec.ofJson sj = some s) (hv : Volume.ofJson v = some vol) :
    Agrees PodSpec.ofJson (atPointer (fun d k => Json.addHere d k v) ["volumes", "-"] sj)
      (s.appendVolume vol) := by
  obtain ⟨kvs, rfl, hvs, hi, hc⟩ := podSpec_ofJson_inv hs
  unfold PodSpec.appendVolume
  cases hsv : s.Volumes with
  | none =>
    rw [hsv] at hvs
    simp only [Agrees]
    rcases optSlice_none hvs with hk | hk
    · simp [atPointer, Json.child, hk]
    · simp [atPointer, Json.child, hk, Json.addHere]
  | some vs =>
    rw [hsv] at hvs
    obtain ⟨xs, hk, hd⟩ := optSlice_some hvs
    simp only [Agrees]
    refine ⟨.obj (setKey "volumes" (.arr (xs ++ [v])) kvs), ?_, ?_⟩
    · simp [atPointer, Json.child, hk, Json.addHere, Json.setChild]
    · apply podSpec_ofJson_mk
      · rw [getKey_setKey_self]; simp [optSlice, decodeList_append_one hd hv]
      · rw [getKey_setKey_ne (by decide)]; exact hi
      · rw [getKey_setKey_ne (by decide)]; exact hc

theorem spec_createVolumes_agrees {sj : Json} {s : PodSpec}
    (hs : PodSpec.ofJson sj = some s) :
    Agrees PodSpec.ofJson (atPointer (fun d k => Json.addHere d k (.arr [])) ["volumes"] sj)
      s.createVolumes := by
  obtain ⟨kvs, rfl, -, hi, hc⟩ := podSpec_ofJson_inv hs
  refine ⟨_, rfl, ?_⟩
  apply podSpec_ofJson_mk
  · rw [getKey_setKey_self]; rfl
  · rw [getKey_setKey_ne (by decide)]; exact hi
  · rw [getKey_setKey_ne (by decide)]; exact hc

theorem pod_atSpec_agrees (leaf : Json → String → Option Json) (t : String)
    (ts : List String) (f : PodSpec → Option PodSpec)
    (hf : ∀ sj s, PodSpec.ofJson sj = some s →
      Agrees PodSpec.ofJson (atPointer leaf (t :: ts) sj) (f s))
    {doc : Json} {pod : Pod} (hd : Pod.ofJson doc = some pod) :
    Agrees Pod.ofJson (atPointer leaf ("spec" :: t :: ts) doc) (pod.atSpec f) := by
  obtain ⟨kvs, sj, rfl, hk, hs⟩ := pod_ofJson_inv hd
  have hagree := hf sj pod.Spec hs
  unfold Pod.atSpec
  cases hfs : f pod.Spec with
  | none =>
    rw [hfs] at hagree
    simp only [Agrees] at hagree ⊢
    simp [atPointer, Json.child, hk, hagree]
  | some s' =>
    rw [hfs] at hagree
    obtain ⟨sj', hr, hsj'⟩ := hagree
    simp only [Agrees]
    refine ⟨.obj (setKey "spec" sj' kvs), ?_, ?_⟩
    · simp [atPointer, Json.child, hk, hr, Json.setChild]
    · simp [Pod.ofJson, getKey_setKey_self, hsj']

theorem job_atSpec_agrees (leaf : Json → String → Option Json) (t : String)
    (ts : List String) (f : PodSpec → Option PodSpec)
    (hf : ∀ sj s, PodSpec.ofJson sj = some s →
      Agrees PodSpec.ofJson (atPointer leaf (t :: ts) sj) (f s))
    {doc : Json} {job : Job} (hd : Job.ofJson doc = some job) :
    Agrees Job.ofJson (atPointer leaf ("spec" :: "template" :: "spec" :: t :: ts) doc)
      (job.atSpec f) := by
  obtain ⟨kvs, kvs1, kvs2, sj, rfl, hk, hk1, hk2, hs⟩ := job_ofJson_inv hd
  have hagree := hf sj job.Spec.Template.Spec hs
  unfold Job.atSpec
  cases hfs : f job.Spec.Template.Spec with
  | none =>
    rw [hfs] at hagree
    simp only [Agrees] at hagree ⊢
    simp [atPointer, Json.child, hk, hk1, hk2, hagree]
  | some s' =>
    rw [hfs] at hagree
    obtain ⟨sj', hr, hsj'⟩ := hagree
    simp only [Agrees]
    refine ⟨.obj (setKey "spec" (.obj (setKey "template" (.obj (setKey "spec" sj' kvs2)) kvs1))
      kvs), ?_, ?_⟩
    · simp [atPointer, Json.child, hk, hk1, hk2, hr, Json.setChild]
    · simp [Job.ofJson, getKey_setKey_self, hsj']

/-! ## A patch sequence agrees with the run of its typed steps -/

theorem applyPatch_agrees {α : Type} (decode : Json → Option α)
    (pairs : List (PatchOp × (α → Option α)))
    (h : ∀ q ∈ pairs, ∀ doc a, decode doc = some a → Agrees decode (applyOp q.1 doc) (q.2 a)) :
    ∀ doc a, decode doc = some a →
      Agrees decode (applyPatch (pairs.map Prod.fst) doc) (runSteps (pairs.map Prod.snd) a) := by
  induction pairs with
  | nil =>
    intro doc a hd
    exact ⟨doc, rfl, hd⟩
  | cons q qs ih =>
    intro doc a hd
    have hq := h q (List.mem_cons_self _ _) doc a hd
    have ih' := ih (fun q' hq' => h q' (List.mem_cons_of_mem _ hq'))
    simp only [List.map_cons, applyPatch, runSteps]
    cases hqa : q.2 a with
    | none =>
      rw [hqa] at hq
      simp only [Agrees] at hq
      simp [hq, Agrees]
    | some a' =>
      rw [hqa] at hq
      obtain ⟨doc', hr, hd'⟩ := hq
      simp only [hr]
      exact ih' doc' a' hd'

theorem runSteps_append {α : Type} (fs gs : List (α → Option α)) (a : α) :
    runSteps (fs ++ gs) a =
      match runSteps fs a with
      | none => none
      | some a' => runSteps gs a' := by
  induction fs generalizing a with
  | nil => simp [runSteps]
  | cons f fs ih =>
    simp only [List.cons_append, runSteps]
    cases f a with
    | none => rfl
    | some a' => exact ih a'

theorem runSteps_pod (fs : List (PodSpec → Option PodSpec)) (pod : Pod) :
    runSteps (fs.map Pod.atSpec) pod = Pod.atSpec (runSteps fs) pod := by
  induction fs generalizing pod with
  | nil => simp [runSteps, Pod.atSpec]
  | cons f fs ih =>
    simp only [List.map_cons, runSteps, Pod.atSpec]
    cases f pod.Spec with
    | none => rfl
    | some s => simpa [Pod.atSpec] using ih { Spec := s }

theorem runSteps_job (fs : List (PodSpec → Option PodSpec)) (job : Job) :
    runSteps (fs.map Job.atSpec) job = Job.atSpec (runSteps fs) job := by
  induction fs generalizing job with
  | nil => simp [runSteps, Job.atSpec]
  | cons f fs ih =>
    simp only [List.map_cons, runSteps, Job.atSpec]
    cases f job.Spec.Template.Spec with
    | none => rfl
    | some s => simpa [Job.atSpec] using ih { Spec := { Template := { Spec := s } } }

/-! ## The decoded form of the emitted values -/

theorem volumeValue_decodes (config : Config) :
    Volume.ofJson (volumeValue config) = some (caVolume config) := by
  simp [Volume.ofJson, volumeValue, caVolume, getKey, optString, optConfigMap,
    ConfigMapVolumeSource.ofJson, optSlice, decodeList, KeyToPath.ofJson, optInt, Slice.elems]

theorem dirMountValue_decodes : VolumeMount.ofJson dirMountValue = some caDirMount := by
  decide

theorem bundleMountValue_decodes : VolumeMount.ofJson bundleMountValue = some caBundleMount := by
  decide

/-! ## Every operation of a Pod patch agrees with its typed step -/

theorem applyOp_add {o : PatchOp} {t : String} {ts : List String}
    (hop : o.op = "add") (hp : parsePointer o.path = some (t :: ts)) (doc : Json) :
    applyOp o doc = atPointer (fun d k => Json.addHere d k o.value) (t :: ts) doc := by
  simp [applyOp, hp, hop]

theorem pod_volume_agrees (config : Config) {doc : Json} {pod : Pod}
    (hd : Pod.ofJson doc = some pod) :
    Agrees Pod.ofJson
      (applyOp { op := "add", path := "/spec/volumes/-", value := volumeValue config } doc)
      (pod.atSpec (stepVolume config)) := by
  rw [applyOp_add rfl parsePointer_podVolumes]
  exact pod_atSpec_agrees _ _ _ _
    (fun sj s hs => spec_appendVolume_agrees hs (volumeValue_decodes config)) hd

theorem pod_create_agrees (i : Nat) {doc : Json} {pod : Pod}
    (hd : Pod.ofJson doc = some pod) :
    Agrees Pod.ofJson
      (applyOp { op := "add", path := podInitMounts i, value := .arr [] } doc)
      (pod.atSpec (stepCreate true i)) := by
  rw [applyOp_add rfl (parsePointer_initMounts i)]
  exact pod_atSpec_agrees _ _ _ _
    (fun sj s hs => spec_atContainer_agrees _ true i _ _ _
      (fun cj c hc => container_create_agrees hc) hs) hd

theorem pod_initAppend_agrees (i : Nat) {doc : Json} {pod : Pod}
    (hd : Pod.ofJson doc = some pod) :
    Agrees Pod.ofJson
      (applyOp { op := "add", path := podInitMountsEnd i, value := dirMountValue } doc)
      (pod.atSpec (stepAppend true i caDirMount)) := by
  rw [applyOp_add rfl (parsePointer_initMountsAppend i)]
  exact pod_atSpec_agrees _ _ _ _
    (fun sj s hs => spec_atContainer_agrees _ true i _ _ _
      (fun cj c hc => container_append_agrees hc dirMountValue_decodes) hs) hd

theorem pod_containerAppend_agrees (i : Nat) {v : Json} {m : VolumeMount}
    (hv : VolumeMount.ofJson v = some m) {doc : Json} {pod : Pod}
    (hd : Pod.ofJson doc = some pod) :
    Agrees Pod.ofJson
      (applyOp { op := "add", path := podContainerMountsEnd i, value := v } doc)
      (pod.atSpec (stepAppend false i m)) := by
  rw [applyOp_add rfl (parsePointer_containerMountsAppend i)]
  exact pod_atSpec_agrees _ _ _ _
    (fun sj s hs => spec_atContainer_agrees _ false i _ _ _
      (fun cj c hc => container_append_agrees hc hv) hs) hd

theorem podPairs_fst (config : Config) (pod : Pod) :
    (podPairs config pod).map Prod.fst = mutatePod config pod := by
  rw [mutatePod_eq]
  unfold podPairs
  have h1 : ∀ l : List (Nat × Container),
      (l.flatMap podInitPairs).map Prod.fst = l.flatMap initContainerOps := by
    intro l
    induction l with
    | nil => rfl
    | cons ic l ih =>
      simp only [List.flatMap_cons, List.map_append, ih]
      congr 1
      unfold podInitPairs initContainerOps
      by_cases h : ic.2.VolumeMounts = none <;> simp [h]
  have h2 : ∀ l : List (Nat × Container),
      (l.flatMap (fun c => podContainerPairs c.1)).map Prod.fst =
        l.flatMap (fun c => containerOps c.1) := by
    intro l
    induction l with
    | nil => rfl
    | cons ic l ih =>
      simp only [List.flatMap_cons, List.map_append, ih]
      rfl
  by_cases hv : hasCaVolume pod.Spec
  · simp only [hv, if_true, List.nil_append, h2]
  · simp only [hv, if_false, List.map_append, List.map_cons, h1, h2]

theorem podPairs_agree (config : Config) (pod : Pod) :
    ∀ q ∈ (podPairs config pod).map (fun q => (q.1, Pod.atSpec q.2)),
      ∀ doc a, Pod.ofJson doc = some a → Agrees Pod.ofJson (applyOp q.1 doc) (q.2 a) := by
  intro q hq doc a hd
  obtain ⟨⟨o, f⟩, hof, rfl⟩ := List.mem_map.1 hq
  unfold podPairs at hof
  rcases List.mem_append.1 hof with h | h
  · by_cases hv : hasCaVolume pod.Spec
    · simp [hv] at h
    · rw [if_neg hv] at h
      rcases List.mem_cons.1 h with h | h
      · cases h
        exact pod_volume_agrees config hd
      · obtain ⟨ic, -, hic⟩ := List.mem_flatMap.1 h
        unfold podInitPairs at hic
        rcases List.mem_append.1 hic with hic | hic
        · split at hic
          · simp only [List.mem_singleton] at hic
            cases hic
            exact pod_create_agrees ic.1 hd
          · simp at hic
        · simp only [List.mem_singleton] at hic
          cases hic
          exact pod_initAppend_agrees ic.1 hd
  · obtain ⟨ic, -, hic⟩ := List.mem_flatMap.1 h
    simp only [podContainerPairs, List.mem_cons, List.mem_singleton, List.not_mem_nil,
      or_false] at hic
    rcases hic with hic | hic
    · cases hic
      exact pod_containerAppend_agrees ic.1 dirMountValue_decodes hd
    · cases hic
      exact pod_containerAppend_agrees ic.1 bundleMountValue_decodes hd

/-! ## Running the typed steps of a Pod patch -/

theorem atContainer_mid (init : Bool) (s : PodSpec) (pre : List Container) (c : Container)
    (tail : List Container) (f : Container → Option Container)
    (h : s.containersOf init = some (pre ++ c :: tail)) :
    s.atContainer init pre.length f =
      match f c with
      | none => none
      | some c' => some (s.withContainers init (pre ++ c' :: tail)) := by
  unfold PodSpec.atContainer
  rw [h]
  have hget : (pre ++ c :: tail)[pre.length]? = some c := by
    rw [List.getElem?_append_right (Nat.le_refl _)]
    simp
  simp only [hget, List.set_append_right _ _ (Nat.le_refl _), Nat.sub_self, List.set_cons_zero]

theorem run_initPairs (cs pre : List Container) (s : PodSpec)
    (h : s.InitContainers = some (pre ++ cs)) :
    runSteps (((List.enumFrom pre.length cs).flatMap podInitPairs).map Prod.snd) s =
      some { s with InitContainers := some (pre ++ cs.map addDirMount) } := by
  induction cs generalizing pre s with
  | nil =>
    cases s
    simp only [List.append_nil] at h
    simp [runSteps, ← h]
  | cons c cs ih =>
    have hnext : ∀ s' : PodSpec, s'.InitContainers = some (pre ++ addDirMount c :: cs) →
        runSteps (((List.enumFrom (pre.length + 1) cs).flatMap podInitPairs).map Prod.snd) s' =
          some { s' with InitContainers := some (pre ++ addDirMount c :: cs.map addDirMount) } := by
      intro s' hs'
      have := ih (pre ++ [addDirMount c]) s' (by simpa using hs')
      simpa using this
    simp only [List.enumFrom_cons, List.flatMap_cons, List.map_append, runSteps_append]
    cases hc : c.VolumeMounts with
    | none =>
      have h1 : stepCreate true pre.length s =
          some { s with InitContainers := some (pre ++ { c with VolumeMounts := some [] } :: cs) } := by
        unfold stepCreate
        rw [atContainer_mid true s pre c cs _ (by simpa [PodSpec.containersOf] using h)]
        simp [Container.createMounts, PodSpec.withContainers]
      have h2 : stepAppend true pre.length caDirMount
          { s with InitContainers := some (pre ++ { c with VolumeMounts := some [] } :: cs) } =
          some { s with InitContainers := some (pre ++ addDirMount c :: cs) } := by
        unfold stepAppend
        rw [atContainer_mid true _ pre { c with VolumeMounts := some [] } cs _
          (by simp [PodSpec.containersOf])]
        simp [Container.appendMount, PodSpec.withContainers, addDirMount, hc, Slice.elems]
      simp only [podInitPairs, hc, if_true, List.map_append, List.map_cons, List.map_nil,
        List.singleton_append, runSteps, h1, h2]
      rw [hnext _ rfl]
    | some ms =>
      have h2 : stepAppend true pre.length caDirMount s =
          some { s with InitContainers := some (pre ++ addDirMount c :: cs) } := by
        unfold stepAppend
        rw [atContainer_mid true s pre c cs _ (by simpa [PodSpec.containersOf] using h)]
        simp [Container.appendMount, PodSpec.withContainers, addDirMount, hc, Slice.elems]
      simp only [podInitPairs, hc, List.map_append, List.map_cons, List.map_nil,
        List.nil_append, runSteps, h2, reduceCtorEq, if_false]
      rw [hnext _ rfl]

theorem run_containerPairs (cs pre rest : List Container) (s : PodSpec)
    (h : s.Containers = some (pre ++ cs ++ rest)) :
    runSteps (((List.enumFrom pre.length cs).flatMap
        (fun c => podContainerPairs c.1)).map Prod.snd) s =
      if ∃ c ∈ cs, c.VolumeMounts = none then none
      else some { s with Containers := some (pre ++ cs.map addBothMounts ++ rest) } := by
  induction cs generalizing pre s with
  | nil =>
    cases s
    simp only [List.append_nil] at h
    simp [runSteps, ← h]
  | cons c cs ih =>
    simp only [List.enumFrom_cons, List.flatMap_cons, List.map_append, runSteps_append]
    have hs : s.containersOf false = some (pre ++ c :: (cs ++ rest)) := by
      simpa [PodSpec.containersOf] using h
    cases hc : c.VolumeMounts with
    | none =>
      have h1 : stepAppend false pre.length caDirMount s = none := by
        unfold stepAppend
        rw [atContainer_mid false s pre c (cs ++ rest) _ hs]
        simp [Container.appendMount, hc]
      have hex : ∃ c' ∈ c :: cs, c'.VolumeMounts = none := ⟨c, List.mem_cons_self _ _, hc⟩
      have hpair : runSteps ((podContainerPairs pre.length).map Prod.snd) s = none := by
        simp only [podContainerPairs, List.map_cons, List.map_nil, runSteps, h1]
      rw [hpair]
      simp only [hex, if_true]

    | some ms =>
      have h1 : stepAppend false pre.length caDirMount s =
          some (s.withContainers false
            (pre ++ { c with VolumeMounts := some (ms ++ [caDirMount]) } :: (cs ++ rest))) := by
        unfold stepAppend
        rw [atContainer_mid false s pre c (cs ++ rest) _ hs]
        simp [Container.appendMount, hc]
      have h2 : stepAppend false pre.length caBundleMount (s.withContainers false
            (pre ++ { c with VolumeMounts := some (ms ++ [caDirMount]) } :: (cs ++ rest))) =
          some { s with Containers := some (pre ++ addBothMounts c :: (cs ++ rest)) } := by
        unfold stepAppend
        rw [atContainer_mid false _ pre { c with VolumeMounts := some (ms ++ [caDirMount]) }
          (cs ++ rest) _ (by simp [PodSpec.containersOf, PodSpec.withContainers])]
        simp [Container.appendMount, PodSpec.withContainers, addBothMounts, hc, Slice.elems]
      have hpair : runSteps ((podContainerPairs pre.length).map Prod.snd) s =
          some { s with Containers := some (pre ++ addBothMounts c :: (cs ++ rest)) } := by
        simp only [podContainerPairs, List.map_cons, List.map_nil, runSteps, h1, h2]
      rw [hpair]
      have := ih (pre ++ [addBothMounts c])
        { s with Containers := some (pre ++ addBothMounts c :: (cs ++ rest)) } (by simp)
      simp only [List.length_append, List.length_singleton] at this
      dsimp only
      rw [this]
      by_cases hex : ∃ c' ∈ cs, c'.VolumeMounts = none
      · have hex' : ∃ c' ∈ c :: cs, c'.VolumeMounts = none := by
          obtain ⟨c', hc', hn⟩ := hex
          exact ⟨c', List.mem_cons_of_mem _ hc', hn⟩
        simp only [hex, hex', if_true]
      · have hex' : ¬ ∃ c' ∈ c :: cs, c'.VolumeMounts = none := by
          rintro ⟨c', hc', hn⟩
          rcases List.mem_cons.1 hc' with rfl | hc'
          · rw [hc] at hn; cases hn
          · exact hex ⟨c', hc', hn⟩
        simp [hex, hc]

theorem run_podPairs (config : Config) (pod : Pod) :
    runSteps ((podPairs config pod).map Prod.snd) pod.Spec = patchedPodSpec config pod.Spec := by
  obtain ⟨⟨vols, inits, conts⟩⟩ := pod
  unfold podPairs patchedPodSpec
  simp only [List.map_append, runSteps_append]
  -- the container part, from any state that still has the containers of the Pod
  have hcont : ∀ s : PodSpec, s.Containers = conts →
      runSteps (((List.enumFrom 0 ((Slice.elems conts).takeWhile
          (fun c => decide (¬ hasCaMount c)))).flatMap
            (fun c => podContainerPairs c.1)).map Prod.snd) s =
        if ∃ c ∈ (Slice.elems conts).takeWhile (fun c => decide (¬ hasCaMount c)),
            c.VolumeMounts = none then none
        else some { s with Containers := conts.map (fun cs =>
          (cs.takeWhile (fun c => decide (¬ hasCaMount c))).map addBothMounts ++
            cs.dropWhile (fun c => decide (¬ hasCaMount c))) } := by
    intro s hs
    cases conts with
    | none =>
      cases s
      simp only at hs
      simp [Slice.elems, runSteps, hs]
    | some cs =>
      have := run_containerPairs (cs.takeWhile (fun c => decide (¬ hasCaMount c))) []
        (cs.dropWhile (fun c => decide (¬ hasCaMount c))) s
        (by simp [hs, List.takeWhile_append_dropWhile])
      simpa [Slice.elems] using this
  by_cases hv : hasCaVolume { Volumes := vols, InitContainers := inits, Containers := conts }
  · simp only [hv, if_true, List.map_nil, runSteps, not_true_eq_false, false_and, false_or]
    rw [hcont _ rfl]
  · simp only [hv, if_false, List.map_cons, runSteps, not_false_eq_true, true_and]
    cases vols with
    | none => simp [stepVolume, PodSpec.appendVolume]
    | some vs =>
      simp only [stepVolume, PodSpec.appendVolume, runSteps_append, reduceCtorEq, false_or]
      have hinit : runSteps (((List.enumFrom 0 (Slice.elems inits)).flatMap
            podInitPairs).map Prod.snd)
          { Volumes := some (vs ++ [caVolume config]), InitContainers := inits,
            Containers := conts } =
          some { Volumes := some (vs ++ [caVolume config]),
                 InitContainers := inits.map (List.map addDirMount), Containers := conts } := by
        cases inits with
        | none => simp [Slice.elems, runSteps]
        | some ics =>
          have := run_initPairs ics []
            { Volumes := some (vs ++ [caVolume config]), InitContainers := some ics,
              Containers := conts } (by simp)
          simpa [Slice.elems] using this
      rw [hinit]
      simp only []
      rw [hcont _ rfl]
      simp [Slice.elems]

/-! ## Applying the patch of a Pod -/

/-- The patch of a Pod, applied to a document of that Pod, agrees with `patchedPodSpec`. -/
theorem pod_patch_agrees (config : Config) {doc : Json} {pod : Pod}
    (hd : Pod.ofJson doc = some pod) :
    Agrees Pod.ofJson (applyPatch (mutatePod config pod) doc)
      (pod.atSpec (patchedPodSpec config)) := by
  have h := applyPatch_agrees Pod.ofJson
    ((podPairs config pod).map (fun q => (q.1, Pod.atSpec q.2))) (podPairs_agree config pod)
    doc pod hd
  have h1 : ((podPairs config pod).map (fun q => (q.1, Pod.atSpec q.2))).map Prod.fst =
      mutatePod config pod := by
    rw [← podPairs_fst, List.map_map]; rfl
  have h2 : ((podPairs config pod).map (fun q => (q.1, Pod.atSpec q.2))).map Prod.snd =
      ((podPairs config pod).map Prod.snd).map Pod.atSpec := by
    rw [List.map_map, List.map_map]; rfl
  rw [h1, h2, runSteps_pod] at h
  have h3 : Pod.atSpec (runSteps ((podPairs config pod).map Prod.snd)) pod =
      pod.atSpec (patchedPodSpec config) := by
    simp only [Pod.atSpec, run_podPairs]
  rw [h3] at h
  exact h

theorem hasCaMount_addBothMounts (c : Container) : hasCaMount (addBothMounts c) := by
  refine ⟨caDirMount, ?_, rfl⟩
  simp [addBothMounts, Slice.elems]

theorem takeWhile_patched (cs : List Container) :
    ((cs.takeWhile (fun c => decide (¬ hasCaMount c))).map addBothMounts ++
        cs.dropWhile (fun c => decide (¬ hasCaMount c))).takeWhile
      (fun c => decide (¬ hasCaMount c)) = [] := by
  cases cs with
  | nil => rfl
  | cons c cs =>
    by_cases h : hasCaMount c
    · simp [List.takeWhile_cons, List.dropWhile_cons, h]
    · simp [List.takeWhile_cons, List.dropWhile_cons, h, hasCaMount_addBothMounts]

theorem mutatePod_patched {config : Config} {s s' : PodSpec}
    (h : patchedPodSpec config s = some s') (config' : Config) :
    mutatePod config' { Spec := s' } = [] := by
  unfold patchedPodSpec at h
  split at h
  · cases h
  · simp only [Option.some.injEq] at h
    subst h
    have hvol : hasCaVolume
        { Volumes :=
            if hasCaVolume s then s.Volumes
            else some (Slice.elems s.Volumes ++ [caVolume config])
          InitContainers :=
            if hasCaVolume s then s.InitContainers
            else s.InitContainers.map (List.map addDirMount)
          Containers :=
            s.Containers.map (fun cs =>
              (cs.takeWhile (fun c => decide (¬ hasCaMount c))).map addBothMounts ++
                cs.dropWhile (fun c => decide (¬ hasCaMount c))) } := by
      by_cases hv : hasCaVolume s
      · show ∃ v ∈ Slice.elems (if hasCaVolume s then s.Volumes else _), _
        rw [if_pos hv]
        exact hv
      · refine ⟨caVolume config, ?_, rfl⟩
        simp [hv, Slice.elems]
    rw [mutatePod_eq, if_pos hvol, List.nil_append]
    cases hc : s.Containers with
    | none => simp [Slice.elems]
    | some cs =>
      simp only [Option.map, Slice.elems]
      rw [takeWhile_patched]
      rfl

/-- C8: if the patch sequence produced for a Pod applies successfully to a document of
that Pod, then the Pod builder, run on the Pod decoded from the patched document, yields
the empty patch sequence. -/
theorem pod_builder_idempotent_after_patch (config : Config) (doc doc' : Json) (pod : Pod)
    (hd : Pod.ofJson doc = some pod)
    (happ : applyPatch (mutatePod config pod) doc = some doc') :
    ∃ pod', Pod.ofJson doc' = some pod' ∧ mutatePod config pod' = [] := by
  have h := pod_patch_agrees config hd
  unfold Pod.atSpec at h
  cases hp : patchedPodSpec config pod.Spec with
  | none =>
    rw [hp] at h
    simp only [Agrees] at h
    rw [h] at happ
    cases happ
  | some s' =>
    rw [hp] at h
    obtain ⟨j, hj, hdec⟩ := h
    rw [hj] at happ
    cases happ
    exact ⟨{ Spec := s' }, hdec, mutatePod_patched hp config⟩

theorem pod_builder_idempotent_after_patch_witness :
    Pod.ofJson podFresh.toJson = some podFresh ∧
      applyPatch (mutatePod defaultConfig podFresh) podFresh.toJson =
        some podFreshPatched.toJson ∧
      ∃ pod', Pod.ofJson podFreshPatched.toJson = some pod' ∧
        mutatePod defaultConfig pod' = [] :=
  ⟨by decide, by decide,
    pod_builder_idempotent_after_patch defaultConfig podFresh.toJson podFreshPatched.toJson
      podFresh (by decide) (by decide)⟩

/-- The guard by name at work: the container of `podCustomMount` already has a mount named
ca-certificates at a path of its own, so the builder skips it; the patch applies, and in
the patched Pod that container has neither the mount at the certificate directory nor the
one at the bundle file. -/
theorem pod_round_trip_keeps_custom_mount :
    Pod.ofJson podCustomMount.toJson = some podCustomMount ∧
      applyPatch (mutatePod defaultConfig podCustomMount) podCustomMount.toJson =
        some podCustomMountPatched.toJson ∧
      Pod.ofJson podCustomMountPatched.toJson = some podCustomMountPatched ∧
      ¬ (∀ c ∈ Slice.elems podCustomMountPatched.Spec.Containers,
          hasDirMount c ∧ hasBundleMount c) := by
  decide

theorem dropWhile_no_mount {cs : List Container} (h : ∀ c ∈ cs, ¬ hasCaMount c) :
    cs.dropWhile (fun c => decide (¬ hasCaMount c)) = [] := by
  rw [List.dropWhile_eq_nil_iff]
  intro c hc
  simpa using h c hc

theorem hasDirMount_addBothMounts (c : Container) : hasDirMount (addBothMounts c) := by
  refine ⟨caDirMount, ?_, rfl, rfl⟩
  simp [addBothMounts, Slice.elems]

theorem hasBundleMount_addBothMounts (c : Container) : hasBundleMount (addBothMounts c) := by
  refine ⟨caBundleMount, ?_, rfl, rfl⟩
  simp [addBothMounts, Slice.elems]

theorem hasDirMount_addDirMount (c : Container) : hasDirMount (addDirMount c) := by
  refine ⟨caDirMount, ?_, rfl, rfl⟩
  simp [addDirMount, Slice.elems]

theorem hasConfigVolume_of_mem {config : Config} {s : PodSpec}
    (h : caVolume config ∈ Slice.elems s.Volumes) : hasConfigVolume config s :=
  ⟨caVolume config, h, rfl, _, rfl, rfl, List.mem_singleton.2 rfl⟩

/-- Where the arrays exist the round trip holds: for a Pod whose `volumes` is present and
whose containers each have a `volumeMounts` array without a mount named ca-certificates,
the patch sequence applies to
any document of the Pod, and the patched document decodes to a Pod with the same
containers by name, each with the mount at the certificate directory and the mount at
the bundle file, and with a volume named ca-certificates; when the Pod had no such volume,
the patched Pod has the configMap-backed volume of the configuration and every
init-container has the mount at the certificate directory. -/
theorem pod_round_trip (config : Config) (doc : Json) (pod : Pod)
    (hd : Pod.ofJson doc = some pod)
    (hvols : pod.Spec.Volumes ≠ none)
    (hc : ∀ c ∈ Slice.elems pod.Spec.Containers, c.VolumeMounts ≠ none ∧ ¬ hasCaMount c) :
    ∃ doc' pod', applyPatch (mutatePod config pod) doc = some doc' ∧
      Pod.ofJson doc' = some pod' ∧
      (Slice.elems pod'.Spec.Containers).map (fun c => c.Name) =
        (Slice.elems pod.Spec.Containers).map (fun c => c.Name) ∧
      (∀ c ∈ Slice.elems pod'.Spec.Containers, hasDirMount c ∧ hasBundleMount c) ∧
      hasCaVolume pod'.Spec ∧
      (¬ hasCaVolume pod.Spec →
        hasConfigVolume config pod'.Spec ∧
          (Slice.elems pod'.Spec.InitContainers).map (fun c => c.Name) =
            (Slice.elems pod.Spec.InitContainers).map (fun c => c.Name) ∧
          ∀ c ∈ Slice.elems pod'.Spec.InitContainers, hasDirMount c) := by
  obtain ⟨⟨vols, inits, conts⟩⟩ := pod
  simp only at hvols hc
  have hno : ∀ c ∈ Slice.elems conts, ¬ hasCaMount c := fun c h => (hc c h).2
  have hcond : ¬ ((¬ hasCaVolume { Volumes := vols, InitContainers := inits, Containers := conts } ∧
      vols = none) ∨ ∃ c ∈ (Slice.elems conts).takeWhile (fun c => decide (¬ hasCaMount c)),
        c.VolumeMounts = none) := by
    rintro (⟨-, h⟩ | ⟨c, hmem, hn⟩)
    · exact hvols h
    · exact (hc c ((List.takeWhile_prefix _).subset hmem)).1 hn
  have h := pod_patch_agrees config hd
  simp only [Pod.atSpec, patchedPodSpec, if_neg hcond] at h
  obtain ⟨doc', happ, hdec⟩ := h
  refine ⟨doc', _, happ, hdec, ?_, ?_, ?_, ?_⟩
  · cases conts with
    | none => rfl
    | some cs =>
      simp only [Slice.elems] at hno
      simp only [Option.map, Slice.elems, takeWhile_no_mount hno, dropWhile_no_mount hno,
        List.append_nil, List.map_map]
      rfl
  · intro c hmem
    cases conts with
    | none => simp [Slice.elems] at hmem
    | some cs =>
      simp only [Slice.elems] at hno
      simp only [Option.map, Slice.elems, takeWhile_no_mount hno, dropWhile_no_mount hno,
        List.append_nil, List.mem_map] at hmem
      obtain ⟨c0, -, rfl⟩ := hmem
      exact ⟨hasDirMount_addBothMounts c0, hasBundleMount_addBothMounts c0⟩
  · by_cases hv : hasCaVolume { Volumes := vols, InitContainers := inits, Containers := conts }
    · show ∃ v ∈ Slice.elems (if hasCaVolume _ then vols else _), _
      rw [if_pos hv]
      exact hv
    · refine ⟨caVolume config, ?_, rfl⟩
      simp [hv, Slice.elems]
  · intro hv
    refine ⟨hasConfigVolume_of_mem ?_, ?_, ?_⟩
    · simp [hv, Slice.elems]
    · cases inits with
      | none => simp [hv, Slice.elems]
      | some ics => simp [hv, Slice.elems, addDirMount, Function.comp_def]
    · intro c hmem
      cases inits with
      | none => simp [hv, Slice.elems] at hmem
      | some ics =>
        simp only [hv, if_false, Option.map, Slice.elems, List.mem_map] at hmem
        obtain ⟨c0, -, rfl⟩ := hmem
        exact hasDirMount_addDirMount c0

theorem pod_round_trip_witness :
    Pod.ofJson podFresh.toJson = some podFresh ∧
      podFresh.Spec.Volumes ≠ none ∧
      (∀ c ∈ Slice.elems podFresh.Spec.Containers, c.VolumeMounts ≠ none ∧ ¬ hasCaMount c) ∧
      ∃ doc' pod', applyPatch (mutatePod defaultConfig podFresh) podFresh.toJson = some doc' ∧
        Pod.ofJson doc' = some pod' ∧
        (Slice.elems pod'.Spec.Containers).map (fun c => c.Name) =
          (Slice.elems podFresh.Spec.Containers).map (fun c => c.Name) ∧
        (∀ c ∈ Slice.elems pod'.Spec.Containers, hasDirMount c ∧ hasBundleMount c) ∧
        hasCaVolume pod'.Spec ∧
        (¬ hasCaVolume podFresh.Spec →
          hasConfigVolume defaultConfig pod'.Spec ∧
            (Slice.elems pod'.Spec.InitContainers).map (fun c => c.Name) =
              (Slice.elems podFresh.Spec.InitContainers).map (fun c => c.Name) ∧
            ∀ c ∈ Slice.elems pod'.Spec.InitContainers, hasDirMount c) :=
  ⟨by decide, by decide, by decide,
    pod_round_trip defaultConfig podFresh.toJson podFresh (by decide) (by decide) (by decide)⟩

/-! ## The Job branch in closed form -/

theorem jobDirLoop_eq (cs : List Container) (i : Nat) (p : List PatchOp) :
    jobDirLoop cs i p = p ++ (List.enumFrom i cs).flatMap jobDirOps := by
  induction cs generalizing i p with
  | nil => simp [jobDirLoop]
  | cons c cs ih =>
    simp only [jobDirLoop, ih, List.enumFrom_cons, List.flatMap_cons, jobDirOps,
      jobContainerMounts, jobContainerMountsEnd]
    by_cases h : c.VolumeMounts = none <;> simp [h]

theorem jobBundleLoop_eq (cs : List Container) (i : Nat) (p : List PatchOp) :
    jobBundleLoop cs i p = p ++ (List.enumFrom i cs).flatMap jobBundleOps := by
  induction cs generalizing i p with
  | nil => simp [jobBundleLoop]
  | cons c cs ih =>
    simp only [jobBundleLoop, ih, List.enumFrom_cons, List.flatMap_cons, jobBundleOps,
      jobContainerMounts, jobContainerMountsEnd]
    by_cases h : c.VolumeMounts = none <;> simp [h]

theorem mutateJob_eq (config : Config) (job : Job) :
    mutateJob config job =
      (if job.Spec.Template.Spec.Volumes = none then
        [{ op := "add", path := "/spec/template/spec/volumes", value := .arr [] }]
       else []) ++
      [{ op := "add", path := "/spec/template/spec/volumes/-", value := volumeValue config }] ++
      (List.enumFrom 0 (Slice.elems job.Spec.Template.Spec.Containers)).flatMap jobDirOps ++
      (List.enumFrom 0 (Slice.elems job.Spec.Template.Spec.Containers)).flatMap jobBundleOps := by
  unfold mutateJob
  simp only [jobDirLoop_eq, jobBundleLoop_eq, List.nil_append]

theorem jobPairs_fst (config : Config) (job : Job) :
    (jobPairs config job).map Prod.fst = mutateJob config job := by
  rw [mutateJob_eq]
  unfold jobPairs
  have h1 : ∀ l : List (Nat × Container),
      (l.flatMap jobDirPairs).map Prod.fst = l.flatMap jobDirOps := by
    intro l
    induction l with
    | nil => rfl
    | cons ic l ih =>
      simp only [List.flatMap_cons, List.map_append, ih]
      congr 1
      unfold jobDirPairs jobDirOps
      by_cases h : ic.2.VolumeMounts = none <;> simp [h]
  have h2 : ∀ l : List (Nat × Container),
      (l.flatMap jobBundlePairs).map Prod.fst = l.flatMap jobBundleOps := by
    intro l
    induction l with
    | nil => rfl
    | cons ic l ih =>
      simp only [List.flatMap_cons, List.map_append, ih]
      congr 1
      unfold jobBundlePairs jobBundleOps
      by_cases h : ic.2.VolumeMounts = none <;> simp [h]
  simp only [List.map_append, h1, h2]
  by_cases hv : job.Spec.Template.Spec.Volumes = none <;> simp [hv]

/-! ## Every operation of a Job patch agrees with its typed step -/

theorem job_createVolumes_agrees {doc : Json} {job : Job} (hd : Job.ofJson doc = some job) :
    Agrees Job.ofJson
      (applyOp { op := "add", path := "/spec/template/spec/volumes", value := .arr [] } doc)
      (job.atSpec PodSpec.createVolumes) := by
  rw [applyOp_add rfl parsePointer_jobVolumes]
  exact job_atSpec_agrees _ _ _ _ (fun sj s hs => spec_createVolumes_agrees hs) hd

theorem job_volume_agrees (config : Config) {doc : Json} {job : Job}
    (hd : Job.ofJson doc = some job) :
    Agrees Job.ofJson
      (applyOp { op := "add", path := "/spec/template/spec/volumes/-",
                 value := volumeValue config } doc)
      (job.atSpec (stepVolume config)) := by
  rw [applyOp_add rfl parsePointer_jobVolumesAppend]
  exact job_atSpec_agrees _ _ _ _
    (fun sj s hs => spec_appendVolume_agrees hs (volumeValue_decodes config)) hd

theorem job_create_agrees (i : Nat) {doc : Json} {job : Job}
    (hd : Job.ofJson doc = some job) :
    Agrees Job.ofJson
      (applyOp { op := "add", path := jobContainerMounts i, value := .arr [] } doc)
      (job.atSpec (stepCreate false i)) := by
  rw [applyOp_add rfl (parsePointer_jobMounts i)]
  exact job_atSpec_agrees _ _ _ _
    (fun sj s hs => spec_atContainer_agrees _ false i _ _ _
      (fun cj c hc => container_create_agrees hc) hs) hd

theorem job_append_agrees (i : Nat) {v : Json} {m : VolumeMount}
    (hv : VolumeMount.ofJson v = some m) {doc : Json} {job : Job}
    (hd : Job.ofJson doc = some job) :
    Agrees Job.ofJson
      (applyOp { op := "add", path := jobContainerMountsEnd i, value := v } doc)
      (job.atSpec (stepAppend false i m)) := by
  rw [applyOp_add rfl (parsePointer_jobMountsAppend i)]
  exact job_atSpec_agrees _ _ _ _
    (fun sj s hs => spec_atContainer_agrees _ false i _ _ _
      (fun cj c hc => container_append_agrees hc hv) hs) hd

theorem jobPairs_agree (config : Config) (job : Job) :
    ∀ q ∈ (jobPairs config job).map (fun q => (q.1, Job.atSpec q.2)),
      ∀ doc a, Job.ofJson doc = some a → Agrees Job.ofJson (applyOp q.1 doc) (q.2 a) := by
  intro q hq doc a hd
  obtain ⟨⟨o, f⟩, hof, rfl⟩ := List.mem_map.1 hq
  unfold jobPairs at hof
  rcases List.mem_append.1 hof with h | h
  · rcases List.mem_append.1 h with h | h
    · rcases List.mem_append.1 h with h | h
      · split at h
        · simp only [List.mem_singleton] at h
          cases h
          exact job_createVolumes_agrees hd
        · simp at h
      · simp only [List.mem_singleton] at h
        cases h
        exact job_volume_agrees config hd
    · obtain ⟨ic, -, hic⟩ := List.mem_flatMap.1 h
      unfold jobDirPairs at hic
      rcases List.mem_append.1 hic with hic | hic
      · split at hic
        · simp only [List.mem_singleton] at hic
          cases hic
          exact job_create_agrees ic.1 hd
        · simp at hic
      · simp only [List.mem_singleton] at hic
        cases hic
        exact job_append_agrees ic.1 dirMountValue_decodes hd
  · obtain ⟨ic, -, hic⟩ := List.mem_flatMap.1 h
    unfold jobBundlePairs at hic
    rcases List.mem_append.1 hic with hic | hic
    · split at hic
      · simp only [List.mem_singleton] at hic
        cases hic
        exact job_create_agrees ic.1 hd
      · simp at hic
    · simp only [List.mem_singleton] at hic
      cases hic
      exact job_append_agrees ic.1 bundleMountValue_decodes hd

/-! ## Running the typed steps of a Job patch -/

theorem containersOf_withContainers (init : Bool) (s : PodSpec) (cs : List Container) :
    (s.withContainers init cs).containersOf init = some cs := by
  cases init <;> simp [PodSpec.withContainers, PodSpec.containersOf]

theorem withContainers_withContainers (init : Bool) (s : PodSpec) (a b : List Container) :
    (s.withContainers init a).withContainers init b = s.withContainers init b := by
  cases init <;> simp [PodSpec.withContainers]

theorem withContainers_self (init : Bool) (s : PodSpec) (cs : List Container)
    (h : s.containersOf init = some cs) : s.withContainers init cs = s := by
  cases s
  cases init <;> simp_all [PodSpec.withContainers, PodSpec.containersOf]

theorem run_createAppend (init : Bool) (m : VolumeMount) (g : Container → Container)
    (hg : ∀ c, c.VolumeMounts ≠ none → (g c).VolumeMounts ≠ none)
    (cs pre : List Container) (s : PodSpec)
    (h : s.containersOf init = some (pre ++ cs.map g)) :
    runSteps ((List.enumFrom pre.length cs).flatMap (createAppendSteps init m)) s =
      some (s.withContainers init (pre ++ cs.map (afterCreateAppend m g))) := by
  induction cs generalizing pre s with
  | nil =>
    simp only [List.map_nil, List.append_nil] at h ⊢
    simp [runSteps, withContainers_self init s pre h]
  | cons c cs ih =>
    simp only [List.map_cons] at h
    simp only [List.enumFrom_cons, List.flatMap_cons, runSteps_append, List.map_cons]
    have hround : runSteps (createAppendSteps init m (pre.length, c)) s =
        some (s.withContainers init (pre ++ afterCreateAppend m g c :: cs.map g)) := by
      cases hc : c.VolumeMounts with
      | none =>
        have h1 : stepCreate init pre.length s =
            some (s.withContainers init
              (pre ++ { Name := (g c).Name, VolumeMounts := some [] } :: cs.map g)) := by
          unfold stepCreate
          rw [atContainer_mid init s pre (g c) (cs.map g) _ h]
          simp [Container.createMounts]
        have h2 : stepAppend init pre.length m (s.withContainers init
              (pre ++ { Name := (g c).Name, VolumeMounts := some [] } :: cs.map g)) =
            some (s.withContainers init (pre ++ afterCreateAppend m g c :: cs.map g)) := by
          unfold stepAppend
          rw [atContainer_mid init _ pre { Name := (g c).Name, VolumeMounts := some [] }
            (cs.map g) _ (containersOf_withContainers _ _ _)]
          simp [Container.appendMount, afterCreateAppend, hc, withContainers_withContainers]
        simp only [createAppendSteps, hc, if_true, List.singleton_append, runSteps, h1, h2]
      | some ms =>
        have hgc : (g c).VolumeMounts ≠ none := hg c (by rw [hc]; simp)
        obtain ⟨ms', hms'⟩ := Option.ne_none_iff_exists'.1 hgc
        have h2 : stepAppend init pre.length m s =
            some (s.withContainers init (pre ++ afterCreateAppend m g c :: cs.map g)) := by
          unfold stepAppend
          rw [atContainer_mid init s pre (g c) (cs.map g) _ h]
          simp [Container.appendMount, afterCreateAppend, hc, hms', Slice.elems]
        simp only [createAppendSteps, hc, reduceCtorEq, if_false, List.nil_append, runSteps, h2]
    rw [hround]
    have := ih (pre ++ [afterCreateAppend m g c])
      (s.withContainers init (pre ++ afterCreateAppend m g c :: cs.map g))
      (by rw [containersOf_withContainers]; simp)
    simp only [List.length_append, List.length_singleton] at this
    dsimp only
    rw [this, withContainers_withContainers]
    simp

theorem afterCreateAppend_id (c : Container) :
    afterCreateAppend caDirMount id c = addDirMount c := by
  cases c with
  | mk n ms => cases ms <;> simp [afterCreateAppend, addDirMount, Slice.elems]

theorem afterCreateAppend_addDirMount (c : Container) :
    afterCreateAppend caBundleMount addDirMount c = jobContainerAfter c := by
  cases c with
  | mk n ms => cases ms <;> simp [afterCreateAppend, addDirMount, jobContainerAfter, Slice.elems]

theorem jobDirPairs_snd (l : List (Nat × Container)) :
    (l.flatMap jobDirPairs).map Prod.snd = l.flatMap (createAppendSteps false caDirMount) := by
  induction l with
  | nil => rfl
  | cons ic l ih =>
    simp only [List.flatMap_cons, List.map_append, ih]
    congr 1
    unfold jobDirPairs createAppendSteps
    by_cases h : ic.2.VolumeMounts = none <;> simp [h]

theorem jobBundlePairs_snd (l : List (Nat × Container)) :
    (l.flatMap jobBundlePairs).map Prod.snd =
      l.flatMap (createAppendSteps false caBundleMount) := by
  induction l with
  | nil => rfl
  | cons ic l ih =>
    simp only [List.flatMap_cons, List.map_append, ih]
    congr 1
    unfold jobBundlePairs createAppendSteps
    by_cases h : ic.2.VolumeMounts = none <;> simp [h]

theorem run_jobPairs (config : Config) (job : Job) :
    runSteps ((jobPairs config job).map Prod.snd) job.Spec.Template.Spec =
      some (patchedJobSpec config job.Spec.Template.Spec) := by
  obtain ⟨⟨⟨⟨vols, inits, conts⟩⟩⟩⟩ := job
  unfold jobPairs patchedJobSpec
  simp only [List.map_append, runSteps_append, jobDirPairs_snd, jobBundlePairs_snd]
  have hvol : runSteps (((if vols = none then
        [(({ op := "add", path := "/spec/template/spec/volumes", value := .arr [] } : PatchOp),
          PodSpec.createVolumes)]
       else []) ++
      [(({ op := "add", path := "/spec/template/spec/volumes/-",
           value := volumeValue config } : PatchOp), stepVolume config)]).map Prod.snd)
      { Volumes := vols, InitContainers := inits, Containers := conts } =
      some { Volumes := some (Slice.elems vols ++ [caVolume config]), InitContainers := inits,
             Containers := conts } := by
    cases vols with
    | none => simp [runSteps, PodSpec.createVolumes, stepVolume, PodSpec.appendVolume, Slice.elems]
    | some vs => simp [runSteps, stepVolume, PodSpec.appendVolume, Slice.elems]
  simp only [List.map_append] at hvol
  rw [runSteps_append] at hvol
  rw [hvol]
  dsimp only
  cases conts with
  | none => simp [Slice.elems, runSteps]
  | some cs =>
    have h1 := run_createAppend false caDirMount id (fun c h => h) cs []
      { Volumes := some (Slice.elems vols ++ [caVolume config]), InitContainers := inits,
        Containers := some cs } (by simp [PodSpec.containersOf])
    have h2 := run_createAppend false caBundleMount addDirMount
      (fun c _ => by simp [addDirMount]) cs []
      { Volumes := some (Slice.elems vols ++ [caVolume config]), InitContainers := inits,
        Containers := some (cs.map addDirMount) } (by simp [PodSpec.containersOf])
    simp only [List.length_nil, List.nil_append, PodSpec.withContainers, Bool.false_eq_true,
      if_false] at h1 h2
    have e1 : cs.map (afterCreateAppend caDirMount id) = cs.map addDirMount :=
      List.map_congr_left (fun c _ => afterCreateAppend_id c)
    have e2 : cs.map (afterCreateAppend caBundleMount addDirMount) = cs.map jobContainerAfter :=
      List.map_congr_left (fun c _ => afterCreateAppend_addDirMount c)
    rw [e1] at h1
    rw [e2] at h2
    rw [show Slice.elems (some cs) = cs from rfl, h1]
    dsimp only
    rw [h2]
    rfl

/-! ## Applying the patch of a Job -/

/-- The patch of a Job applies to every document of that Job, and the patched document
decodes to the Job with `patchedJobSpec`. -/
theorem job_patch_agrees (config : Config) {doc : Json} {job : Job}
    (hd : Job.ofJson doc = some job) :
    ∃ doc', applyPatch (mutateJob config job) doc = some doc' ∧
      Job.ofJson doc' =
        some { Spec := { Template := { Spec := patchedJobSpec config job.Spec.Template.Spec } } } := by
  have h := applyPatch_agrees Job.ofJson
    ((jobPairs config job).map (fun q => (q.1, Job.atSpec q.2))) (jobPairs_agree config job)
    doc job hd
  have h1 : ((jobPairs config job).map (fun q => (q.1, Job.atSpec q.2))).map Prod.fst =
      mutateJob config job := by
    rw [← jobPairs_fst, List.map_map]; rfl
  have h2 : ((jobPairs config job).map (fun q => (q.1, Job.atSpec q.2))).map Prod.snd =
      ((jobPairs config job).map Prod.snd).map Job.atSpec := by
    rw [List.map_map, List.map_map]; rfl
  rw [h1, h2, runSteps_job] at h
  simp only [Job.atSpec, run_jobPairs] at h
  exact h

/-! ## The Job builder -/

/-- C7 (the code at the failing input): for the Job `jobNullMounts`, whose container has
a nil `volumeMounts`, the second loop emits the array creation again after the first loop
appended the directory mount; applied in order, that second creation replaces the array,
so in the patched Job the container has the bundle-file mount alone and no mount at the
certificate directory. -/
theorem job_round_trip_loses_dir_mount :
    Job.ofJson jobNullMounts.toJson = some jobNullMounts ∧
      (mutateJob defaultConfig jobNullMounts).map (fun o => (o.path, o.value)) =
        [("/spec/template/spec/volumes", .arr []),
         ("/spec/template/spec/volumes/-", volumeValue defaultConfig),
         ("/spec/template/spec/containers/0/volumeMounts", .arr []),
         ("/spec/template/spec/containers/0/volumeMounts/-", dirMountValue),
         ("/spec/template/spec/containers/0/volumeMounts", .arr []),
         ("/spec/template/spec/containers/0/volumeMounts/-", bundleMountValue)] ∧
      (applyPatch (mutateJob defaultConfig jobNullMounts) jobNullMounts.toJson).bind Job.ofJson =
        some jobNullMountsPatched ∧
      Slice.elems jobNullMountsPatched.Spec.Template.Spec.Containers =
        [{ Name := "job", VolumeMounts := some [caBundleMount] }] ∧
      ¬ hasDirMount { Name := "job", VolumeMounts := some [caBundleMount] } := by
  decide

theorem jobContainerMountsEnd_inj {i j : Nat}
    (h : jobContainerMountsEnd i = jobContainerMountsEnd j) : i = j := by
  simp [jobContainerMountsEnd, String.ext_iff, String.data_append] at h
  exact toString_injective (String.ext h)

theorem jobContainerMountsEnd_ne_volumesEnd (i : Nat) :
    jobContainerMountsEnd i ≠ "/spec/template/spec/volumes/-" := by
  simp [jobContainerMountsEnd, String.ext_iff, String.data_append]

theorem jobContainerMounts_ne_volumesEnd (i : Nat) :
    jobContainerMounts i ≠ "/spec/template/spec/volumes/-" := by
  simp [jobContainerMounts, String.ext_iff, String.data_append]

theorem isAppend_jobContainerMountsEnd (i : Nat) (v : Json) :
    isAppend { op := "add", path := jobContainerMountsEnd i, value := v } = true := by
  simp [isAppend, jobContainerMountsEnd, parsePointer_jobMountsAppend]

theorem isAppend_jobContainerMounts (i : Nat) (v : Json) :
    isAppend { op := "add", path := jobContainerMounts i, value := v } = false := by
  simp [isAppend, jobContainerMounts, parsePointer_jobMounts]

theorem isAppend_jobVolumeOp (config : Config) : isAppend (jobVolumeOp config) = true := by
  simp [isAppend, jobVolumeOp, parsePointer_jobVolumesAppend]

theorem isAppend_jobVolumesCreateOp : isAppend jobVolumesCreateOp = false := by
  decide

theorem filter_isAppend_jobDirOps (cs : List Container) (k : Nat) :
    ((List.enumFrom k cs).flatMap jobDirOps).filter isAppend =
      (List.range' k cs.length).map jobDirOp := by
  induction cs generalizing k with
  | nil => rfl
  | cons c cs ih =>
    simp only [List.enumFrom_cons, List.flatMap_cons, List.filter_append, ih, List.length_cons,
      List.range'_succ, List.map_cons]
    unfold jobDirOps
    by_cases h : c.VolumeMounts = none <;>
      simp [h, List.filter_cons, isAppend_jobContainerMountsEnd, isAppend_jobContainerMounts,
        jobDirOp]

theorem filter_isAppend_jobBundleOps (cs : List Container) (k : Nat) :
    ((List.enumFrom k cs).flatMap jobBundleOps).filter isAppend =
      (List.range' k cs.length).map jobBundleOp := by
  induction cs generalizing k with
  | nil => rfl
  | cons c cs ih =>
    simp only [List.enumFrom_cons, List.flatMap_cons, List.filter_append, ih, List.length_cons,
      List.range'_succ, List.map_cons]
    unfold jobBundleOps
    by_cases h : c.VolumeMounts = none <;>
      simp [h, List.filter_cons, isAppend_jobContainerMountsEnd, isAppend_jobContainerMounts,
        jobBundleOp]

/-- The appends of a Job patch depend on the number of template containers only. -/
theorem filter_isAppend_mutateJob (config : Config) (job : Job) :
    (mutateJob config job).filter isAppend =
      jobVolumeOp config ::
        ((List.range' 0 (Slice.elems job.Spec.Template.Spec.Containers).length).map jobDirOp ++
          (List.range' 0 (Slice.elems job.Spec.Template.Spec.Containers).length).map
            jobBundleOp) := by
  rw [mutateJob_eq]
  simp only [List.filter_append, filter_isAppend_jobDirOps, filter_isAppend_jobBundleOps]
  have h1 : (if job.Spec.Template.Spec.Volumes = none then
      [({ op := "add", path := "/spec/template/spec/volumes", value := .arr [] } : PatchOp)]
      else []).filter isAppend = [] := by
    split
    · exact (List.filter_eq_nil_iff).2 (fun o ho => by
        simp only [List.mem_singleton] at ho
        subst ho
        decide)
    · rfl
  have h2 : List.filter isAppend
      [({ op := "add", path := "/spec/template/spec/volumes/-", value := volumeValue config } :
        PatchOp)] = [jobVolumeOp config] := by
    have := isAppend_jobVolumeOp config
    simp only [jobVolumeOp] at this
    simp [List.filter_cons, this, jobVolumeOp]
  rw [h1, h2]
  rfl

theorem countP_enumFrom_flatMap (P : PatchOp → Bool) (f : Nat × Container → List PatchOp)
    (i : Nat) (hf : ∀ j c, List.countP P (f (j, c)) = if j = i then 1 else 0)
    (cs : List Container) (k : Nat) :
    List.countP P ((List.enumFrom k cs).flatMap f) =
      if k ≤ i ∧ i < k + cs.length then 1 else 0 := by
  induction cs generalizing k with
  | nil =>
    have : ¬ (k ≤ i ∧ i < k) := by omega
    simp [this]
  | cons c cs ih =>
    rw [List.enumFrom_cons, List.flatMap_cons, List.countP_append, ih, hf]
    simp only [List.length_cons]
    by_cases h1 : k = i
    · subst h1; simp
    · by_cases h2 : k + 1 ≤ i ∧ i < k + 1 + cs.length
      · have : k ≤ i ∧ i < k + (cs.length + 1) := by omega
        simp [h1, h2, this]
      · have : ¬ (k ≤ i ∧ i < k + (cs.length + 1)) := by omega
        simp [h1, h2, this]

theorem countP_enumFrom_flatMap_zero (P : PatchOp → Bool) (f : Nat × Container → List PatchOp)
    (hf : ∀ j c, List.countP P (f (j, c)) = 0) (cs : List Container) (k : Nat) :
    List.countP P ((List.enumFrom k cs).flatMap f) = 0 := by
  induction cs generalizing k with
  | nil => rfl
  | cons c cs ih =>
    rw [List.enumFrom_cons, List.flatMap_cons, List.countP_append, ih, hf]

theorem countP_jobDirOps (i j : Nat) (c : Container) (v : Json) :
    List.countP (fun o => decide (o.path = jobContainerMountsEnd i ∧ o.value = v))
        (jobDirOps (j, c)) =
      if j = i ∧ v = dirMountValue then 1 else 0 := by
  have hne : jobContainerMounts j ≠ jobContainerMountsEnd i := by
    intro e
    have h1 := parsePointer_jobMounts j
    have h2 := parsePointer_jobMountsAppend i
    unfold jobContainerMounts at e
    unfold jobContainerMountsEnd at e
    rw [e, h2] at h1
    simp at h1
  unfold jobDirOps
  by_cases h : j = i
  · subst h
    by_cases hv : v = dirMountValue
    · by_cases hc : c.VolumeMounts = none <;>
        simp [hc, hv, List.countP_cons, hne]
    · have hv' : dirMountValue ≠ v := fun e => hv e.symm
      by_cases hc : c.VolumeMounts = none <;>
        simp [hc, hv, hv', List.countP_cons, hne]
  · have hp : jobContainerMountsEnd j ≠ jobContainerMountsEnd i :=
      fun e => h (jobContainerMountsEnd_inj e)
    by_cases hc : c.VolumeMounts = none <;>
      simp [hc, h, hp, List.countP_cons, hne]

theorem countP_jobBundleOps (i j : Nat) (c : Container) (v : Json) :
    List.countP (fun o => decide (o.path = jobContainerMountsEnd i ∧ o.value = v))
        (jobBundleOps (j, c)) =
      if j = i ∧ v = bundleMountValue then 1 else 0 := by
  have hne : jobContainerMounts j ≠ jobContainerMountsEnd i := by
    intro e
    have h1 := parsePointer_jobMounts j
    have h2 := parsePointer_jobMountsAppend i
    unfold jobContainerMounts at e
    unfold jobContainerMountsEnd at e
    rw [e, h2] at h1
    simp at h1
  unfold jobBundleOps
  by_cases h : j = i
  · subst h
    by_cases hv : v = bundleMountValue
    · by_cases hc : c.VolumeMounts = none <;>
        simp [hc, hv, List.countP_cons, hne]
    · have hv' : bundleMountValue ≠ v := fun e => hv e.symm
      by_cases hc : c.VolumeMounts = none <;>
        simp [hc, hv, hv', List.countP_cons, hne]
  · have hp : jobContainerMountsEnd j ≠ jobContainerMountsEnd i :=
      fun e => h (jobContainerMountsEnd_inj e)
    by_cases hc : c.VolumeMounts = none <;>
      simp [hc, h, hp, List.countP_cons, hne]

theorem jobRest_paths {o : PatchOp} {cs : List Container} {k : Nat}
    (h : o ∈ (List.enumFrom k cs).flatMap jobDirOps ++ (List.enumFrom k cs).flatMap jobBundleOps) :
    ∃ j, o.path = jobContainerMounts j ∨ o.path = jobContainerMountsEnd j := by
  rcases List.mem_append.1 h with h | h
  · obtain ⟨ic, -, ho⟩ := List.mem_flatMap.1 h
    refine ⟨ic.1, ?_⟩
    unfold jobDirOps at ho
    rcases List.mem_append.1 ho with ho | ho
    · split at ho
      · simp only [List.mem_singleton] at ho
        subst ho; exact Or.inl rfl
      · simp at ho
    · simp only [List.mem_singleton] at ho
      subst ho; exact Or.inr rfl
  · obtain ⟨ic, -, ho⟩ := List.mem_flatMap.1 h
    refine ⟨ic.1, ?_⟩
    unfold jobBundleOps at ho
    rcases List.mem_append.1 ho with ho | ho
    · split at ho
      · simp only [List.mem_singleton] at ho
        subst ho; exact Or.inl rfl
      · simp at ho
    · simp only [List.mem_singleton] at ho
      subst ho; exact Or.inr rfl

theorem countP_mount_mutateJob (config : Config) (job : Job) (i : Nat)
    (hi : i < (Slice.elems job.Spec.Template.Spec.Containers).length) :
    List.countP (fun o => decide (o.path = jobContainerMountsEnd i ∧ o.value = dirMountValue))
        (mutateJob config job) = 1 ∧
      List.countP (fun o => decide (o.path = jobContainerMountsEnd i ∧ o.value = bundleMountValue))
        (mutateJob config job) = 1 := by
  have hvol : ∀ v : Json, List.countP
      (fun o => decide (o.path = jobContainerMountsEnd i ∧ o.value = v))
      ((if job.Spec.Template.Spec.Volumes = none then
          [({ op := "add", path := "/spec/template/spec/volumes", value := .arr [] } : PatchOp)]
        else []) ++
        [{ op := "add", path := "/spec/template/spec/volumes/-", value := volumeValue config }]) =
      0 := by
    intro v
    rw [List.countP_eq_zero]
    intro o ho
    have hp : o.path ≠ jobContainerMountsEnd i := by
      rcases List.mem_append.1 ho with ho | ho
      · split at ho
        · simp only [List.mem_singleton] at ho
          subst ho
          simp [jobContainerMountsEnd, String.ext_iff, String.data_append]
        · simp at ho
      · simp only [List.mem_singleton] at ho
        subst ho
        exact (jobContainerMountsEnd_ne_volumesEnd i).symm
    simp [hp]
  have hdd := countP_enumFrom_flatMap
    (fun o => decide (o.path = jobContainerMountsEnd i ∧ o.value = dirMountValue)) jobDirOps i
    (fun j c => by rw [countP_jobDirOps]; simp)
    (Slice.elems job.Spec.Template.Spec.Containers) 0
  have hdb := countP_enumFrom_flatMap_zero
    (fun o => decide (o.path = jobContainerMountsEnd i ∧ o.value = dirMountValue)) jobBundleOps
    (fun j c => by
      rw [countP_jobBundleOps]
      have : dirMountValue ≠ bundleMountValue := by decide
      simp [this])
    (Slice.elems job.Spec.Template.Spec.Containers) 0
  have hbb := countP_enumFrom_flatMap
    (fun o => decide (o.path = jobContainerMountsEnd i ∧ o.value = bundleMountValue))
    jobBundleOps i (fun j c => by rw [countP_jobBundleOps]; simp)
    (Slice.elems job.Spec.Template.Spec.Containers) 0
  have hbd := countP_enumFrom_flatMap_zero
    (fun o => decide (o.path = jobContainerMountsEnd i ∧ o.value = bundleMountValue)) jobDirOps
    (fun j c => by
      rw [countP_jobDirOps]
      have : bundleMountValue ≠ dirMountValue := by decide
      simp [this])
    (Slice.elems job.Spec.Template.Spec.Containers) 0
  have hrange : 0 ≤ i ∧ i < 0 + (Slice.elems job.Spec.Template.Spec.Containers).length :=
    ⟨Nat.zero_le _, by omega⟩
  rw [if_pos hrange] at hdd hbb
  rw [mutateJob_eq]
  constructor
  · rw [List.countP_append, List.countP_append, hvol, hdd, hdb]
  · rw [List.countP_append, List.countP_append, hvol, hbd, hbb]

/-- C9: for every Job and configuration, whatever volumes and mounts the template already
has, the patch sequence is the volume-add, immediately preceded by the creation of the
`volumes` array exactly when `volumes` is nil, followed by operations none of which is at
the volumes pointer, so it holds exactly one volume-add; for every template container
index it holds exactly one directory mount-add and exactly one bundle-file mount-add at
that container's `volumeMounts` pointer; it is not empty; and it applies to any document
of the Job, after which the builder, run on the patched Job, yields a non-empty sequence
with the same appends. -/
theorem job_builder_unconditional (config : Config) (job : Job) :
    (∃ rest, mutateJob config job =
        (if job.Spec.Template.Spec.Volumes = none then [jobVolumesCreateOp] else []) ++
          jobVolumeOp config :: rest ∧
        ∀ o ∈ rest, o.path ≠ "/spec/template/spec/volumes/-") ∧
      List.countP (fun o => decide (o.path = "/spec/template/spec/volumes/-"))
        (mutateJob config job) = 1 ∧
      (∀ i, i < (Slice.elems job.Spec.Template.Spec.Containers).length →
        List.countP (fun o => decide (o.path = jobContainerMountsEnd i ∧ o.value = dirMountValue))
            (mutateJob config job) = 1 ∧
          List.countP
            (fun o => decide (o.path = jobContainerMountsEnd i ∧ o.value = bundleMountValue))
            (mutateJob config job) = 1) ∧
      mutateJob config job ≠ [] ∧
      (∀ doc, Job.ofJson doc = some job →
        ∃ doc' job', applyPatch (mutateJob config job) doc = some doc' ∧
          Job.ofJson doc' = some job' ∧
          mutateJob config job' ≠ [] ∧
          (mutateJob config job').filter isAppend = (mutateJob config job).filter isAppend) := by
  have hrest : ∀ o ∈ (List.enumFrom 0 (Slice.elems job.Spec.Template.Spec.Containers)).flatMap
        jobDirOps ++
      (List.enumFrom 0 (Slice.elems job.Spec.Template.Spec.Containers)).flatMap jobBundleOps,
      o.path ≠ "/spec/template/spec/volumes/-" := by
    intro o ho
    obtain ⟨j, hj | hj⟩ := jobRest_paths ho
    · rw [hj]; exact jobContainerMounts_ne_volumesEnd j
    · rw [hj]; exact jobContainerMountsEnd_ne_volumesEnd j
  have hshape : mutateJob config job =
      (if job.Spec.Template.Spec.Volumes = none then [jobVolumesCreateOp] else []) ++
        jobVolumeOp config ::
          ((List.enumFrom 0 (Slice.elems job.Spec.Template.Spec.Containers)).flatMap jobDirOps ++
            (List.enumFrom 0 (Slice.elems job.Spec.Template.Spec.Containers)).flatMap
              jobBundleOps) := by
    rw [mutateJob_eq]
    simp [jobVolumesCreateOp, jobVolumeOp]
  have hne : ∀ job0 : Job, mutateJob config job0 ≠ [] := by
    intro job0 h
    have := congrArg (List.filter isAppend) h
    rw [filter_isAppend_mutateJob] at this
    simp at this
  refine ⟨⟨_, hshape, hrest⟩, ?_, countP_mount_mutateJob config job, hne job, ?_⟩
  · rw [hshape, List.countP_append, List.countP_cons, countP_eq_zero_of_paths hrest]
    by_cases hv : job.Spec.Template.Spec.Volumes = none
    · simp [hv, jobVolumesCreateOp, jobVolumeOp]
    · simp [hv, jobVolumeOp]
  · intro doc hd
    obtain ⟨doc', happ, hdec⟩ := job_patch_agrees config hd
    refine ⟨doc', _, happ, hdec, hne _, ?_⟩
    rw [filter_isAppend_mutateJob, filter_isAppend_mutateJob]
    have hlen : (Slice.elems (patchedJobSpec config job.Spec.Template.Spec).Containers).length =
        (Slice.elems job.Spec.Template.Spec.Containers).length := by
      unfold patchedJobSpec
      cases job.Spec.Template.Spec.Containers <;> simp [Slice.elems]
    rw [hlen]

theorem job_builder_unconditional_witness :
    Job.ofJson jobAlreadyPatched.toJson = some jobAlreadyPatched ∧
      ∃ doc' job', applyPatch (mutateJob defaultConfig jobAlreadyPatched)
          jobAlreadyPatched.toJson = some doc' ∧
        Job.ofJson doc' = some job' ∧
        mutateJob defaultConfig job' ≠ [] ∧
        (mutateJob defaultConfig job').filter isAppend =
          (mutateJob defaultConfig jobAlreadyPatched).filter isAppend :=
  ⟨by decide,
    (job_builder_unconditional defaultConfig jobAlreadyPatched).2.2.2.2
      jobAlreadyPatched.toJson (by decide)⟩

/-! ## The engine -/

theorem marshalPatch_nil (quote : String → String) : marshalPatch quote [] = "[]" := by
  rfl

/-- C10: for every request whose target kind is neither `Pod` nor `Job`, whatever the raw
object bytes and whatever the object decoders would do with them, the engine returns no
error (serialisation of the envelope being unable to fail): it returns the serialisation
of the envelope whose response has `Allowed = true` and, as patch, the empty JSON array. -/
theorem unknown_kind_passes_through (lib : JsonLib) (body : String) (verbose : Bool)
    (config : Config) (admReview : AdmissionReview) (ar : AdmissionRequest)
    (hdec : lib.unmarshalReview body = .ok admReview)
    (hreq : admReview.Request = some ar)
    (hpod : ar.Kind.Kind ≠ "Pod") (hjob : ar.Kind.Kind ≠ "Job")
    (hser : ∀ r, ∃ out, lib.marshalReview r = .ok out) :
    ∃ resp out, mutateInternal lib body verbose config = .ok out ∧
      lib.marshalReview { admReview with Response := some resp } = .ok out ∧
      resp = buildResponse lib ar [] ∧
      resp.Allowed = true ∧ resp.Patch = "[]" := by
  obtain ⟨out, hout⟩ := hser { admReview with Response := some (buildResponse lib ar []) }
  refine ⟨buildResponse lib ar [], out, ?_, hout, rfl, rfl, marshalPatch_nil lib.quote⟩
  rw [hreq] at hout
  simp only [mutateInternal, hdec, hreq, hpod, hjob, if_false, respond, hout]

theorem unknown_kind_passes_through_witness :
    ∃ resp out, mutateInternal kindOnlyLib "ConfigMap" true defaultConfig = .ok out ∧
      kindOnlyLib.marshalReview
        { Request := some { UID := "uid-1",
                            Kind := { Group := "", Version := "v1", Kind := "ConfigMap" },
                            Object := { Raw := "not an object" } },
          Response := some resp } = .ok out ∧
      resp = buildResponse kindOnlyLib
        { UID := "uid-1", Kind := { Group := "", Version := "v1", Kind := "ConfigMap" },
          Object := { Raw := "not an object" } } [] ∧
      resp.Allowed = true ∧ resp.Patch = "[]" :=
  unknown_kind_passes_through kindOnlyLib "ConfigMap" true defaultConfig
    { Request := some { UID := "uid-1",
                        Kind := { Group := "", Version := "v1", Kind := "ConfigMap" },
                        Object := { Raw := "not an object" } },
      Response := none }
    { UID := "uid-1", Kind := { Group := "", Version := "v1", Kind := "ConfigMap" },
      Object := { Raw := "not an object" } }
    rfl rfl (by decide) (by decide) (fun r => ⟨_, rfl⟩)

/-! ## Decoding inverts the JSON form -/

theorem decodeList_map {α : Type} (f : Json → Option α) (g : α → Json)
    (h : ∀ a, f (g a) = some a) (as : List α) : decodeList f (as.map g) = some as := by
  induction as with
  | nil => rfl
  | cons a as ih => simp [decodeList, h, ih]

theorem keyToPath_ofJson_toJson (k : KeyToPath) : KeyToPath.ofJson k.toJson = some k := by
  simp [KeyToPath.ofJson, KeyToPath.toJson, getKey, optString]

theorem configMap_ofJson_toJson (c : ConfigMapVolumeSource) :
    ConfigMapVolumeSource.ofJson c.toJson = some c := by
  obtain ⟨n, items, m⟩ := c
  cases m <;>
    simp [ConfigMapVolumeSource.ofJson, ConfigMapVolumeSource.toJson, getKey, optString, optSlice,
      optInt, decodeList_map _ _ keyToPath_ofJson_toJson, Slice.elems]

theorem volume_ofJson_toJson (v : Volume) : Volume.ofJson v.toJson = some v := by
  obtain ⟨n, c⟩ := v
  cases c with
  | none => simp [Volume.ofJson, Volume.toJson, getKey, optString, optConfigMap]
  | some c =>
    have hc := configMap_ofJson_toJson c
    have hobj : ∃ kvs, c.toJson = .obj kvs := ⟨_, rfl⟩
    obtain ⟨kvs, hk⟩ := hobj
    rw [hk] at hc
    simp [Volume.ofJson, Volume.toJson, getKey, optString, optConfigMap, hk, hc]

theorem volumeMount_ofJson_toJson (m : VolumeMount) : VolumeMount.ofJson m.toJson = some m := by
  obtain ⟨n, p, sp, r⟩ := m
  by_cases h : sp = ""
  · subst h
    simp [VolumeMount.ofJson, VolumeMount.toJson, getKey, optString, optBool]
  · simp [VolumeMount.ofJson, VolumeMount.toJson, getKey, optString, optBool, h]

theorem container_ofJson_toJson (c : Container) : Container.ofJson c.toJson = some c := by
  obtain ⟨n, ms⟩ := c
  cases ms <;>
    simp [Container.ofJson, Container.toJson, getKey, optString, optSlice,
      decodeList_map _ _ volumeMount_ofJson_toJson]

theorem podSpec_ofJson_toJson (s : PodSpec) : PodSpec.ofJson s.toJson = some s := by
  obtain ⟨vs, ics, cs⟩ := s
  cases vs <;> cases ics <;> cases cs <;>
    simp [PodSpec.ofJson, PodSpec.toJson, sliceField, getKey, optSlice,
      decodeList_map _ _ volume_ofJson_toJson, decodeList_map _ _ container_ofJson_toJson]

/-- Every Pod is the decoding of its JSON document. -/
theorem pod_ofJson_toJson (p : Pod) : Pod.ofJson p.toJson = some p := by
  simp [Pod.ofJson, Pod.toJson, getKey, podSpec_ofJson_toJson]

/-- Every Job is the decoding of its JSON document. -/
theorem job_ofJson_toJson (j : Job) : Job.ofJson j.toJson = some j := by
  simp [Job.ofJson, Job.toJson, getKey, podSpec_ofJson_toJson]


/-! ## The engine: response, empty envelope, errors, configuration -/

/-- C11: for every request that carries a request payload and whose object, when the kind
is `Pod` or `Job`, decodes, the engine returns the serialisation of the envelope with a
response that has `Allowed = true`, patch type `JSONPatch`, the fixed non-empty audit
annotation, result status `Success`, the uid of the request, and as patch the
serialisation of the built sequence: the Pod patch, the Job patch, or the empty sequence
for any other kind. -/
theorem response_assembly (lib : JsonLib) (body : String) (verbose : Bool) (config : Config)
    (admReview : AdmissionReview) (ar : AdmissionRequest)
    (hdec : lib.unmarshalReview body = .ok admReview)
    (hreq : admReview.Request = some ar)
    (hpod : ar.Kind.Kind = "Pod" → ∃ pod, lib.unmarshalPod ar.Object.Raw = .ok pod)
    (hjob : ar.Kind.Kind = "Job" → ∃ job, lib.unmarshalJob ar.Object.Raw = .ok job) :
    ∃ resp p, mutateInternal lib body verbose config =
        lib.marshalReview { admReview with Response := some resp } ∧
      resp.Allowed = true ∧
      resp.PatchType = some "JSONPatch" ∧
      resp.AuditAnnotations = [("mutateme", "yup it did it")] ∧
      resp.AuditAnnotations ≠ [] ∧
      resp.Result = some { Status := "Success" } ∧
      resp.UID = ar.UID ∧
      resp.Patch = marshalPatch lib.quote p ∧
      (∀ pod, ar.Kind.Kind = "Pod" → lib.unmarshalPod ar.Object.Raw = .ok pod →
        p = mutatePod config pod) ∧
      (∀ job, ar.Kind.Kind = "Job" → lib.unmarshalJob ar.Object.Raw = .ok job →
        p = mutateJob config job) ∧
      (ar.Kind.Kind ≠ "Pod" → ar.Kind.Kind ≠ "Job" → p = []) := by
  have hrespond : ∀ p, respond lib admReview ar p =
      lib.marshalReview { admReview with Response := some (buildResponse lib ar p) } := by
    intro p
    unfold respond
    cases lib.marshalReview { admReview with Response := some (buildResponse lib ar p) } <;> rfl
  by_cases hk : ar.Kind.Kind = "Pod"
  · obtain ⟨pod, hp⟩ := hpod hk
    refine ⟨buildResponse lib ar (mutatePod config pod), mutatePod config pod, ?_, rfl, rfl, rfl,
      by simp [buildResponse], rfl, rfl, rfl, ?_, ?_, fun h => absurd hk h⟩
    · simp only [mutateInternal, hdec, hreq, hk, if_true, hp, hrespond]
    · intro pod' _ hp'
      rw [hp] at hp'
      cases hp'
      rfl
    · intro job hj
      rw [hk] at hj
      exact absurd hj (by decide)
  · by_cases hj : ar.Kind.Kind = "Job"
    · obtain ⟨job, hp⟩ := hjob hj
      refine ⟨buildResponse lib ar (mutateJob config job), mutateJob config job, ?_, rfl, rfl,
        rfl, by simp [buildResponse], rfl, rfl, rfl, fun _ h => absurd h hk, ?_,
        fun _ h => absurd hj h⟩
      · have hne : ¬ ("Job" = "Pod") := by decide
        simp only [mutateInternal, hdec, hreq, hj, hne, if_false, if_true, hp, hrespond]
      · intro job' _ hp'
        rw [hp] at hp'
        cases hp'
        rfl
    · refine ⟨buildResponse lib ar [], [], ?_, rfl, rfl, rfl, by simp [buildResponse], rfl, rfl,
        rfl, fun _ h => absurd h hk, fun _ h => absurd h hj, fun _ _ => rfl⟩
      simp only [mutateInternal, hdec, hreq, hk, hj, if_false, hrespond]

theorem response_assembly_witness :
    ∃ resp p, mutateInternal (tableLib { Request := some podRequest, Response := none })
          "review" false customConfig =
        (tableLib { Request := some podRequest, Response := none }).marshalReview
          { Request := some podRequest, Response := some resp } ∧
      resp.Allowed = true ∧
      resp.PatchType = some "JSONPatch" ∧
      resp.AuditAnnotations = [("mutateme", "yup it did it")] ∧
      resp.AuditAnnotations ≠ [] ∧
      resp.Result = some { Status := "Success" } ∧
      resp.UID = podRequest.UID ∧
      resp.Patch = marshalPatch
        (tableLib { Request := some podRequest, Response := none }).quote p ∧
      (∀ pod, podRequest.Kind.Kind = "Pod" →
        (tableLib { Request := some podRequest, Response := none }).unmarshalPod
          podRequest.Object.Raw = .ok pod → p = mutatePod customConfig pod) ∧
      (∀ job, podRequest.Kind.Kind = "Job" →
        (tableLib { Request := some podRequest, Response := none }).unmarshalJob
          podRequest.Object.Raw = .ok job → p = mutateJob customConfig job) ∧
      (podRequest.Kind.Kind ≠ "Pod" → podRequest.Kind.Kind ≠ "Job" → p = []) :=
  response_assembly (tableLib { Request := some podRequest, Response := none }) "review" false
    customConfig { Request := some podRequest, Response := none } podRequest rfl rfl
    (fun _ => ⟨podFresh, rfl⟩) (fun h => absurd h (by decide))

/-- C12: for every envelope that decodes and carries no request payload, the engine
returns the empty byte sequence, of length 0, and no error, whatever the object decoders
and the serialiser are: none of them is called and no patch is built. -/
theorem empty_envelope (lib : JsonLib) (body : String) (verbose : Bool) (config : Config)
    (admReview : AdmissionReview)
    (hdec : lib.unmarshalReview body = .ok admReview)
    (hreq : admReview.Request = none) :
    mutateInternal lib body verbose config = .ok "" ∧ "".length = 0 := by
  refine ⟨?_, rfl⟩
  simp only [mutateInternal, hdec, hreq]

theorem empty_envelope_witness :
    mutateInternal (tableLib { Request := none, Response := none }) "review" true
        defaultConfig = .ok "" ∧ "".length = 0 :=
  empty_envelope (tableLib { Request := none, Response := none }) "review" true defaultConfig
    { Request := none, Response := none } rfl rfl


/-- C13: when the envelope does not decode, or the kind is `Pod` or `Job` and the object
does not decode as that kind, the engine returns an error, hence no response bytes; and,
serialisation of the envelope being unable to fail, the engine returns an error in those
cases only. -/
theorem malformed_input (lib : JsonLib) (body : String) (verbose : Bool) (config : Config) :
    (∀ e, lib.unmarshalReview body = .error e →
        mutateInternal lib body verbose config =
          .error ("unmarshaling request failed with " ++ e)) ∧
      (∀ admReview ar e, lib.unmarshalReview body = .ok admReview →
        admReview.Request = some ar → ar.Kind.Kind = "Pod" →
        lib.unmarshalPod ar.Object.Raw = .error e →
        mutateInternal lib body verbose config =
          .error ("unable unmarshal pod json object " ++ e)) ∧
      (∀ admReview ar e, lib.unmarshalReview body = .ok admReview →
        admReview.Request = some ar → ar.Kind.Kind = "Job" →
        lib.unmarshalJob ar.Object.Raw = .error e →
        mutateInternal lib body verbose config =
          .error ("unable unmarshal job json object " ++ e)) ∧
      ((∀ r, ∃ out, lib.marshalReview r = .ok out) →
        ∀ msg, mutateInternal lib body verbose config = .error msg →
          (∃ e, lib.unmarshalReview body = .error e) ∨
            ∃ admReview ar e, lib.unmarshalReview body = .ok admReview ∧
              admReview.Request = some ar ∧
              ((ar.Kind.Kind = "Pod" ∧ lib.unmarshalPod ar.Object.Raw = .error e) ∨
                (ar.Kind.Kind = "Job" ∧ lib.unmarshalJob ar.Object.Raw = .error e))) := by
  refine ⟨?_, ?_, ?_, ?_⟩
  · intro e he
    simp only [mutateInternal, he]
  · intro admReview ar e hdec hreq hk he
    simp only [mutateInternal, hdec, hreq, hk, if_true, he]
  · intro admReview ar e hdec hreq hk he
    have hne : ¬ ("Job" = "Pod") := by decide
    simp only [mutateInternal, hdec, hreq, hk, hne, if_false, if_true, he]
  · intro hser msg hmsg
    have hrespond : ∀ admReview ar p, respond lib admReview ar p ≠ .error msg := by
      intro admReview ar p h
      obtain ⟨out, hout⟩ :=
        hser { admReview with Response := some (buildResponse lib ar p) }
      simp only [respond, hout] at h
      cases h
    cases hdec : lib.unmarshalReview body with
    | error e => exact Or.inl ⟨e, rfl⟩
    | ok admReview =>
      right
      cases hreq : admReview.Request with
      | none =>
        simp only [mutateInternal, hdec, hreq] at hmsg
        cases hmsg
      | some ar =>
        by_cases hk : ar.Kind.Kind = "Pod"
        · cases hp : lib.unmarshalPod ar.Object.Raw with
          | error e => exact ⟨admReview, ar, e, rfl, hreq, Or.inl ⟨hk, hp⟩⟩
          | ok pod =>
            simp only [mutateInternal, hdec, hreq, hk, if_true, hp] at hmsg
            exact absurd hmsg (hrespond _ _ _)
        · by_cases hj : ar.Kind.Kind = "Job"
          · cases hp : lib.unmarshalJob ar.Object.Raw with
            | error e => exact ⟨admReview, ar, e, rfl, hreq, Or.inr ⟨hj, hp⟩⟩
            | ok job =>
              simp only [mutateInternal, hdec, hreq, hk, if_false, hj, if_true, hp] at hmsg
              exact absurd hmsg (hrespond _ _ _)
          · simp only [mutateInternal, hdec, hreq, hk, hj, if_false] at hmsg
            exact absurd hmsg (hrespond _ _ _)

theorem malformed_input_witness :
    mutateInternal (tableLib { Request := some badPodRequest, Response := none })
        "not json" false defaultConfig =
        .error ("unmarshaling request failed with " ++ "invalid character") ∧
      mutateInternal (tableLib { Request := some badPodRequest, Response := none })
        "review" false defaultConfig =
        .error ("unable unmarshal pod json object " ++ "cannot unmarshal") ∧
      mutateInternal (tableLib { Request := some badJobRequest, Response := none })
        "review" false defaultConfig =
        .error ("unable unmarshal job json object " ++ "cannot unmarshal") ∧
      ((∃ e, (tableLib { Request := some badPodRequest, Response := none }).unmarshalReview
          "review" = .error e) ∨
        ∃ admReview ar e,
          (tableLib { Request := some badPodRequest, Response := none }).unmarshalReview
            "review" = .ok admReview ∧
          admReview.Request = some ar ∧
          ((ar.Kind.Kind = "Pod" ∧
              (tableLib { Request := some badPodRequest, Response := none }).unmarshalPod
                ar.Object.Raw = .error e) ∨
            (ar.Kind.Kind = "Job" ∧
              (tableLib { Request := some badPodRequest, Response := none }).unmarshalJob
                ar.Object.Raw = .error e))) :=
  ⟨(malformed_input (tableLib { Request := some badPodRequest, Response := none })
      "not json" false defaultConfig).1 "invalid character" rfl,
   (malformed_input (tableLib { Request := some badPodRequest, Response := none })
      "review" false defaultConfig).2.1 { Request := some badPodRequest, Response := none }
      badPodRequest "cannot unmarshal" rfl rfl rfl rfl,
   (malformed_input (tableLib { Request := some badJobRequest, Response := none })
      "review" false defaultConfig).2.2.1 { Request := some badJobRequest, Response := none }
      badJobRequest "cannot unmarshal" rfl rfl rfl rfl,
   (malformed_input (tableLib { Request := some badPodRequest, Response := none })
      "review" false defaultConfig).2.2.2 (fun _ => ⟨_, rfl⟩)
      ("unable unmarshal pod json object " ++ "cannot unmarshal") rfl⟩

/-- C15: with the environment a function from variable names to optional values,
`GetConfig` returns `trust-bundle`, `trust-bundle.pem` and `ca-certificates.crt` for each
of the three variables that is unset or set to the empty string, and the value of the
variable, unchanged, whenever it is set to a non-empty string. -/
theorem getConfig_defaults (env : String → Option String) :
    ((env "CA_CONFIGMAP_NAME" = none ∨ env "CA_CONFIGMAP_NAME" = some "") →
        (GetConfig (getenv env)).ConfigMapName = "trust-bundle") ∧
      ((env "CA_CONFIGMAP_KEY" = none ∨ env "CA_CONFIGMAP_KEY" = some "") →
        (GetConfig (getenv env)).ConfigMapKey = "trust-bundle.pem") ∧
      ((env "CA_CERT_FILENAME" = none ∨ env "CA_CERT_FILENAME" = some "") →
        (GetConfig (getenv env)).CertFileName = "ca-certificates.crt") ∧
      (∀ v, v ≠ "" → env "CA_CONFIGMAP_NAME" = some v →
        (GetConfig (getenv env)).ConfigMapName = v) ∧
      (∀ v, v ≠ "" → env "CA_CONFIGMAP_KEY" = some v →
        (GetConfig (getenv env)).ConfigMapKey = v) ∧
      (∀ v, v ≠ "" → env "CA_CERT_FILENAME" = some v →
        (GetConfig (getenv env)).CertFileName = v) := by
  refine ⟨?_, ?_, ?_, ?_, ?_, ?_⟩
  · rintro (h | h) <;> simp [GetConfig, getEnvOrDefault, getenv, h]
  · rintro (h | h) <;> simp [GetConfig, getEnvOrDefault, getenv, h]
  · rintro (h | h) <;> simp [GetConfig, getEnvOrDefault, getenv, h]
  · intro v hv h
    simp [GetConfig, getEnvOrDefault, getenv, h, hv]
  · intro v hv h
    simp [GetConfig, getEnvOrDefault, getenv, h, hv]
  · intro v hv h
    simp [GetConfig, getEnvOrDefault, getenv, h, hv]

theorem getConfig_defaults_witness :
    (GetConfig (getenv sampleEnv)).ConfigMapName = "trust-bundle" ∧
      (GetConfig (getenv sampleEnv)).ConfigMapKey = "corp.pem" ∧
      (GetConfig (getenv sampleEnv)).CertFileName = "ca-certificates.crt" :=
  ⟨(getConfig_defaults sampleEnv).1 (Or.inl (by decide)),
   (getConfig_defaults sampleEnv).2.2.2.2.1 "corp.pem" (by decide) (by decide),
   (getConfig_defaults sampleEnv).2.2.1 (Or.inr (by decide))⟩


/-! ## The volume descriptor -/

theorem mem_mutateJob_cases {config : Config} {job : Job} {o : PatchOp}
    (h : o ∈ mutateJob config job) :
    (job.Spec.Template.Spec.Volumes = none ∧ o = jobVolumesCreateOp) ∨ o = jobVolumeOp config ∨
      o ∈ (List.enumFrom 0 (Slice.elems job.Spec.Template.Spec.Containers)).flatMap jobDirOps ++
        (List.enumFrom 0 (Slice.elems job.Spec.Template.Spec.Containers)).flatMap
          jobBundleOps := by
  rw [mutateJob_eq] at h
  rcases List.mem_append.1 h with h | h
  · rcases List.mem_append.1 h with h | h
    · rcases List.mem_append.1 h with h | h
      · split at h
        · rename_i hv
          simp only [List.mem_singleton] at h
          exact Or.inl ⟨hv, h⟩
        · simp at h
      · simp only [List.mem_singleton] at h
        exact Or.inr (Or.inl h)
    · exact Or.inr (Or.inr (List.mem_append_left _ h))
  · exact Or.inr (Or.inr (List.mem_append_right _ h))

/-- C14: every operation of a Pod patch at the volumes pointer of the Pod, and every
operation of a Job patch at the volumes pointer of the template, has op `add` and as
value the volume named ca-certificates, backed by the configMap `config.ConfigMapName`
with exactly one item, from key `config.ConfigMapKey` to path `config.CertFileName`, and
default mode 420, which is octal 644; the Job patch always has such an operation and the
Pod patch has one when the Pod has no volume of that name. -/
theorem volume_descriptor (config : Config) (pod : Pod) (job : Job) :
    (∀ o ∈ mutatePod config pod, o.path = "/spec/volumes/-" →
        o.op = "add" ∧
        o.value = .obj [("name", .str "ca-certificates"),
          ("configMap", .obj [("name", .str config.ConfigMapName),
            ("items", .arr [.obj [("key", .str config.ConfigMapKey),
                                  ("path", .str config.CertFileName)]]),
            ("defaultMode", .num 420)])] ∧
        Volume.ofJson o.value =
          some { Name := "ca-certificates",
                 ConfigMap := some { Name := config.ConfigMapName,
                                     Items := [{ Key := config.ConfigMapKey,
                                                 Path := config.CertFileName }],
                                     DefaultMode := some 420 } }) ∧
      (∀ o ∈ mutateJob config job, o.path = "/spec/template/spec/volumes/-" →
        o.op = "add" ∧
        o.value = .obj [("name", .str "ca-certificates"),
          ("configMap", .obj [("name", .str config.ConfigMapName),
            ("items", .arr [.obj [("key", .str config.ConfigMapKey),
                                  ("path", .str config.CertFileName)]]),
            ("defaultMode", .num 420)])] ∧
        Volume.ofJson o.value =
          some { Name := "ca-certificates",
                 ConfigMap := some { Name := config.ConfigMapName,
                                     Items := [{ Key := config.ConfigMapKey,
                                                 Path := config.CertFileName }],
                                     DefaultMode := some 420 } }) ∧
      (∃ o ∈ mutateJob config job, o.path = "/spec/template/spec/volumes/-") ∧
      (¬ hasCaVolume pod.Spec → ∃ o ∈ mutatePod config pod, o.path = "/spec/volumes/-") ∧
      (420 : Int) = 4 * 8 ^ 0 + 4 * 8 ^ 1 + 6 * 8 ^ 2 := by
  refine ⟨?_, ?_, ?_, ?_, by decide⟩
  · intro o ho hp
    rcases mem_mutatePod_cases ho with ⟨-, h | h⟩ | h
    · subst h
      exact ⟨rfl, rfl, volumeValue_decodes config⟩
    · obtain ⟨-, j, hj | hj⟩ := initPart_paths h
      · exact absurd (hj.symm.trans hp) (podInitMounts_ne_volumes j)
      · exact absurd (hj.symm.trans hp) (podInitMountsEnd_ne_volumes j)
    · obtain ⟨i, c, -, -, -, hoc⟩ := mem_containerPart h
      exact absurd ((mem_containerOps hoc).2.1.symm.trans hp) (podContainerMountsEnd_ne_volumes i)
  · intro o ho hp
    rcases mem_mutateJob_cases ho with ⟨-, h⟩ | h | h
    · subst h
      exact absurd hp (by decide)
    · subst h
      exact ⟨rfl, rfl, volumeValue_decodes config⟩
    · obtain ⟨j, hj | hj⟩ := jobRest_paths h
      · exact absurd (hj.symm.trans hp) (jobContainerMounts_ne_volumesEnd j)
      · exact absurd (hj.symm.trans hp) (jobContainerMountsEnd_ne_volumesEnd j)
  · refine ⟨jobVolumeOp config, ?_, rfl⟩
    rw [mutateJob_eq]
    simp [jobVolumeOp]
  · intro hv
    refine ⟨{ op := "add", path := "/spec/volumes/-", value := volumeValue config }, ?_, rfl⟩
    rw [mutatePod_eq, if_neg hv]
    simp

theorem volume_descriptor_witness :
    (∃ o ∈ mutatePod customConfig podFresh, o.path = "/spec/volumes/-") ∧
      ∀ o ∈ mutatePod customConfig podFresh, o.path = "/spec/volumes/-" →
        o.op = "add" ∧
        o.value = .obj [("name", .str "ca-certificates"),
          ("configMap", .obj [("name", .str "corp-ca"),
            ("items", .arr [.obj [("key", .str "ca.pem"), ("path", .str "corp-ca.crt")]]),
            ("defaultMode", .num 420)])] ∧
        Volume.ofJson o.value =
          some { Name := "ca-certificates",
                 ConfigMap := some { Name := "corp-ca",
                                     Items := [{ Key := "ca.pem", Path := "corp-ca.crt" }],
                                     DefaultMode := some 420 } } :=
  ⟨(volume_descriptor customConfig podFresh jobOne).2.2.2.1 (by decide),
   (volume_descriptor customConfig podFresh jobOne).1⟩


/-! ## Which containers of a Pod receive the mounts -/

theorem getElem?_takeWhile_iff (p : Container → Bool) (cs : List Container) (i : Nat)
    (c : Container) :
    (cs.takeWhile p)[i]? = some c ↔
      cs[i]? = some c ∧ ∀ j, j ≤ i → ∀ d, cs[j]? = some d → p d = true := by
  induction cs generalizing i with
  | nil => simp
  | cons x xs ih =>
    by_cases hx : p x = true
    · rw [List.takeWhile_cons, if_pos hx]
      cases i with
      | zero =>
        simp only [List.getElem?_cons_zero, Option.some.injEq, Nat.le_zero_eq]
        constructor
        · rintro rfl
          refine ⟨rfl, ?_⟩
          rintro j rfl d hd
          simp only [List.getElem?_cons_zero, Option.some.injEq] at hd
          subst hd
          exact hx
        · rintro ⟨h, -⟩
          exact h
      | succ k =>
        simp only [List.getElem?_cons_succ]
        rw [ih]
        constructor
        · rintro ⟨h1, h2⟩
          refine ⟨h1, ?_⟩
          intro j hj d hd
          cases j with
          | zero =>
            simp only [List.getElem?_cons_zero, Option.some.injEq] at hd
            subst hd
            exact hx
          | succ j' =>
            simp only [List.getElem?_cons_succ] at hd
            exact h2 j' (by omega) d hd
        · rintro ⟨h1, h2⟩
          refine ⟨h1, ?_⟩
          intro j hj d hd
          exact h2 (j + 1) (by omega) d (by simpa using hd)
    · rw [List.takeWhile_cons, if_neg hx]
      constructor
      · intro h
        simp at h
      · rintro ⟨-, h2⟩
        exact absurd (h2 0 (Nat.zero_le _) x (by simp)) hx

theorem takeWhile_getElem?_iff (cs : List Container) (i : Nat) (c : Container) :
    (cs.takeWhile (fun c => decide (¬ hasCaMount c)))[i]? = some c ↔
      cs[i]? = some c ∧ noMountUpTo cs i := by
  rw [getElem?_takeWhile_iff]
  unfold noMountUpTo
  constructor
  · rintro ⟨h1, h2⟩
    exact ⟨h1, fun j hj d hd => by simpa using h2 j hj d hd⟩
  · rintro ⟨h1, h2⟩
    exact ⟨h1, fun j hj d hd => by simpa using h2 j hj d hd⟩

theorem mem_mutatePod_at_container {config : Config} {pod : Pod} {o : PatchOp} {i : Nat}
    (hp : o.path = podContainerMountsEnd i) :
    o ∈ mutatePod config pod ↔
      o ∈ containerOps i ∧
        ∃ c, (Slice.elems pod.Spec.Containers)[i]? = some c ∧
          noMountUpTo (Slice.elems pod.Spec.Containers) i := by
  constructor
  · intro ho
    rcases mem_mutatePod_cases ho with ⟨-, h | h⟩ | h
    · rw [h] at hp
      exact absurd hp.symm (podContainerMountsEnd_ne_volumes i)
    · obtain ⟨-, j, hj | hj⟩ := initPart_paths h
      · exact absurd (hp.symm.trans hj) (podContainerMountsEnd_ne_initMounts i j)
      · exact absurd (hp.symm.trans hj) (podContainerMountsEnd_ne_initMountsEnd i j)
    · obtain ⟨⟨j, c⟩, hjc, hoc⟩ := List.mem_flatMap.1 h
      have hji : j = i := podContainerMountsEnd_inj ((mem_containerOps hoc).2.1.symm.trans hp)
      subst hji
      rw [List.mk_mem_enumFrom_iff_le_and_getElem?_sub, Nat.sub_zero,
        takeWhile_getElem?_iff] at hjc
      exact ⟨hoc, c, hjc.2.1, hjc.2.2⟩
  · rintro ⟨hoc, c, hc, hno⟩
    rw [mutatePod_eq]
    apply List.mem_append_right
    rw [List.mem_flatMap]
    refine ⟨(i, c), ?_, hoc⟩
    rw [List.mk_mem_enumFrom_iff_le_and_getElem?_sub, Nat.sub_zero, takeWhile_getElem?_iff]
    exact ⟨Nat.zero_le _, hc, hno⟩

theorem countP_mutatePod_at_container (config : Config) (pod : Pod) (i : Nat) :
    List.countP (fun o => decide (o.path = podContainerMountsEnd i)) (mutatePod config pod) =
      if i < ((Slice.elems pod.Spec.Containers).takeWhile
        (fun c => decide (¬ hasCaMount c))).length then 2 else 0 := by
  rw [mutatePod_eq, List.countP_append, countP_containers]
  have h0 : List.countP (fun o => decide (o.path = podContainerMountsEnd i))
      (if hasCaVolume pod.Spec then []
       else { op := "add", path := "/spec/volumes/-", value := volumeValue config } ::
         (List.enumFrom 0 (Slice.elems pod.Spec.InitContainers)).flatMap initContainerOps) =
      0 := by
    apply countP_eq_zero_of_paths
    intro o ho
    split at ho
    · simp at ho
    · rcases List.mem_cons.1 ho with h | h
      · rw [h]
        exact (podContainerMountsEnd_ne_volumes i).symm
      · obtain ⟨-, j, hj | hj⟩ := initPart_paths h
        · rw [hj]; exact (podContainerMountsEnd_ne_initMounts i j).symm
        · rw [hj]; exact (podContainerMountsEnd_ne_initMountsEnd i j).symm
  rw [h0]
  simp

/-- C16: for every Pod and every container index `i`, the patch sequence has an operation
at the `volumeMounts` pointer of container `i` if and only if no container with an index
up to `i` has a mount named ca-certificates, and then it has both mount-adds of that
container and exactly two operations at that pointer; so the containers that receive
mounts form an initial segment of the container list, and whether an operation at that
pointer is in the patch depends on the containers only, not on the configuration, the
volumes or the init-containers. -/
theorem container_mount_decision (config : Config) (pod : Pod) (i : Nat) (c : Container)
    (hc : (Slice.elems pod.Spec.Containers)[i]? = some c) :
    ((∃ o ∈ mutatePod config pod, o.path = podContainerMountsEnd i) ↔
        noMountUpTo (Slice.elems pod.Spec.Containers) i) ∧
      (noMountUpTo (Slice.elems pod.Spec.Containers) i →
        (∀ o ∈ containerOps i, o ∈ mutatePod config pod) ∧
          List.countP (fun o => decide (o.path = podContainerMountsEnd i))
            (mutatePod config pod) = 2) ∧
      (∀ j, j ≤ i → (∃ o ∈ mutatePod config pod, o.path = podContainerMountsEnd i) →
        ∃ o ∈ mutatePod config pod, o.path = podContainerMountsEnd j) ∧
      (∀ config' pod', pod'.Spec.Containers = pod.Spec.Containers →
        ∀ o, o.path = podContainerMountsEnd i →
          (o ∈ mutatePod config' pod' ↔ o ∈ mutatePod config pod)) := by
  have hdir : ∀ k, ({ op := "add", path := podContainerMountsEnd k, value := dirMountValue } :
      PatchOp) ∈ containerOps k := fun k => List.mem_cons_self _ _
  have hiff : ∀ k, (∃ d, (Slice.elems pod.Spec.Containers)[k]? = some d) →
      ((∃ o ∈ mutatePod config pod, o.path = podContainerMountsEnd k) ↔
        noMountUpTo (Slice.elems pod.Spec.Containers) k) := by
    intro k hk
    constructor
    · rintro ⟨o, ho, hp⟩
      obtain ⟨-, -, -, hno⟩ := (mem_mutatePod_at_container hp).1 ho
      exact hno
    · intro hno
      obtain ⟨d, hd⟩ := hk
      exact ⟨_, (mem_mutatePod_at_container rfl).2 ⟨hdir k, d, hd, hno⟩, rfl⟩
  refine ⟨hiff i ⟨c, hc⟩, ?_, ?_, ?_⟩
  · intro hno
    refine ⟨fun o ho => (mem_mutatePod_at_container (mem_containerOps ho).2.1).2
      ⟨ho, c, hc, hno⟩, ?_⟩
    rw [countP_mutatePod_at_container]
    have hlt : i < ((Slice.elems pod.Spec.Containers).takeWhile
        (fun c => decide (¬ hasCaMount c))).length := by
      have := (takeWhile_getElem?_iff (Slice.elems pod.Spec.Containers) i c).2 ⟨hc, hno⟩
      exact (List.getElem?_eq_some.1 this).1
    rw [if_pos hlt]
  · intro j hj hex
    have hno := (hiff i ⟨c, hc⟩).1 hex
    have hjlt : j < (Slice.elems pod.Spec.Containers).length := by
      have := (List.getElem?_eq_some.1 hc).1
      omega
    refine (hiff j ⟨_, List.getElem?_eq_getElem hjlt⟩).2 ?_
    intro k hk d hd
    exact hno k (by omega) d hd
  · intro config' pod' hsame o hp
    rw [mem_mutatePod_at_container hp, mem_mutatePod_at_container hp, hsame]

theorem container_mount_decision_witness :
    ((∃ o ∈ mutatePod defaultConfig podSecondMounted, o.path = podContainerMountsEnd 0) ↔
        noMountUpTo (Slice.elems podSecondMounted.Spec.Containers) 0) ∧
      ((∃ o ∈ mutatePod defaultConfig podSecondMounted, o.path = podContainerMountsEnd 2) ↔
        noMountUpTo (Slice.elems podSecondMounted.Spec.Containers) 2) ∧
      mutatePod defaultConfig podSecondMounted =
        { op := "add", path := "/spec/volumes/-", value := volumeValue defaultConfig } ::
          containerOps 0 :=
  ⟨(container_mount_decision defaultConfig podSecondMounted 0
      { Name := "a", VolumeMounts := some [] } (by decide)).1,
   (container_mount_decision defaultConfig podSecondMounted 2
      { Name := "c", VolumeMounts := some [] } (by decide)).1,
   by decide⟩


/-! ## The shape of every emitted operation -/

theorem not_endsInMountsAppend_of_last (path : String) (c : Char)
    (h : path.data.getLast? = some c) (hc : c ≠ '-') : ¬ endsInMountsAppend path := by
  intro hs
  obtain ⟨pre, hpre⟩ := hs
  rw [← hpre] at h
  simp at h
  exact hc h.symm

theorem isCaMountValue_dir : isCaMountValue dirMountValue :=
  ⟨caDirMount, dirMountValue_decodes, rfl, rfl, Or.inl rfl⟩

theorem isCaMountValue_bundle : isCaMountValue bundleMountValue :=
  ⟨caBundleMount, bundleMountValue_decodes, rfl, rfl, Or.inr rfl⟩

theorem pod_op_forms {config : Config} {pod : Pod} {o : PatchOp}
    (h : o ∈ mutatePod config pod) :
    o.op = "add" ∧
      ((o.path = "/spec/volumes/-" ∧ o.value = volumeValue config) ∨
        (∃ j, j < (Slice.elems pod.Spec.InitContainers).length ∧
          ((o.path = podInitMounts j ∧ o.value = .arr []) ∨
            (o.path = podInitMountsEnd j ∧ o.value = dirMountValue))) ∨
        (∃ j, j < (Slice.elems pod.Spec.Containers).length ∧
          o.path = podContainerMountsEnd j ∧
          (o.value = dirMountValue ∨ o.value = bundleMountValue))) := by
  rcases mem_mutatePod_cases h with ⟨-, h | h⟩ | h
  · subst h
    exact ⟨rfl, Or.inl ⟨rfl, rfl⟩⟩
  · obtain ⟨⟨j, c⟩, hjc, ho⟩ := List.mem_flatMap.1 h
    obtain ⟨-, hlt, -⟩ := List.mem_enumFrom hjc
    have hj : j < (Slice.elems pod.Spec.InitContainers).length := by omega
    unfold initContainerOps at ho
    rcases List.mem_append.1 ho with ho | ho
    · split at ho
      · simp only [List.mem_singleton] at ho
        subst ho
        exact ⟨rfl, Or.inr (Or.inl ⟨j, hj, Or.inl ⟨rfl, rfl⟩⟩)⟩
      · simp at ho
    · simp only [List.mem_singleton] at ho
      subst ho
      exact ⟨rfl, Or.inr (Or.inl ⟨j, hj, Or.inr ⟨rfl, rfl⟩⟩)⟩
  · obtain ⟨j, c, -, hc, -, ho⟩ := mem_containerPart h
    have hj : j < (Slice.elems pod.Spec.Containers).length := by
      rw [Nat.sub_zero] at hc
      exact (List.getElem?_eq_some.1 hc).1
    obtain ⟨hop, hp, hv⟩ := mem_containerOps ho
    exact ⟨hop, Or.inr (Or.inr ⟨j, hj, hp, hv⟩)⟩

theorem job_op_forms {config : Config} {job : Job} {o : PatchOp}
    (h : o ∈ mutateJob config job) :
    o.op = "add" ∧
      ((o.path = "/spec/template/spec/volumes" ∧ o.value = .arr []) ∨
        (o.path = "/spec/template/spec/volumes/-" ∧ o.value = volumeValue config) ∨
        (∃ j, j < (Slice.elems job.Spec.Template.Spec.Containers).length ∧
          ((o.path = jobContainerMounts j ∧ o.value = .arr []) ∨
            (o.path = jobContainerMountsEnd j ∧
              (o.value = dirMountValue ∨ o.value = bundleMountValue))))) := by
  rcases mem_mutateJob_cases h with ⟨-, h⟩ | h | h
  · subst h
    exact ⟨rfl, Or.inl ⟨rfl, rfl⟩⟩
  · subst h
    exact ⟨rfl, Or.inr (Or.inl ⟨rfl, rfl⟩)⟩
  · rcases List.mem_append.1 h with h | h
    · obtain ⟨⟨j, c⟩, hjc, ho⟩ := List.mem_flatMap.1 h
      obtain ⟨-, hlt, -⟩ := List.mem_enumFrom hjc
      have hj : j < (Slice.elems job.Spec.Template.Spec.Containers).length := by omega
      unfold jobDirOps at ho
      rcases List.mem_append.1 ho with ho | ho
      · split at ho
        · simp only [List.mem_singleton] at ho
          subst ho
          exact ⟨rfl, Or.inr (Or.inr ⟨j, hj, Or.inl ⟨rfl, rfl⟩⟩)⟩
        · simp at ho
      · simp only [List.mem_singleton] at ho
        subst ho
        exact ⟨rfl, Or.inr (Or.inr ⟨j, hj, Or.inr ⟨rfl, Or.inl rfl⟩⟩)⟩
    · obtain ⟨⟨j, c⟩, hjc, ho⟩ := List.mem_flatMap.1 h
      obtain ⟨-, hlt, -⟩ := List.mem_enumFrom hjc
      have hj : j < (Slice.elems job.Spec.Template.Spec.Containers).length := by omega
      unfold jobBundleOps at ho
      rcases List.mem_append.1 ho with ho | ho
      · split at ho
        · simp only [List.mem_singleton] at ho
          subst ho
          exact ⟨rfl, Or.inr (Or.inr ⟨j, hj, Or.inl ⟨rfl, rfl⟩⟩)⟩
        · simp at ho
      · simp only [List.mem_singleton] at ho
        subst ho
        exact ⟨rfl, Or.inr (Or.inr ⟨j, hj, Or.inr ⟨rfl, Or.inr rfl⟩⟩)⟩

theorem not_endsInMountsAppend_podInitMounts (j : Nat) :
    ¬ endsInMountsAppend (podInitMounts j) := by
  have hd : (podInitMounts j).data =
      ("/spec/initContainers/".data ++ (toString j).data) ++ "/volumeMounts".data := by
    simp [podInitMounts, String.data_append]
  refine not_endsInMountsAppend_of_last _ 's' ?_ (by decide)
  rw [hd, List.getLast?_append]
  rfl

theorem not_endsInMountsAppend_jobContainerMounts (j : Nat) :
    ¬ endsInMountsAppend (jobContainerMounts j) := by
  have hd : (jobContainerMounts j).data =
      ("/spec/template/spec/containers/".data ++ (toString j).data) ++
        "/volumeMounts".data := by
    simp [jobContainerMounts, String.data_append]
  refine not_endsInMountsAppend_of_last _ 's' ?_ (by decide)
  rw [hd, List.getLast?_append]
  rfl

theorem indexAfter_of_tokens {pre : List String} {n i : Nat} {ts post : List String}
    (hts : ts = pre ++ toString i :: post) (hi : i < n) : indexAfter pre n ts := by
  intro t rest h
  rw [hts] at h
  have h2 := List.append_cancel_left h
  simp only [List.cons.injEq] at h2
  exact ⟨i, by rw [← h2.1]; exact parseIndex_toString i, hi⟩


theorem not_endsInMountsAppend_volumes : ¬ endsInMountsAppend "/spec/volumes/-" := by
  unfold endsInMountsAppend
  decide

theorem not_endsInMountsAppend_jobVolumes :
    ¬ endsInMountsAppend "/spec/template/spec/volumes" := by
  unfold endsInMountsAppend
  decide

theorem not_endsInMountsAppend_jobVolumesEnd :
    ¬ endsInMountsAppend "/spec/template/spec/volumes/-" := by
  unfold endsInMountsAppend
  decide

/-- C17: every operation of a Pod patch and of a Job patch has op `add`; when its path
ends in the pointer of an append to a `volumeMounts` array, its value is a read-only mount
named ca-certificates at the certificate directory or at the bundle file; and its path is
a JSON Pointer in which every token that follows the tokens of the containers list, or of
the init-containers list, is an array index smaller than the length of that list in the
inspected object. -/
theorem patch_shape (config : Config) (pod : Pod) (job : Job) :
    (∀ o ∈ mutatePod config pod,
        o.op = "add" ∧
        (endsInMountsAppend o.path → isCaMountValue o.value) ∧
        ∃ ts, parsePointer o.path = some ts ∧
          indexAfter ["spec", "containers"] (Slice.elems pod.Spec.Containers).length ts ∧
          indexAfter ["spec", "initContainers"]
            (Slice.elems pod.Spec.InitContainers).length ts) ∧
      (∀ o ∈ mutateJob config job,
        o.op = "add" ∧
        (endsInMountsAppend o.path → isCaMountValue o.value) ∧
        ∃ ts, parsePointer o.path = some ts ∧
          indexAfter ["spec", "template", "spec", "containers"]
            (Slice.elems job.Spec.Template.Spec.Containers).length ts ∧
          indexAfter ["spec", "template", "spec", "initContainers"]
            (Slice.elems job.Spec.Template.Spec.InitContainers).length ts) := by
  constructor
  · intro o ho
    obtain ⟨hop, hform⟩ := pod_op_forms ho
    refine ⟨hop, ?_⟩
    rcases hform with ⟨hp, -⟩ | ⟨j, hj, ⟨hp, -⟩ | ⟨hp, hv⟩⟩ | ⟨j, hj, hp, hv⟩
    · rw [hp]
      refine ⟨fun h => absurd h not_endsInMountsAppend_volumes,
        _, parsePointer_podVolumes, ?_, ?_⟩
      · intro t rest h
        simp at h
      · intro t rest h
        simp at h
    · rw [hp]
      refine ⟨fun h => absurd h (not_endsInMountsAppend_podInitMounts j),
        _, parsePointer_initMounts j, ?_, indexAfter_of_tokens rfl hj⟩
      intro t rest h
      simp at h
    · rw [hp, hv]
      refine ⟨fun _ => isCaMountValue_dir,
        _, parsePointer_initMountsAppend j, ?_, indexAfter_of_tokens rfl hj⟩
      intro t rest h
      simp at h
    · rw [hp]
      refine ⟨fun _ => ?_, _, parsePointer_containerMountsAppend j,
        indexAfter_of_tokens rfl hj, ?_⟩
      · rcases hv with hv | hv
        · rw [hv]; exact isCaMountValue_dir
        · rw [hv]; exact isCaMountValue_bundle
      · intro t rest h
        simp at h
  · intro o ho
    obtain ⟨hop, hform⟩ := job_op_forms ho
    refine ⟨hop, ?_⟩
    rcases hform with ⟨hp, -⟩ | ⟨hp, -⟩ | ⟨j, hj, ⟨hp, -⟩ | ⟨hp, hv⟩⟩
    · rw [hp]
      refine ⟨fun h => absurd h not_endsInMountsAppend_jobVolumes,
        _, parsePointer_jobVolumes, ?_, ?_⟩
      · intro t rest h
        simp at h
      · intro t rest h
        simp at h
    · rw [hp]
      refine ⟨fun h => absurd h not_endsInMountsAppend_jobVolumesEnd,
        _, parsePointer_jobVolumesAppend, ?_, ?_⟩
      · intro t rest h
        simp at h
      · intro t rest h
        simp at h
    · rw [hp]
      refine ⟨fun h => absurd h (not_endsInMountsAppend_jobContainerMounts j),
        _, parsePointer_jobMounts j, indexAfter_of_tokens rfl hj, ?_⟩
      intro t rest h
      simp at h
    · rw [hp]
      refine ⟨fun _ => ?_, _, parsePointer_jobMountsAppend j,
        indexAfter_of_tokens rfl hj, ?_⟩
      · rcases hv with hv | hv
        · rw [hv]; exact isCaMountValue_dir
        · rw [hv]; exact isCaMountValue_bundle
      · intro t rest h
        simp at h

theorem patch_shape_witness :
    { op := "add", path := podContainerMountsEnd 1, value := bundleMountValue } ∈
        mutatePod defaultConfig podFresh ∧
      endsInMountsAppend (podContainerMountsEnd 1) ∧
      isCaMountValue bundleMountValue ∧
      ∃ ts, parsePointer (podContainerMountsEnd 1) = some ts ∧
        indexAfter ["spec", "containers"] (Slice.elems podFresh.Spec.Containers).length ts ∧
        indexAfter ["spec", "initContainers"]
          (Slice.elems podFresh.Spec.InitContainers).length ts :=
  ⟨by decide, by unfold endsInMountsAppend; decide,
   ((patch_shape defaultConfig podFresh jobNullMounts).1
      { op := "add", path := podContainerMountsEnd 1, value := bundleMountValue }
      (by decide)).2.1 (by unfold endsInMountsAppend; decide),
   ((patch_shape defaultConfig podFresh jobNullMounts).1
      { op := "add", path := podContainerMountsEnd 1, value := bundleMountValue }
      (by decide)).2.2⟩


/-! ## The Pod branch never creates a missing array -/

/-- The patch of a Pod does not apply to any document of the Pod when the volume must be
added to a null `volumes`, or when a container that receives the mounts has a null
`volumeMounts`. -/
theorem pod_patch_fails_without_arrays (config : Config) (doc : Json) (pod : Pod)
    (hd : Pod.ofJson doc = some pod)
    (h : (¬ hasCaVolume pod.Spec ∧ pod.Spec.Volumes = none) ∨
      ∃ c ∈ (Slice.elems pod.Spec.Containers).takeWhile (fun c => decide (¬ hasCaMount c)),
        c.VolumeMounts = none) :
    applyPatch (mutatePod config pod) doc = none := by
  have hag := pod_patch_agrees config hd
  simp only [Pod.atSpec, patchedPodSpec, if_pos h, Agrees] at hag
  exact hag

/-- C6 (the code at the failing inputs): for the Pod `podNullArrays`, with `volumes` null
and a container with `volumeMounts` null, the builder emits the volume-add and the two
mount-adds at the append pointers and no array creation, and the patch does not apply to
the Pod: already its first operation fails. Likewise the patch does not apply when only
`volumeMounts` is null (`podNullMounts`) or only `volumes` is null (`podNullVolumes`),
while the Job builder, which creates the arrays, emits a patch that applies to the Job of
the same shape. -/
theorem pod_round_trip_fails_on_null_arrays :
    Pod.ofJson podNullArrays.toJson = some podNullArrays ∧
      (mutatePod defaultConfig podNullArrays).map (fun o => (o.op, o.path, o.value)) =
        [("add", "/spec/volumes/-", volumeValue defaultConfig),
         ("add", "/spec/containers/0/volumeMounts/-", dirMountValue),
         ("add", "/spec/containers/0/volumeMounts/-", bundleMountValue)] ∧
      applyOp { op := "add", path := "/spec/volumes/-", value := volumeValue defaultConfig }
        podNullArrays.toJson = none ∧
      applyPatch (mutatePod defaultConfig podNullArrays) podNullArrays.toJson = none ∧
      Pod.ofJson podNullMounts.toJson = some podNullMounts ∧
      applyPatch (mutatePod defaultConfig podNullMounts) podNullMounts.toJson = none ∧
      Pod.ofJson podNullVolumes.toJson = some podNullVolumes ∧
      applyPatch (mutatePod defaultConfig podNullVolumes) podNullVolumes.toJson = none ∧
      (applyPatch (mutateJob defaultConfig jobNullMounts) jobNullMounts.toJson).isSome = true := by
  decide

end Kubetrust
